import Mathlib

/-!
# ARM mmu_gather (arch/arm/include/asm/tlb.h): gather/flush batching engine

A shallow embedding of the `CONFIG_MMU` half of `arch/arm/include/asm/tlb.h`.

* `struct mmu_gather` becomes the record `mmu_gather`; the pointer `tlb->pages` is either
  the inline array `tlb->local` or the address of a page obtained from `__get_free_pages`.
* Memory reachable through `tlb->pages` is explicit: `mmu_gather.local_` for the inline array
  and `World.heap` for allocated pages, both indexed by slot number.
* Calls into the rest of the kernel (`flush_tlb_mm`, `flush_tlb_range`, `flush_cache_range`,
  `free_pages_and_swap_cache`, ...) are recorded, in program order, in `World.trace`.
* `__get_free_pages(GFP_NOWAIT | __GFP_NOWARN, 0)` may fail at any call; its successive
  results are given by `World.oracle`, indexed by the number of calls made so far.
* `unsigned long` and `unsigned int` are 32 bits wide (arch/arm); arithmetic that can wrap is
  written with an explicit `% 4294967296`.
* Constants defined in headers outside this file (`PAGE_SIZE`, `TASK_SIZE`, `PMD_MASK`,
  `SZ_1M`, `sizeof(struct page *)`) and the configuration switches are fields of `Platform`.
-/

namespace ArmTlb

/-- Build configuration and constants that `tlb.h` takes from other headers. -/
structure Platform where
  PAGE_SIZE : Nat
  TASK_SIZE : Nat
  /-- The value of `sizeof(struct page *)`. -/
  PTR_SIZE : Nat
  PMD_MASK : Nat
  SZ_1M : Nat
  CONFIG_SMP : Bool
  CONFIG_CPU_32v7 : Bool
deriving DecidableEq, Repr

/-- The macro `tlb_fast_mode(tlb)`: 0 with `CONFIG_SMP` or `CONFIG_CPU_32v7`, else 1. -/
def tlb_fast_mode (P : Platform) : Nat :=
  if P.CONFIG_SMP || P.CONFIG_CPU_32v7 then 0 else 1

/-- The constant `MMU_GATHER_BUNDLE`. -/
def MMU_GATHER_BUNDLE : Nat := 8

/-- The expression `PAGE_SIZE / sizeof(struct page *)` of `__tlb_alloc_page`. -/
def Platform.PTRS_PER_PAGE (P : Platform) : Nat := P.PAGE_SIZE / P.PTR_SIZE

/-- Assumptions on the constants that hold on every ARM build: pages are non-empty, the user
address space ends at least one page below the top of the 32-bit address space, and a page
holds at least `MMU_GATHER_BUNDLE` and fewer than `2^32` page pointers. -/
def Platform.sane (P : Platform) : Prop :=
  0 < P.PAGE_SIZE ∧ P.TASK_SIZE + P.PAGE_SIZE ≤ 4294967296 ∧
  MMU_GATHER_BUNDLE ≤ P.PTRS_PER_PAGE ∧ P.PTRS_PER_PAGE < 4294967296

instance (P : Platform) : Decidable P.sane := by
  unfold Platform.sane; infer_instance

/-- A usual ARMv7 SMP build: 4 KiB pages, 3G/1G split (`TASK_SIZE = 0xBF000000`). -/
def armv7_smp : Platform :=
  { PAGE_SIZE := 4096, TASK_SIZE := 3204448256, PTR_SIZE := 4, PMD_MASK := 4292870144,
    SZ_1M := 1048576, CONFIG_SMP := true, CONFIG_CPU_32v7 := true }

/-- A uniprocessor pre-v7 build (e.g. StrongARM): `tlb_fast_mode` is 1. -/
def arm_up : Platform :=
  { PAGE_SIZE := 4096, TASK_SIZE := 3204448256, PTR_SIZE := 4, PMD_MASK := 4292870144,
    SZ_1M := 1048576, CONFIG_SMP := false, CONFIG_CPU_32v7 := false }

/-- The fields of `struct vm_area_struct` read by `tlb.h`. -/
structure vm_area_struct where
  vm_start : Nat
  vm_end : Nat
deriving DecidableEq, Repr

/-- The value of the pointer `tlb->pages`: `tlb->local` or an allocated page. -/
inductive PagesPtr where
  | local_
  | page (addr : Nat)
deriving DecidableEq, Repr

/-- The record `struct mmu_gather`. `vma = none` is the NULL pointer; `local_ i` is the slot
`local[i]` (only slots below `MMU_GATHER_BUNDLE` exist in the C array). -/
structure mmu_gather where
  mm : Nat
  fullmm : Nat
  vma : Option vm_area_struct
  range_start : Nat
  range_end : Nat
  nr : Nat
  max : Nat
  pages : PagesPtr
  local_ : Nat → Nat

/-- Calls made by `tlb.h` into the rest of the kernel, with their arguments. -/
inductive Event where
  | flush_tlb_mm (mm : Nat)
  | flush_tlb_range (vma : Option vm_area_struct) (start stop : Nat)
  | flush_cache_range (vma : vm_area_struct) (start stop : Nat)
  /-- The call `free_pages_and_swap_cache(tlb->pages, tlb->nr)`: the `nr` pages handed over. -/
  | free_pages_and_swap_cache (pages : List Nat)
  | free_page_and_swap_cache (page : Nat)
  /-- A call of `__get_free_pages` and the address it returned (0: failure). -/
  | get_free_pages (result : Nat)
  | free_pages (addr : Nat)
  | check_pgt_cache
  | pgtable_page_dtor (pte : Nat)
  /-- The condition of `VM_BUG_ON(tlb->nr > tlb->max)` was true. -/
  | vm_bug
deriving DecidableEq, Repr

/-- The gather structure together with the memory it points to, the allocator's future
answers and the calls made so far. -/
structure World where
  tlb : mmu_gather
  heap : Nat → Nat → Nat
  oracle : Nat → Nat
  calls : Nat
  trace : List Event

/-- Record one call. -/
def emit (e : Event) (w : World) : World :=
  { w with trace := w.trace ++ [e] }

/-- The value `tlb->pages[i]`. -/
def pages_read (w : World) (i : Nat) : Nat :=
  match w.tlb.pages with
  | .local_ => w.tlb.local_ i
  | .page a => w.heap a i

/-- The assignment `tlb->pages[i] = page`. -/
def pages_write (w : World) (i : Nat) (page : Nat) : World :=
  match w.tlb.pages with
  | .local_ =>
    { w with tlb := { w.tlb with local_ := fun j => if j = i then page else w.tlb.local_ j } }
  | .page a =>
    { w with heap := fun b j => if b = a ∧ j = i then page else w.heap b j }

/-- The array contents `tlb->pages[0 .. nr)`. -/
def pending (w : World) : List Nat :=
  (List.range w.tlb.nr).map (pages_read w)

/-- The function `tlb_flush`. -/
def tlb_flush (P : Platform) (w : World) : World :=
  if w.tlb.fullmm ≠ 0 ∨ w.tlb.vma = none then
    emit (.flush_tlb_mm w.tlb.mm) w
  else if w.tlb.range_end > 0 then
    let w1 := emit (.flush_tlb_range w.tlb.vma w.tlb.range_start w.tlb.range_end) w
    { w1 with tlb := { w1.tlb with range_start := P.TASK_SIZE, range_end := 0 } }
  else w

/-- The function `tlb_add_flush`, on the gather structure (it makes no call). -/
def tlb_add_flush_tlb (P : Platform) (addr : Nat) (t : mmu_gather) : mmu_gather :=
  if t.fullmm = 0 then
    let t1 := if addr < t.range_start then { t with range_start := addr } else t
    if (addr + P.PAGE_SIZE) % 4294967296 > t1.range_end then
      { t1 with range_end := (addr + P.PAGE_SIZE) % 4294967296 }
    else t1
  else t

/-- The function `tlb_add_flush`. -/
def tlb_add_flush (P : Platform) (addr : Nat) (w : World) : World :=
  { w with tlb := tlb_add_flush_tlb P addr w.tlb }

/-- The function `__tlb_alloc_page`. -/
def __tlb_alloc_page (P : Platform) (w : World) : World :=
  let addr := w.oracle w.calls
  let w1 := emit (.get_free_pages addr) { w with calls := w.calls + 1 }
  if addr ≠ 0 then
    { w1 with tlb := { w1.tlb with pages := .page addr, max := P.PTRS_PER_PAGE } }
  else w1

/-- The function `tlb_flush_mmu`. -/
def tlb_flush_mmu (P : Platform) (w : World) : World :=
  let w1 := tlb_flush P w
  if tlb_fast_mode P = 0 then
    let w2 := emit (.free_pages_and_swap_cache (pending w1)) w1
    let w3 := { w2 with tlb := { w2.tlb with nr := 0 } }
    if w3.tlb.pages = .local_ then __tlb_alloc_page P w3 else w3
  else w1

/-- The function `tlb_gather_mmu`. -/
def tlb_gather_mmu (P : Platform) (mm : Nat) (fullmm : Nat) (w : World) : World :=
  __tlb_alloc_page P
    { w with tlb := { w.tlb with mm := mm, fullmm := fullmm, vma := none,
                                 max := MMU_GATHER_BUNDLE, pages := .local_, nr := 0 } }

/-- The function `tlb_finish_mmu` (its `start` and `end` arguments are unused). -/
def tlb_finish_mmu (P : Platform) (_start _end : Nat) (w : World) : World :=
  let w1 := tlb_flush_mmu P w
  let w2 := emit .check_pgt_cache w1
  match w2.tlb.pages with
  | .local_ => w2
  | .page a => emit (.free_pages a) w2

/-- The function `tlb_remove_tlb_entry` (its `ptep` argument is unused). -/
def tlb_remove_tlb_entry (P : Platform) (_ptep : Nat) (addr : Nat) (w : World) : World :=
  tlb_add_flush P addr w

/-- The function `tlb_start_vma`. -/
def tlb_start_vma (P : Platform) (vma : vm_area_struct) (w : World) : World :=
  if w.tlb.fullmm = 0 then
    let w1 := emit (.flush_cache_range vma vma.vm_start vma.vm_end) w
    { w1 with tlb := { w1.tlb with vma := some vma, range_start := P.TASK_SIZE,
                                   range_end := 0 } }
  else w

/-- The function `tlb_end_vma` (its `vma` argument is unused). -/
def tlb_end_vma (P : Platform) (_vma : vm_area_struct) (w : World) : World :=
  if w.tlb.fullmm = 0 then tlb_flush P w else w

/-- Conversion of an `unsigned int` value to `int` (two's complement). -/
def to_int (u : Nat) : Int :=
  if u < 2147483648 then (u : Int) else (u : Int) - 4294967296

/-- The function `__tlb_remove_page`: the new state and the returned `int`. -/
def __tlb_remove_page (P : Platform) (page : Nat) (w : World) : World × Int :=
  if tlb_fast_mode P ≠ 0 then
    (emit (.free_page_and_swap_cache page) w, 1)
  else
    let w1 := pages_write w w.tlb.nr page
    let w2 := { w1 with tlb := { w1.tlb with nr := (w1.tlb.nr + 1) % 4294967296 } }
    let w3 := if w2.tlb.nr > w2.tlb.max then emit .vm_bug w2 else w2
    (w3, to_int ((w3.tlb.max + 4294967296 - w3.tlb.nr) % 4294967296))

/-- The function `tlb_remove_page`. -/
def tlb_remove_page (P : Platform) (page : Nat) (w : World) : World :=
  let r := __tlb_remove_page P page w
  if r.2 = 0 then tlb_flush_mmu P r.1 else r.1

/-- The function `__pte_free_tlb`. -/
def __pte_free_tlb (P : Platform) (pte : Nat) (addr : Nat) (w : World) : World :=
  let w1 := emit (.pgtable_page_dtor pte) w
  let addr1 := addr &&& P.PMD_MASK
  let w2 := tlb_add_flush P ((addr1 + P.SZ_1M + 4294967296 - P.PAGE_SIZE) % 4294967296) w1
  let w3 := tlb_add_flush P ((addr1 + P.SZ_1M) % 4294967296) w2
  tlb_remove_page P pte w3

/-- The calls a page-table walker makes on an open gather session. -/
inductive Op where
  | remove_page (page : Nat)
  | remove_tlb_entry (ptep addr : Nat)
  | start_vma (vma : vm_area_struct)
  | end_vma (vma : vm_area_struct)
  | flush_mmu
  | pte_free (pte addr : Nat)
deriving DecidableEq, Repr

/-- Execute one call. -/
def exec (P : Platform) (o : Op) (w : World) : World :=
  match o with
  | .remove_page page => tlb_remove_page P page w
  | .remove_tlb_entry ptep addr => tlb_remove_tlb_entry P ptep addr w
  | .start_vma vma => tlb_start_vma P vma w
  | .end_vma vma => tlb_end_vma P vma w
  | .flush_mmu => tlb_flush_mmu P w
  | .pte_free pte addr => __pte_free_tlb P pte addr w

/-- Execute a sequence of calls, first to last. -/
def run (P : Platform) (ops : List Op) (w : World) : World :=
  ops.foldl (fun acc o => exec P o acc) w

/-- A state before any session: arbitrary structure contents, memory and allocator answers,
and no call made yet. -/
def boot (t : mmu_gather) (heap : Nat → Nat → Nat) (oracle : Nat → Nat) : World :=
  { tlb := t, heap := heap, oracle := oracle, calls := 0, trace := [] }

/-- A zero-filled `struct mmu_gather` (the per-CPU variable before its first use). -/
def zero_gather : mmu_gather :=
  { mm := 0, fullmm := 0, vma := none, range_start := 0, range_end := 0, nr := 0, max := 0,
    pages := .page 0, local_ := fun _ => 0 }

/-- A state with the given teardown mode, region and tracked interval, no buffered page, the
inline store active and an allocator that always fails. -/
def sample_world (fullmm : Nat) (vma : Option vm_area_struct) (rs re : Nat) : World :=
  boot { zero_gather with fullmm := fullmm, vma := vma, range_start := rs, range_end := re,
                          max := MMU_GATHER_BUNDLE, pages := .local_ }
    (fun _ _ => 0) (fun _ => 0)

/-! ## Vocabulary for statements about traces -/

/-- Translation invalidates: `flush_tlb_mm` and `flush_tlb_range`. -/
def Event.is_invalidate : Event → Bool
  | .flush_tlb_mm _ => true
  | .flush_tlb_range _ _ _ => true
  | _ => false

/-- Page releases: `free_pages_and_swap_cache` and `free_page_and_swap_cache`. -/
def Event.is_release : Event → Bool
  | .free_pages_and_swap_cache _ => true
  | .free_page_and_swap_cache _ => true
  | _ => false

/-- Range invalidates. -/
def Event.is_range_invalidate : Event → Bool
  | .flush_tlb_range _ _ _ => true
  | _ => false

/-- The event is a `flush_tlb_range` whose interval `[start, stop)` contains `a`. -/
def Event.covers (a : Nat) : Event → Bool
  | .flush_tlb_range _ s e => decide (s ≤ a ∧ a < e)
  | _ => false

/-- Some range invalidate in `l` covers the address `a`. -/
def covered (a : Nat) (l : List Event) : Prop :=
  ∃ e ∈ l, e.covers a = true

/-- The pages handed to the allocator by the calls in a trace, in order. -/
def released : List Event → List Nat
  | [] => []
  | .free_pages_and_swap_cache ps :: rest => ps ++ released rest
  | .free_page_and_swap_cache p :: rest => p :: released rest
  | _ :: rest => released rest

/-- The pages reported to the session by a sequence of calls, in order. -/
def reported : List Op → List Nat
  | [] => []
  | .remove_page p :: rest => p :: reported rest
  | .pte_free pte _ :: rest => pte :: reported rest
  | _ :: rest => reported rest

/-- The calls recorded between a state `w` and a later state `w2`. -/
def new_events (w w2 : World) : List Event :=
  w2.trace.drop w.trace.length

/-- The state `w2` differs from `w` at most in the region, the tracked interval and the
trace. -/
def same_store (w w2 : World) : Prop :=
  w2.heap = w.heap ∧ w2.oracle = w.oracle ∧ w2.calls = w.calls ∧ w2.tlb.nr = w.tlb.nr ∧
  w2.tlb.max = w.tlb.max ∧ w2.tlb.pages = w.tlb.pages ∧ w2.tlb.local_ = w.tlb.local_ ∧
  w2.tlb.fullmm = w.tlb.fullmm ∧ w2.tlb.mm = w.tlb.mm

/-- The calls `tlb_flush` makes in state `w`. -/
def flush_events (w : World) : List Event :=
  if w.tlb.fullmm ≠ 0 ∨ w.tlb.vma = none then [Event.flush_tlb_mm w.tlb.mm]
  else if 0 < w.tlb.range_end then
    [Event.flush_tlb_range w.tlb.vma w.tlb.range_start w.tlb.range_end]
  else []

/-- The calls `tlb_flush_mmu` makes after `tlb_flush` when pages are buffered. -/
def release_events (w : World) : List Event :=
  Event.free_pages_and_swap_cache (pending w) ::
    (if w.tlb.pages = .local_ then [Event.get_free_pages (w.oracle w.calls)] else [])

/-- The collector has a free slot and one of its two capacities. -/
def Good (P : Platform) (w : World) : Prop :=
  w.tlb.nr < w.tlb.max ∧ (w.tlb.max = MMU_GATHER_BUNDLE ∨ w.tlb.max = P.PTRS_PER_PAGE)

/-- Going from `w` to `w2` keeps `Good`, accounts for the reported pages `ps` (each is either
released or still buffered) and does not trip `VM_BUG_ON`. -/
def Step (P : Platform) (w w2 : World) (ps : List Nat) : Prop :=
  Good P w2 ∧ released w2.trace ++ pending w2 = released w.trace ++ pending w ++ ps ∧
  (Event.vm_bug ∈ w2.trace → Event.vm_bug ∈ w.trace)

/-- The calls of a region pass between `tlb_start_vma` and `tlb_end_vma`:
`tlb_remove_tlb_entry`, `tlb_remove_page` and `tlb_flush_mmu`. -/
def Op.in_pass : Op → Bool
  | .remove_tlb_entry _ _ => true
  | .remove_page _ => true
  | .flush_mmu => true
  | _ => false

/-- A region is active on a session that is not a whole-address-space teardown. -/
def InPass (w : World) : Prop :=
  w.tlb.fullmm = 0 ∧ w.tlb.vma ≠ none

/-- The address lies in the tracked interval. -/
def InRange (a : Nat) (w : World) : Prop :=
  w.tlb.range_start ≤ a ∧ a < w.tlb.range_end

/-- The state of a region pass right after `tlb_remove_tlb_entry(ptep, a)`, the pass having
started with `tlb_start_vma(vma)` in state `w` and made the calls `pre` before. -/
def after_report (P : Platform) (vma : vm_area_struct) (pre : List Op) (ptep a : Nat)
    (w : World) : World :=
  run P (pre ++ [Op.remove_tlb_entry ptep a]) (tlb_start_vma P vma w)

/-- The state when `tlb_end_vma(vma)` returns, the pass having made the calls `post` after
the report of `a`. -/
def after_pass (P : Platform) (vma : vm_area_struct) (pre : List Op) (ptep a : Nat)
    (post : List Op) (w : World) : World :=
  tlb_end_vma P vma (run P post (after_report P vma pre ptep a w))

/-- The calls `tlb_remove_tlb_entry(ptep, addr)` for a list of `(ptep, addr)` pairs. -/
def entries (es : List (Nat × Nat)) : List Op :=
  es.map (fun e => Op.remove_tlb_entry e.1 e.2)

/-- No invalidate is recorded after a release. -/
def release_last (seg : List Event) : Prop :=
  ∀ l1 e l2, seg = l1 ++ e :: l2 → e.is_release = true → ∀ x ∈ l2, x.is_invalidate = false

/-- Executable form of `release_last`. -/
def release_last_b : List Event → Bool
  | [] => true
  | e :: rest =>
    (if e.is_release then rest.all (fun x => !x.is_invalidate) else true) && release_last_b rest

/-- Scanning `l` from its start, a range invalidate covering `a` is met before any release. -/
def covered_first (a : Nat) : List Event → Bool
  | [] => true
  | e :: rest => if e.covers a then true else if e.is_release then false else covered_first a rest

/-! ## Vocabulary for page-table levels, range well-formedness and the overflow buffer -/

/-- Modelled from the spec: the address span of a freed page-table level is the level's
alignment granularity. `PMD_MASK` is the alignment mask `~(PMD_SIZE - 1)` of an
`unsigned long`, so the span is `2^32 - PMD_MASK` bytes (`PMD_SIZE` is defined outside
`tlb.h`). -/
def Platform.PMD_SIZE (P : Platform) : Nat := 4294967296 - P.PMD_MASK

/-- The state of `__pte_free_tlb` just before its call of `tlb_remove_page`: after
`pgtable_page_dtor` and the two `tlb_add_flush` calls. -/
def pte_free_extend (P : Platform) (pte : Nat) (addr : Nat) (w : World) : World :=
  let w1 := emit (.pgtable_page_dtor pte) w
  let addr1 := addr &&& P.PMD_MASK
  let w2 := tlb_add_flush P ((addr1 + P.SZ_1M + 4294967296 - P.PAGE_SIZE) % 4294967296) w1
  tlb_add_flush P ((addr1 + P.SZ_1M) % 4294967296) w2

/-- The tracked interval, when non-empty, has `range_start <= range_end`. -/
def RangeOk (w : World) : Prop :=
  0 < w.tlb.range_end → w.tlb.range_start ≤ w.tlb.range_end

/-- The address arguments of the call do not wrap: the page reported by
`tlb_remove_tlb_entry` ends at or below `2^32`, and so do the two pages that
`__pte_free_tlb` adds around `(addr & PMD_MASK) + SZ_1M`. -/
def Op.no_wrap (P : Platform) : Op → Bool
  | .remove_tlb_entry _ a => decide (a + P.PAGE_SIZE ≤ 4294967296)
  | .pte_free _ a =>
    decide (P.PAGE_SIZE ≤ (a &&& P.PMD_MASK) + P.SZ_1M ∧
      (a &&& P.PMD_MASK) + P.SZ_1M + P.PAGE_SIZE ≤ 4294967296)
  | _ => true

/-- The results of the `__get_free_pages` calls in a trace, in order. -/
def alloc_results : List Event → List Nat
  | [] => []
  | .get_free_pages r :: rest => r :: alloc_results rest
  | _ :: rest => alloc_results rest

/-- The addresses returned by the successful `__get_free_pages` calls in a trace. -/
def allocated (tr : List Event) : List Nat :=
  (alloc_results tr).filter (fun r => decide (r ≠ 0))

/-- The addresses passed to `free_pages` in a trace, in order. -/
def freed : List Event → List Nat
  | [] => []
  | .free_pages a :: rest => a :: freed rest
  | _ :: rest => freed rest

/-- The overflow buffer held by the session, if any. -/
def held (w : World) : List Nat :=
  match w.tlb.pages with
  | .local_ => []
  | .page a => [a]

/-- Nothing has been freed, a held buffer has a non-null address, and every allocation
attempt so far failed except the one that produced the held buffer, which was the last. -/
def AllocInv (w : World) : Prop :=
  freed w.trace = [] ∧ (∀ a, w.tlb.pages = .page a → a ≠ 0) ∧
  ∃ n, alloc_results w.trace = List.replicate n 0 ++ held w

/-! ## Basic facts about the trace -/

theorem emit_trace (e : Event) (w : World) : (emit e w).trace = w.trace ++ [e] := rfl

theorem emit_tlb (e : Event) (w : World) : (emit e w).tlb = w.tlb := rfl

theorem new_events_append (w w2 : World) (seg : List Event) (h : w2.trace = w.trace ++ seg) :
    new_events w w2 = seg := by
  simp [new_events, h]

theorem release_last_of_b (seg : List Event) (h : release_last_b seg = true) :
    release_last seg := by
  induction seg with
  | nil =>
    intro l1 e l2 hs
    simp at hs
  | cons a rest ih =>
    intro l1 e l2 hs hrel x hx
    simp only [release_last_b, Bool.and_eq_true] at h
    cases l1 with
    | nil =>
      simp only [List.nil_append, List.cons.injEq] at hs
      obtain ⟨rfl, rfl⟩ := hs
      have h1 := h.1
      simp only [hrel, if_true, List.all_eq_true] at h1
      simpa using h1 x hx
    | cons b l1 =>
      simp only [List.cons_append, List.cons.injEq] at hs
      exact ih h.2 l1 e l2 hs.2 hrel x hx

/-! ## Frame and trace of the primitives -/

theorem same_store_refl (w : World) : same_store w w := by
  simp [same_store]

theorem same_store_trans (w1 w2 w3 : World) (h1 : same_store w1 w2) (h2 : same_store w2 w3) :
    same_store w1 w3 := by
  obtain ⟨a1, a2, a3, a4, a5, a6, a7, a8, a9⟩ := h1
  obtain ⟨b1, b2, b3, b4, b5, b6, b7, b8, b9⟩ := h2
  exact ⟨b1.trans a1, b2.trans a2, b3.trans a3, b4.trans a4, b5.trans a5, b6.trans a6,
    b7.trans a7, b8.trans a8, b9.trans a9⟩

theorem pending_same_store (w w2 : World) (h : same_store w w2) : pending w2 = pending w := by
  obtain ⟨h1, -, -, h2, -, h3, h4, -⟩ := h
  have hr : pages_read w2 = pages_read w := by
    funext i
    simp only [pages_read, h1, h3, h4]
  simp only [pending, hr, h2]

theorem emit_same_store (e : Event) (w : World) : same_store w (emit e w) := by
  simp [same_store, emit]

theorem tlb_flush_same_store (P : Platform) (w : World) : same_store w (tlb_flush P w) := by
  unfold tlb_flush
  split_ifs <;> simp [same_store, emit]

theorem tlb_flush_vma (P : Platform) (w : World) : (tlb_flush P w).tlb.vma = w.tlb.vma := by
  unfold tlb_flush
  split_ifs <;> rfl

theorem tlb_flush_trace (P : Platform) (w : World) :
    (tlb_flush P w).trace = w.trace ++ flush_events w := by
  unfold tlb_flush flush_events
  split_ifs <;> simp [emit]

theorem tlb_add_flush_same_store (P : Platform) (addr : Nat) (w : World) :
    same_store w (tlb_add_flush P addr w) := by
  unfold tlb_add_flush tlb_add_flush_tlb
  dsimp only
  split_ifs <;> simp [same_store]

theorem tlb_add_flush_vma (P : Platform) (addr : Nat) (w : World) :
    (tlb_add_flush P addr w).tlb.vma = w.tlb.vma := by
  unfold tlb_add_flush tlb_add_flush_tlb
  dsimp only
  split_ifs <;> rfl

theorem tlb_add_flush_trace (P : Platform) (addr : Nat) (w : World) :
    (tlb_add_flush P addr w).trace = w.trace := rfl

theorem tlb_start_vma_same_store (P : Platform) (vma : vm_area_struct) (w : World) :
    same_store w (tlb_start_vma P vma w) := by
  unfold tlb_start_vma
  split_ifs <;> simp [same_store, emit]

theorem tlb_start_vma_trace (P : Platform) (vma : vm_area_struct) (w : World) :
    (tlb_start_vma P vma w).trace =
      w.trace ++ (if w.tlb.fullmm = 0 then
        [Event.flush_cache_range vma vma.vm_start vma.vm_end] else []) := by
  unfold tlb_start_vma
  split_ifs <;> simp [emit]

theorem tlb_end_vma_same_store (P : Platform) (vma : vm_area_struct) (w : World) :
    same_store w (tlb_end_vma P vma w) := by
  unfold tlb_end_vma
  split_ifs
  · exact tlb_flush_same_store P w
  · exact same_store_refl w

theorem tlb_end_vma_trace (P : Platform) (vma : vm_area_struct) (w : World) :
    (tlb_end_vma P vma w).trace =
      w.trace ++ (if w.tlb.fullmm = 0 then flush_events w else []) := by
  unfold tlb_end_vma
  split_ifs
  · exact tlb_flush_trace P w
  · simp

theorem alloc_trace (P : Platform) (w : World) :
    (__tlb_alloc_page P w).trace = w.trace ++ [Event.get_free_pages (w.oracle w.calls)] := by
  unfold __tlb_alloc_page
  dsimp only
  split_ifs <;> rfl

theorem alloc_frame (P : Platform) (w : World) :
    (__tlb_alloc_page P w).tlb.nr = w.tlb.nr ∧
    (__tlb_alloc_page P w).tlb.fullmm = w.tlb.fullmm ∧
    (__tlb_alloc_page P w).tlb.vma = w.tlb.vma ∧
    (__tlb_alloc_page P w).tlb.mm = w.tlb.mm ∧
    (__tlb_alloc_page P w).tlb.range_start = w.tlb.range_start ∧
    (__tlb_alloc_page P w).tlb.range_end = w.tlb.range_end ∧
    ((__tlb_alloc_page P w).tlb.max = w.tlb.max ∨
      (__tlb_alloc_page P w).tlb.max = P.PTRS_PER_PAGE) := by
  unfold __tlb_alloc_page
  dsimp only
  split_ifs <;> simp [emit]

theorem tlb_flush_mmu_buffered_trace (P : Platform) (w : World) (h : tlb_fast_mode P = 0) :
    (tlb_flush_mmu P w).trace = w.trace ++ flush_events w ++ release_events w := by
  obtain ⟨-, h2, h3, -, -, h6, -⟩ := tlb_flush_same_store P w
  have hp := pending_same_store w _ (tlb_flush_same_store P w)
  unfold tlb_flush_mmu release_events
  simp only [h, if_true]
  split_ifs with ha hb hb
  · rw [alloc_trace]; simp [emit, hp, h2, h3, tlb_flush_trace]
  · simp [emit, h6] at ha; exact absurd ha hb
  · simp [emit, h6] at ha; exact absurd hb ha
  · simp [emit, hp, tlb_flush_trace]

theorem tlb_flush_mmu_fast_eq (P : Platform) (w : World) (h : tlb_fast_mode P ≠ 0) :
    tlb_flush_mmu P w = tlb_flush P w := by
  simp [tlb_flush_mmu, h]

theorem tlb_flush_mmu_buffered_frame (P : Platform) (w : World) (h : tlb_fast_mode P = 0) :
    (tlb_flush_mmu P w).tlb.nr = 0 ∧
    (tlb_flush_mmu P w).tlb.fullmm = w.tlb.fullmm ∧
    (tlb_flush_mmu P w).tlb.vma = w.tlb.vma ∧
    (tlb_flush_mmu P w).tlb.mm = w.tlb.mm ∧
    (tlb_flush_mmu P w).tlb.range_start = (tlb_flush P w).tlb.range_start ∧
    (tlb_flush_mmu P w).tlb.range_end = (tlb_flush P w).tlb.range_end ∧
    ((tlb_flush_mmu P w).tlb.max = w.tlb.max ∨
      (tlb_flush_mmu P w).tlb.max = P.PTRS_PER_PAGE) := by
  obtain ⟨-, -, -, -, h5, -, -, h8, h9⟩ := tlb_flush_same_store P w
  have hv := tlb_flush_vma P w
  unfold tlb_flush_mmu
  simp only [h, if_true]
  split_ifs
  · have hf := alloc_frame P
      { emit (Event.free_pages_and_swap_cache (pending (tlb_flush P w))) (tlb_flush P w) with
        tlb := { (emit (Event.free_pages_and_swap_cache (pending (tlb_flush P w)))
                  (tlb_flush P w)).tlb with nr := 0 } }
    obtain ⟨f1, f2, f3, f4, f5, f6, f7⟩ := hf
    refine ⟨f1, f2.trans h8, f3.trans hv, f4.trans h9, f5, f6, ?_⟩
    rcases f7 with f7 | f7
    · exact Or.inl (f7.trans h5)
    · exact Or.inr f7
  · exact ⟨rfl, h8, hv, h9, rfl, rfl, Or.inl h5⟩

theorem pages_read_write (w : World) (i page j : Nat) :
    pages_read (pages_write w i page) j = if j = i then page else pages_read w j := by
  unfold pages_read pages_write
  cases hp : w.tlb.pages with
  | local_ => simp [hp]
  | page a => simp [hp]

theorem pages_write_frame (w : World) (i page : Nat) :
    (pages_write w i page).trace = w.trace ∧ (pages_write w i page).oracle = w.oracle ∧
    (pages_write w i page).calls = w.calls ∧ (pages_write w i page).tlb.nr = w.tlb.nr ∧
    (pages_write w i page).tlb.max = w.tlb.max ∧
    (pages_write w i page).tlb.pages = w.tlb.pages ∧
    (pages_write w i page).tlb.fullmm = w.tlb.fullmm ∧
    (pages_write w i page).tlb.vma = w.tlb.vma ∧ (pages_write w i page).tlb.mm = w.tlb.mm ∧
    (pages_write w i page).tlb.range_start = w.tlb.range_start ∧
    (pages_write w i page).tlb.range_end = w.tlb.range_end := by
  unfold pages_write
  cases hp : w.tlb.pages with
  | local_ => simp [hp]
  | page a => simp [hp]

/-- What `__tlb_remove_page` leaves alone when pages are buffered. -/
theorem remove_page_buffered_frame (P : Platform) (page : Nat) (w : World)
    (h : tlb_fast_mode P = 0) :
    (__tlb_remove_page P page w).1.oracle = w.oracle ∧
    (__tlb_remove_page P page w).1.calls = w.calls ∧
    (__tlb_remove_page P page w).1.tlb.max = w.tlb.max ∧
    (__tlb_remove_page P page w).1.tlb.pages = w.tlb.pages ∧
    (__tlb_remove_page P page w).1.tlb.fullmm = w.tlb.fullmm ∧
    (__tlb_remove_page P page w).1.tlb.vma = w.tlb.vma ∧
    (__tlb_remove_page P page w).1.tlb.mm = w.tlb.mm ∧
    (__tlb_remove_page P page w).1.tlb.range_start = w.tlb.range_start ∧
    (__tlb_remove_page P page w).1.tlb.range_end = w.tlb.range_end ∧
    (__tlb_remove_page P page w).1.tlb.nr = (w.tlb.nr + 1) % 4294967296 ∧
    (∀ j, pages_read (__tlb_remove_page P page w).1 j =
      if j = w.tlb.nr then page else pages_read w j) ∧
    (__tlb_remove_page P page w).1.trace =
      w.trace ++ (if (w.tlb.nr + 1) % 4294967296 > w.tlb.max then [Event.vm_bug] else []) ∧
    (__tlb_remove_page P page w).2 =
      to_int ((w.tlb.max + 4294967296 - (w.tlb.nr + 1) % 4294967296) % 4294967296) := by
  obtain ⟨h1, h2, h3, h4, h5, h6, h7, h8, h9, h10, h11⟩ := pages_write_frame w w.tlb.nr page
  have hr := pages_read_write w w.tlb.nr page
  unfold __tlb_remove_page
  simp only [h, ne_eq, not_true_eq_false, if_false]
  simp only [h4, h5]
  split_ifs with hb
  · refine ⟨h2, h3, rfl, h6, h7, h8, h9, h10, h11, rfl, ?_, ?_, rfl⟩
    · intro j
      rw [← hr j]
      rfl
    · simp [emit, h1]
  · refine ⟨h2, h3, rfl, h6, h7, h8, h9, h10, h11, rfl, ?_, ?_, rfl⟩
    · intro j
      rw [← hr j]
      rfl
    · simp [h1]

theorem to_int_eq_zero (u : Nat) (h : u < 4294967296) : to_int u = 0 ↔ u = 0 := by
  unfold to_int
  split_ifs <;> omega

theorem pending_snoc (w w2 : World) (page : Nat) (hn : w2.tlb.nr = w.tlb.nr + 1)
    (hr : ∀ j, pages_read w2 j = if j = w.tlb.nr then page else pages_read w j) :
    pending w2 = pending w ++ [page] := by
  unfold pending
  rw [hn, List.range_succ, List.map_append]
  congr 1
  · apply List.map_congr_left
    intro j hj
    rw [hr j]
    have : j ≠ w.tlb.nr := by
      have := List.mem_range.mp hj
      omega
    simp [this]
  · simp [hr]

/-! ## Accounting of reported pages -/

theorem released_append (l1 l2 : List Event) :
    released (l1 ++ l2) = released l1 ++ released l2 := by
  induction l1 with
  | nil => rfl
  | cons e rest ih => cases e <;> simp [released, ih]

theorem released_flush_events (w : World) : released (flush_events w) = [] := by
  unfold flush_events
  split_ifs <;> rfl

theorem released_release_events (w : World) : released (release_events w) = pending w := by
  unfold release_events
  split_ifs <;> simp [released]

theorem vm_bug_not_mem_flush_events (w : World) : Event.vm_bug ∉ flush_events w := by
  unfold flush_events
  split_ifs <;> simp

theorem vm_bug_not_mem_release_events (w : World) : Event.vm_bug ∉ release_events w := by
  unfold release_events
  split_ifs <;> simp

theorem pending_nil (w : World) (h : w.tlb.nr = 0) : pending w = [] := by
  simp [pending, h]

theorem good_of_nr_zero (P : Platform) (hs : P.sane) (w : World) (h0 : w.tlb.nr = 0)
    (hm : w.tlb.max = MMU_GATHER_BUNDLE ∨ w.tlb.max = P.PTRS_PER_PAGE) : Good P w := by
  obtain ⟨-, -, h3, -⟩ := hs
  refine ⟨?_, hm⟩
  simp only [MMU_GATHER_BUNDLE] at h3 hm
  omega

theorem step_of_same_store (P : Platform) (w w2 : World) (seg : List Event)
    (hg : Good P w) (hs : same_store w w2) (ht : w2.trace = w.trace ++ seg)
    (hr : released seg = []) (hb : Event.vm_bug ∉ seg) : Step P w w2 [] := by
  have hp := pending_same_store w w2 hs
  obtain ⟨-, -, -, h4, h5, -⟩ := hs
  refine ⟨?_, ?_, ?_⟩
  · unfold Good
    rw [h4, h5]
    exact hg
  · rw [ht, released_append, hr, hp]
    simp
  · rw [ht]
    intro hm
    rcases List.mem_append.mp hm with h | h
    · exact h
    · exact absurd h hb

theorem tlb_flush_mmu_step (P : Platform) (hs : P.sane) (hf : tlb_fast_mode P = 0)
    (w : World) (hm : w.tlb.max = MMU_GATHER_BUNDLE ∨ w.tlb.max = P.PTRS_PER_PAGE) :
    Step P w (tlb_flush_mmu P w) [] := by
  obtain ⟨f1, -, -, -, -, -, f7⟩ := tlb_flush_mmu_buffered_frame P w hf
  have ht := tlb_flush_mmu_buffered_trace P w hf
  refine ⟨?_, ?_, ?_⟩
  · apply good_of_nr_zero P hs _ f1
    rcases f7 with f7 | f7
    · rw [f7]; exact hm
    · exact Or.inr f7
  · rw [ht, pending_nil _ f1, released_append, released_append, released_flush_events,
      released_release_events]
    simp
  · rw [ht]
    intro hb
    simp only [List.mem_append] at hb
    rcases hb with (hb | hb) | hb
    · exact hb
    · exact absurd hb (vm_bug_not_mem_flush_events w)
    · exact absurd hb (vm_bug_not_mem_release_events w)

theorem step_trans (P : Platform) (w1 w2 w3 : World) (ps qs : List Nat)
    (h1 : Step P w1 w2 ps) (h2 : Step P w2 w3 qs) : Step P w1 w3 (ps ++ qs) := by
  obtain ⟨-, a2, a3⟩ := h1
  obtain ⟨b1, b2, b3⟩ := h2
  refine ⟨b1, ?_, fun h => a3 (b3 h)⟩
  rw [b2, a2]
  simp

theorem tlb_remove_page_step (P : Platform) (hs : P.sane) (hf : tlb_fast_mode P = 0)
    (page : Nat) (w : World) (hg : Good P w) : Step P w (tlb_remove_page P page w) [page] := by
  obtain ⟨-, -, r3, -, -, -, -, -, -, r10, r11, r12, r13⟩ :=
    remove_page_buffered_frame P page w hf
  obtain ⟨g1, g2⟩ := hg
  have hmax : w.tlb.max < 4294967296 := by
    obtain ⟨-, -, s3, s4⟩ := hs
    simp only [MMU_GATHER_BUNDLE] at s3 g2
    omega
  have hmod : (w.tlb.nr + 1) % 4294967296 = w.tlb.nr + 1 := Nat.mod_eq_of_lt (by omega)
  rw [hmod] at r10 r12 r13
  have hnb : ¬ (w.tlb.nr + 1 > w.tlb.max) := by omega
  simp only [hnb, if_false, List.append_nil] at r12
  have hp := pending_snoc w _ page r10 r11
  have hstep1 : released (__tlb_remove_page P page w).1.trace ++
      pending (__tlb_remove_page P page w).1 = released w.trace ++ pending w ++ [page] := by
    rw [r12, hp]
    simp
  have hbug1 : Event.vm_bug ∈ (__tlb_remove_page P page w).1.trace → Event.vm_bug ∈ w.trace := by
    rw [r12]
    exact id
  unfold tlb_remove_page
  dsimp only
  split_ifs with hz
  · have h2 := tlb_flush_mmu_step P hs hf (__tlb_remove_page P page w).1 (by rw [r3]; exact g2)
    obtain ⟨b1, b2, b3⟩ := h2
    refine ⟨b1, ?_, fun h => hbug1 (b3 h)⟩
    rw [b2, hstep1]
    simp
  · refine ⟨⟨?_, by rw [r3]; exact g2⟩, hstep1, hbug1⟩
    rw [r10, r3]
    rw [r13] at hz
    have hlt : (w.tlb.max + 4294967296 - (w.tlb.nr + 1)) % 4294967296 < 4294967296 :=
      Nat.mod_lt _ (by norm_num)
    rw [to_int_eq_zero _ hlt] at hz
    omega

theorem step_refl (P : Platform) (w : World) (hg : Good P w) : Step P w w [] :=
  ⟨hg, by simp, id⟩

theorem reported_cons (o : Op) (ops : List Op) :
    reported (o :: ops) = reported [o] ++ reported ops := by
  cases o <;> simp [reported]

theorem pte_free_prelude (P : Platform) (pte a1 a2 : Nat) (w : World) :
    same_store w (tlb_add_flush P a2 (tlb_add_flush P a1 (emit (.pgtable_page_dtor pte) w))) ∧
    (tlb_add_flush P a2 (tlb_add_flush P a1 (emit (.pgtable_page_dtor pte) w))).trace =
      w.trace ++ [Event.pgtable_page_dtor pte] ∧
    (tlb_add_flush P a2 (tlb_add_flush P a1 (emit (.pgtable_page_dtor pte) w))).tlb.vma =
      w.tlb.vma := by
  refine ⟨?_, rfl, ?_⟩
  · exact same_store_trans _ _ _ (emit_same_store _ w)
      (same_store_trans _ _ _ (tlb_add_flush_same_store P a1 _)
        (tlb_add_flush_same_store P a2 _))
  · rw [tlb_add_flush_vma, tlb_add_flush_vma]
    rfl

theorem exec_step (P : Platform) (hs : P.sane) (hf : tlb_fast_mode P = 0) (o : Op) (w : World)
    (hg : Good P w) : Step P w (exec P o w) (reported [o]) := by
  cases o with
  | remove_page page => exact tlb_remove_page_step P hs hf page w hg
  | remove_tlb_entry ptep addr =>
    exact step_of_same_store P w _ [] hg (tlb_add_flush_same_store P addr w) (by simp [exec,
      tlb_remove_tlb_entry, tlb_add_flush_trace]) rfl (by simp)
  | start_vma vma =>
    refine step_of_same_store P w _ _ hg (tlb_start_vma_same_store P vma w)
      (tlb_start_vma_trace P vma w) ?_ ?_
    · split_ifs <;> rfl
    · split_ifs <;> simp
  | end_vma vma =>
    refine step_of_same_store P w _ _ hg (tlb_end_vma_same_store P vma w)
      (tlb_end_vma_trace P vma w) ?_ ?_
    · split_ifs
      · exact released_flush_events w
      · rfl
    · split_ifs
      · exact vm_bug_not_mem_flush_events w
      · simp
  | flush_mmu => exact tlb_flush_mmu_step P hs hf w hg.2
  | pte_free pte addr =>
    obtain ⟨h1, h2, -⟩ := pte_free_prelude P pte
      (((addr &&& P.PMD_MASK) + P.SZ_1M + 4294967296 - P.PAGE_SIZE) % 4294967296)
      (((addr &&& P.PMD_MASK) + P.SZ_1M) % 4294967296) w
    have s1 := step_of_same_store P w _ _ hg h1 h2 rfl (by simp)
    have s2 := tlb_remove_page_step P hs hf pte _ s1.1
    exact step_trans P _ _ _ _ _ s1 s2

theorem run_cons (P : Platform) (o : Op) (ops : List Op) (w : World) :
    run P (o :: ops) w = run P ops (exec P o w) := rfl

theorem run_append (P : Platform) (ops1 ops2 : List Op) (w : World) :
    run P (ops1 ++ ops2) w = run P ops2 (run P ops1 w) := by
  simp [run, List.foldl_append]

theorem run_step (P : Platform) (hs : P.sane) (hf : tlb_fast_mode P = 0) (ops : List Op) :
    ∀ w, Good P w → Step P w (run P ops w) (reported ops) := by
  induction ops with
  | nil => exact fun w hg => step_refl P w hg
  | cons o rest ih =>
    intro w hg
    have s1 := exec_step P hs hf o w hg
    have s2 := ih _ s1.1
    rw [run_cons, reported_cons]
    exact step_trans P _ _ _ _ _ s1 s2

theorem gather_frame (P : Platform) (mm fullmm : Nat) (w : World) :
    (tlb_gather_mmu P mm fullmm w).tlb.nr = 0 ∧
    (tlb_gather_mmu P mm fullmm w).tlb.fullmm = fullmm ∧
    (tlb_gather_mmu P mm fullmm w).tlb.vma = none ∧
    (tlb_gather_mmu P mm fullmm w).tlb.mm = mm ∧
    (tlb_gather_mmu P mm fullmm w).tlb.range_start = w.tlb.range_start ∧
    (tlb_gather_mmu P mm fullmm w).tlb.range_end = w.tlb.range_end ∧
    ((tlb_gather_mmu P mm fullmm w).tlb.max = MMU_GATHER_BUNDLE ∨
      (tlb_gather_mmu P mm fullmm w).tlb.max = P.PTRS_PER_PAGE) ∧
    (tlb_gather_mmu P mm fullmm w).trace =
      w.trace ++ [Event.get_free_pages (w.oracle w.calls)] := by
  unfold tlb_gather_mmu
  refine ⟨?_, ?_, ?_, ?_, ?_, ?_, ?_, ?_⟩
  · exact (alloc_frame P _).1
  · exact (alloc_frame P _).2.1
  · exact (alloc_frame P _).2.2.1
  · exact (alloc_frame P _).2.2.2.1
  · exact (alloc_frame P _).2.2.2.2.1
  · exact (alloc_frame P _).2.2.2.2.2.1
  · exact (alloc_frame P _).2.2.2.2.2.2
  · exact alloc_trace P _

theorem gather_good (P : Platform) (hs : P.sane) (mm fullmm : Nat) (w : World) :
    Good P (tlb_gather_mmu P mm fullmm w) := by
  obtain ⟨h1, -, -, -, -, -, h7, -⟩ := gather_frame P mm fullmm w
  exact good_of_nr_zero P hs _ h1 h7

theorem finish_trace (P : Platform) (s e : Nat) (w : World) :
    (tlb_finish_mmu P s e w).trace =
      (tlb_flush_mmu P w).trace ++ Event.check_pgt_cache ::
        (match (tlb_flush_mmu P w).tlb.pages with
          | .local_ => []
          | .page a => [Event.free_pages a]) := by
  unfold tlb_finish_mmu
  dsimp only
  rw [emit_tlb]
  cases (tlb_flush_mmu P w).tlb.pages <;> simp [emit]

/-! ## Calls made by one session operation when pages are buffered -/

theorem tlb_remove_page_buffered_trace (P : Platform) (hf : tlb_fast_mode P = 0) (page : Nat)
    (w : World) :
    (tlb_remove_page P page w).trace =
      w.trace ++ (if (w.tlb.nr + 1) % 4294967296 > w.tlb.max then [Event.vm_bug] else []) ++
        (if (__tlb_remove_page P page w).2 = 0 then
          flush_events (__tlb_remove_page P page w).1 ++
            release_events (__tlb_remove_page P page w).1
         else []) := by
  obtain ⟨-, -, -, -, -, -, -, -, -, -, -, r12, -⟩ := remove_page_buffered_frame P page w hf
  unfold tlb_remove_page
  dsimp only
  by_cases hz : (__tlb_remove_page P page w).2 = 0
  · rw [if_pos hz, if_pos hz, tlb_flush_mmu_buffered_trace P _ hf, r12]
    simp
  · rw [if_neg hz, if_neg hz, r12]
    simp

theorem release_last_b_flush_release (pre : List Event) (w w2 : World) (post : List Event)
    (hpre : ∀ e ∈ pre, e.is_release = false)
    (hpost : ∀ e ∈ post, e.is_release = false ∧ e.is_invalidate = false) :
    release_last_b (pre ++ flush_events w ++ release_events w2 ++ post) = true := by
  induction pre with
  | nil =>
    have hp : release_last_b post = true ∧ (post.all fun x => !x.is_invalidate) = true := by
      clear w w2
      induction post with
      | nil => exact ⟨rfl, rfl⟩
      | cons a rest ih =>
        have ha := hpost a (List.mem_cons_self _ _)
        have hr := ih (fun e he => hpost e (List.mem_cons_of_mem _ he))
        simp [release_last_b, ha.1, ha.2, hr.1, hr.2]
    unfold flush_events release_events
    split_ifs <;>
      simp [release_last_b, Event.is_release, Event.is_invalidate, hp.1, hp.2] <;>
      simpa using hp.2
  | cons a rest ih =>
    have ha := hpre a (List.mem_cons_self _ _)
    have hr := ih (fun e he => hpre e (List.mem_cons_of_mem _ he))
    simp only [List.cons_append, release_last_b, ha]
    simpa using hr

theorem release_last_b_no_release (l : List Event) (h : ∀ e ∈ l, e.is_release = false) :
    release_last_b l = true := by
  induction l with
  | nil => rfl
  | cons a rest ih =>
    have ha := h a (List.mem_cons_self _ _)
    simp [release_last_b, ha, ih (fun e he => h e (List.mem_cons_of_mem _ he))]

theorem flush_events_no_release (w : World) : ∀ e ∈ flush_events w, e.is_release = false := by
  unfold flush_events
  split_ifs <;> simp [Event.is_release]

/-- When pages are buffered, each session operation extends the trace by a segment in which
no invalidate follows a release. -/
theorem exec_buffered_segment (P : Platform) (hf : tlb_fast_mode P = 0) (o : Op) (w : World) :
    ∃ seg, (exec P o w).trace = w.trace ++ seg ∧ release_last_b seg = true := by
  cases o with
  | remove_page page =>
    refine ⟨_, by rw [exec, tlb_remove_page_buffered_trace P hf, List.append_assoc], ?_⟩
    split_ifs
    · have := release_last_b_flush_release [Event.vm_bug] (__tlb_remove_page P page w).1
        (__tlb_remove_page P page w).1 [] (by simp [Event.is_release]) (by simp)
      simpa using this
    · rfl
    · have := release_last_b_flush_release [] (__tlb_remove_page P page w).1
        (__tlb_remove_page P page w).1 [] (by simp) (by simp)
      simpa using this
    · rfl
  | remove_tlb_entry ptep addr => exact ⟨[], by simp [exec, tlb_remove_tlb_entry,
      tlb_add_flush_trace], rfl⟩
  | start_vma vma =>
    refine ⟨_, tlb_start_vma_trace P vma w, ?_⟩
    split_ifs <;> rfl
  | end_vma vma =>
    refine ⟨_, tlb_end_vma_trace P vma w, ?_⟩
    split_ifs
    · exact release_last_b_no_release _ (flush_events_no_release w)
    · rfl
  | flush_mmu =>
    refine ⟨_, by rw [exec, tlb_flush_mmu_buffered_trace P w hf, List.append_assoc], ?_⟩
    have := release_last_b_flush_release [] w w [] (by simp) (by simp)
    simpa using this
  | pte_free pte addr =>
    obtain ⟨-, h2, -⟩ := pte_free_prelude P pte
      (((addr &&& P.PMD_MASK) + P.SZ_1M + 4294967296 - P.PAGE_SIZE) % 4294967296)
      (((addr &&& P.PMD_MASK) + P.SZ_1M) % 4294967296) w
    refine ⟨_, by rw [exec, __pte_free_tlb, tlb_remove_page_buffered_trace P hf, h2,
      List.append_assoc, List.append_assoc], ?_⟩
    split_ifs
    · have := release_last_b_flush_release [Event.pgtable_page_dtor pte, Event.vm_bug]
        (__tlb_remove_page P pte (tlb_add_flush P
          (((addr &&& P.PMD_MASK) + P.SZ_1M) % 4294967296) (tlb_add_flush P
          (((addr &&& P.PMD_MASK) + P.SZ_1M + 4294967296 - P.PAGE_SIZE) % 4294967296)
          (emit (.pgtable_page_dtor pte) w)))).1
        (__tlb_remove_page P pte (tlb_add_flush P
          (((addr &&& P.PMD_MASK) + P.SZ_1M) % 4294967296) (tlb_add_flush P
          (((addr &&& P.PMD_MASK) + P.SZ_1M + 4294967296 - P.PAGE_SIZE) % 4294967296)
          (emit (.pgtable_page_dtor pte) w)))).1 []
        (by simp [Event.is_release]) (by simp)
      simpa using this
    · rfl
    · have := release_last_b_flush_release [Event.pgtable_page_dtor pte]
        (__tlb_remove_page P pte (tlb_add_flush P
          (((addr &&& P.PMD_MASK) + P.SZ_1M) % 4294967296) (tlb_add_flush P
          (((addr &&& P.PMD_MASK) + P.SZ_1M + 4294967296 - P.PAGE_SIZE) % 4294967296)
          (emit (.pgtable_page_dtor pte) w)))).1
        (__tlb_remove_page P pte (tlb_add_flush P
          (((addr &&& P.PMD_MASK) + P.SZ_1M) % 4294967296) (tlb_add_flush P
          (((addr &&& P.PMD_MASK) + P.SZ_1M + 4294967296 - P.PAGE_SIZE) % 4294967296)
          (emit (.pgtable_page_dtor pte) w)))).1 []
        (by simp [Event.is_release]) (by simp)
      simpa using this
    · rfl

theorem finish_buffered_segment (P : Platform) (hf : tlb_fast_mode P = 0) (s e : Nat)
    (w : World) :
    ∃ seg, (tlb_finish_mmu P s e w).trace = w.trace ++ seg ∧ release_last_b seg = true := by
  have hpost : ∀ x ∈ Event.check_pgt_cache ::
      (match (tlb_flush_mmu P w).tlb.pages with
        | .local_ => []
        | .page a => [Event.free_pages a]),
      x.is_release = false ∧ x.is_invalidate = false := by
    cases (tlb_flush_mmu P w).tlb.pages <;> simp [Event.is_release, Event.is_invalidate]
  refine ⟨_, by rw [finish_trace, tlb_flush_mmu_buffered_trace P w hf, List.append_assoc,
    List.append_assoc], ?_⟩
  have := release_last_b_flush_release [] w w _ (by simp) hpost
  simpa using this

/-! ## Coverage of reported addresses by range invalidates -/

theorem covered_append_left (a : Nat) (l1 l2 : List Event) (h : covered a l1) :
    covered a (l1 ++ l2) := by
  obtain ⟨e, he, hc⟩ := h
  exact ⟨e, List.mem_append_left _ he, hc⟩

theorem covered_append_right (a : Nat) (l1 l2 : List Event) (h : covered a l2) :
    covered a (l1 ++ l2) := by
  obtain ⟨e, he, hc⟩ := h
  exact ⟨e, List.mem_append_right _ he, hc⟩

theorem covered_first_append_left (a : Nat) (l1 l2 : List Event) (hc : covered a l1)
    (h : covered_first a l1 = true) : covered_first a (l1 ++ l2) = true := by
  induction l1 with
  | nil =>
    obtain ⟨e, he, -⟩ := hc
    simp at he
  | cons x rest ih =>
    simp only [List.cons_append, covered_first] at h ⊢
    by_cases hx : x.covers a = true
    · simp [hx]
    · simp only [hx, if_false] at h ⊢
      by_cases hr : x.is_release = true
      · simp [hr] at h
      · simp only [hr, if_false] at h ⊢
        obtain ⟨e, he, hce⟩ := hc
        rcases List.mem_cons.mp he with rfl | he
        · exact absurd hce hx
        · exact ih ⟨e, he, hce⟩ h

theorem covered_first_append_right (a : Nat) (l1 l2 : List Event)
    (h1 : ∀ e ∈ l1, e.is_release = false) (h2 : covered_first a l2 = true) :
    covered_first a (l1 ++ l2) = true := by
  induction l1 with
  | nil => exact h2
  | cons x rest ih =>
    have hx := h1 x (List.mem_cons_self _ _)
    have hr := ih (fun e he => h1 e (List.mem_cons_of_mem _ he))
    simp only [List.cons_append, covered_first, hx]
    by_cases hc : x.covers a = true
    · simp [hc]
    · simpa [hc] using hr

theorem covered_of_covered_first (a : Nat) (l : List Event) (h : covered_first a l = true) :
    ∀ l1 e l2, l = l1 ++ e :: l2 → e.is_release = true → covered a l1 := by
  induction l with
  | nil =>
    intro l1 e l2 hl
    simp at hl
  | cons x rest ih =>
    intro l1 e l2 hl he
    simp only [covered_first] at h
    cases l1 with
    | nil =>
      simp only [List.nil_append, List.cons.injEq] at hl
      obtain ⟨rfl, -⟩ := hl
      have hx : x.covers a = false := by
        cases x <;> simp [Event.is_release] at he <;> rfl
      simp [hx, he] at h
    | cons y l1 =>
      simp only [List.cons_append, List.cons.injEq] at hl
      obtain ⟨rfl, hl⟩ := hl
      by_cases hx : x.covers a = true
      · exact ⟨x, List.mem_cons_self _ _, hx⟩
      · simp only [hx, if_false] at h
        by_cases hr : x.is_release = true
        · simp [hr] at h
        · simp only [hr, if_false] at h
          obtain ⟨c, hc, hcc⟩ := ih h l1 e l2 hl he
          exact ⟨c, List.mem_cons_of_mem _ hc, hcc⟩

theorem tlb_add_flush_range_mono (P : Platform) (addr : Nat) (w : World) :
    (tlb_add_flush P addr w).tlb.range_start ≤ w.tlb.range_start ∧
    w.tlb.range_end ≤ (tlb_add_flush P addr w).tlb.range_end := by
  unfold tlb_add_flush tlb_add_flush_tlb
  dsimp only
  split_ifs with h1 h2 h3 h3 <;> (try dsimp only at *) <;> omega

theorem flush_events_in_range (a : Nat) (w : World) (hp : InPass w) (hr : InRange a w) :
    flush_events w = [Event.flush_tlb_range w.tlb.vma w.tlb.range_start w.tlb.range_end] ∧
    covered a (flush_events w) ∧ covered_first a (flush_events w) = true := by
  obtain ⟨h1, h2⟩ := hp
  obtain ⟨h3, h4⟩ := hr
  have h5 : 0 < w.tlb.range_end := by omega
  have he : flush_events w =
      [Event.flush_tlb_range w.tlb.vma w.tlb.range_start w.tlb.range_end] := by
    simp [flush_events, h1, h2, h5]
  rw [he]
  refine ⟨rfl, ⟨_, List.mem_singleton.mpr rfl, ?_⟩, ?_⟩
  · simp [Event.covers, h3, h4]
  · simp [covered_first, Event.covers, h3, h4]

theorem tlb_remove_page_fast (P : Platform) (hf : tlb_fast_mode P ≠ 0) (page : Nat)
    (w : World) : tlb_remove_page P page w = emit (.free_page_and_swap_cache page) w := by
  simp [tlb_remove_page, __tlb_remove_page, hf]

theorem tlb_flush_mmu_extends (P : Platform) (w : World) :
    ∃ seg, (tlb_flush_mmu P w).trace = w.trace ++ seg := by
  by_cases hf : tlb_fast_mode P = 0
  · exact ⟨_, by rw [tlb_flush_mmu_buffered_trace P w hf, List.append_assoc]⟩
  · exact ⟨_, by rw [tlb_flush_mmu_fast_eq P w hf, tlb_flush_trace]⟩

theorem tlb_remove_page_extends (P : Platform) (page : Nat) (w : World) :
    ∃ seg, (tlb_remove_page P page w).trace = w.trace ++ seg := by
  by_cases hf : tlb_fast_mode P = 0
  · exact ⟨_, by rw [tlb_remove_page_buffered_trace P hf, List.append_assoc]⟩
  · exact ⟨_, by rw [tlb_remove_page_fast P hf, emit_trace]⟩

theorem exec_extends (P : Platform) (o : Op) (w : World) :
    ∃ seg, (exec P o w).trace = w.trace ++ seg := by
  cases o with
  | remove_page page => exact tlb_remove_page_extends P page w
  | remove_tlb_entry ptep addr => exact ⟨[], by simp [exec, tlb_remove_tlb_entry,
      tlb_add_flush_trace]⟩
  | start_vma vma => exact ⟨_, tlb_start_vma_trace P vma w⟩
  | end_vma vma => exact ⟨_, tlb_end_vma_trace P vma w⟩
  | flush_mmu => exact tlb_flush_mmu_extends P w
  | pte_free pte addr =>
    obtain ⟨-, h2, -⟩ := pte_free_prelude P pte
      (((addr &&& P.PMD_MASK) + P.SZ_1M + 4294967296 - P.PAGE_SIZE) % 4294967296)
      (((addr &&& P.PMD_MASK) + P.SZ_1M) % 4294967296) w
    obtain ⟨seg, h⟩ := tlb_remove_page_extends P pte (tlb_add_flush P
      (((addr &&& P.PMD_MASK) + P.SZ_1M) % 4294967296) (tlb_add_flush P
      (((addr &&& P.PMD_MASK) + P.SZ_1M + 4294967296 - P.PAGE_SIZE) % 4294967296)
      (emit (.pgtable_page_dtor pte) w)))
    exact ⟨_, by rw [exec, __pte_free_tlb, h, h2, List.append_assoc]⟩

theorem run_extends (P : Platform) (ops : List Op) :
    ∀ w, ∃ seg, (run P ops w).trace = w.trace ++ seg := by
  induction ops with
  | nil => exact fun w => ⟨[], by simp [run]⟩
  | cons o rest ih =>
    intro w
    obtain ⟨s1, h1⟩ := exec_extends P o w
    obtain ⟨s2, h2⟩ := ih (exec P o w)
    exact ⟨s1 ++ s2, by rw [run_cons, h2, h1, List.append_assoc]⟩

theorem pass_op_frame (P : Platform) (o : Op) (ho : o.in_pass = true) (w : World) :
    (exec P o w).tlb.fullmm = w.tlb.fullmm ∧ (exec P o w).tlb.vma = w.tlb.vma := by
  cases o with
  | remove_page page =>
    by_cases hf : tlb_fast_mode P = 0
    · obtain ⟨-, -, -, -, r5, r6, -⟩ := remove_page_buffered_frame P page w hf
      unfold exec tlb_remove_page
      dsimp only
      split_ifs
      · obtain ⟨-, f2, f3, -⟩ := tlb_flush_mmu_buffered_frame P (__tlb_remove_page P page w).1 hf
        exact ⟨f2.trans r5, f3.trans r6⟩
      · exact ⟨r5, r6⟩
    · rw [exec, tlb_remove_page_fast P hf]
      exact ⟨rfl, rfl⟩
  | remove_tlb_entry ptep addr =>
    exact ⟨(tlb_add_flush_same_store P addr w).2.2.2.2.2.2.2.1, tlb_add_flush_vma P addr w⟩
  | flush_mmu =>
    by_cases hf : tlb_fast_mode P = 0
    · obtain ⟨-, f2, f3, -⟩ := tlb_flush_mmu_buffered_frame P w hf
      exact ⟨f2, f3⟩
    · rw [exec, tlb_flush_mmu_fast_eq P w hf]
      exact ⟨(tlb_flush_same_store P w).2.2.2.2.2.2.2.1, tlb_flush_vma P w⟩
  | start_vma vma => simp [Op.in_pass] at ho
  | end_vma vma => simp [Op.in_pass] at ho
  | pte_free pte addr => simp [Op.in_pass] at ho

theorem pass_op_in_pass (P : Platform) (o : Op) (ho : o.in_pass = true) (w : World)
    (hp : InPass w) : InPass (exec P o w) := by
  obtain ⟨h1, h2⟩ := pass_op_frame P o ho w
  exact ⟨h1.trans hp.1, by rw [h2]; exact hp.2⟩

theorem pass_ops_in_pass (P : Platform) (ops : List Op) :
    ∀ w, (∀ o ∈ ops, o.in_pass = true) → InPass w → InPass (run P ops w) := by
  induction ops with
  | nil => exact fun w _ hp => hp
  | cons o rest ih =>
    intro w ho hp
    exact ih _ (fun x hx => ho x (List.mem_cons_of_mem _ hx))
      (pass_op_in_pass P o (ho o (List.mem_cons_self _ _)) w hp)

theorem vm_bug_segment_no_release (c : Prop) [Decidable c] :
    ∀ e ∈ (if c then [Event.vm_bug] else []), e.is_release = false := by
  split_ifs <;> simp [Event.is_release]

/-- One call of a region pass, from a state whose tracked interval contains `a`: either `a`
stays in the tracked interval and (with buffering) nothing is released, or the call records a
range invalidate covering `a` before any release. -/
theorem pass_step (P : Platform) (a : Nat) (o : Op) (ho : o.in_pass = true) (w : World)
    (hp : InPass w) (hr : InRange a w) :
    ∃ seg, (exec P o w).trace = w.trace ++ seg ∧
      ((InRange a (exec P o w) ∧ (tlb_fast_mode P = 0 → ∀ e ∈ seg, e.is_release = false)) ∨
       (covered a seg ∧ covered_first a seg = true)) := by
  cases o with
  | remove_tlb_entry ptep addr =>
    refine ⟨[], by simp [exec, tlb_remove_tlb_entry, tlb_add_flush_trace], Or.inl ⟨?_, ?_⟩⟩
    · obtain ⟨m1, m2⟩ := tlb_add_flush_range_mono P addr w
      exact ⟨Nat.le_trans m1 hr.1, Nat.lt_of_lt_of_le hr.2 m2⟩
    · simp
  | flush_mmu =>
    obtain ⟨-, c1, c2⟩ := flush_events_in_range a w hp hr
    by_cases hf : tlb_fast_mode P = 0
    · exact ⟨_, by rw [exec, tlb_flush_mmu_buffered_trace P w hf, List.append_assoc],
        Or.inr ⟨covered_append_left a _ _ c1, covered_first_append_left a _ _ c1 c2⟩⟩
    · exact ⟨_, by rw [exec, tlb_flush_mmu_fast_eq P w hf, tlb_flush_trace], Or.inr ⟨c1, c2⟩⟩
  | remove_page page =>
    by_cases hf : tlb_fast_mode P = 0
    · obtain ⟨-, -, -, -, r5, r6, -, r8, r9, -⟩ := remove_page_buffered_frame P page w hf
      have hp1 : InPass (__tlb_remove_page P page w).1 :=
        ⟨r5.trans hp.1, by rw [r6]; exact hp.2⟩
      have hr1 : InRange a (__tlb_remove_page P page w).1 := by
        unfold InRange
        rw [r8, r9]
        exact hr
      obtain ⟨-, c1, c2⟩ := flush_events_in_range a _ hp1 hr1
      refine ⟨_, by rw [exec, tlb_remove_page_buffered_trace P hf, List.append_assoc], ?_⟩
      by_cases hz : (__tlb_remove_page P page w).2 = 0
      · rw [if_pos hz]
        refine Or.inr ⟨covered_append_right a _ _ (covered_append_left a _ _ c1), ?_⟩
        exact covered_first_append_right a _ _ (vm_bug_segment_no_release _)
          (covered_first_append_left a _ _ c1 c2)
      · rw [if_neg hz]
        refine Or.inl ⟨?_, fun _ => ?_⟩
        · have he : exec P (.remove_page page) w = (__tlb_remove_page P page w).1 := by
            simp [exec, tlb_remove_page, hz]
          rw [he]
          exact hr1
        · rw [List.append_nil]
          exact vm_bug_segment_no_release _
    · refine ⟨_, by rw [exec, tlb_remove_page_fast P hf, emit_trace], Or.inl ⟨?_, ?_⟩⟩
      · rw [exec, tlb_remove_page_fast P hf]
        exact hr
      · exact fun h => absurd h hf
  | start_vma vma => simp [Op.in_pass] at ho
  | end_vma vma => simp [Op.in_pass] at ho
  | pte_free pte addr => simp [Op.in_pass] at ho

theorem tlb_end_vma_run_extends (P : Platform) (vma : vm_area_struct) (ops : List Op)
    (w : World) : ∃ seg, (tlb_end_vma P vma (run P ops w)).trace = w.trace ++ seg := by
  obtain ⟨s1, h1⟩ := run_extends P ops w
  exact ⟨_, by rw [tlb_end_vma_trace, h1, List.append_assoc]⟩

/-- From a state of a region pass whose tracked interval contains `a`, the rest of the pass
up to and including `tlb_end_vma` records a range invalidate covering `a`; with buffering it
does so before any release. -/
theorem pass_covers (P : Platform) (a : Nat) (vma : vm_area_struct) (ops : List Op) :
    ∀ w, (∀ o ∈ ops, o.in_pass = true) → InPass w → InRange a w →
      ∃ seg, (tlb_end_vma P vma (run P ops w)).trace = w.trace ++ seg ∧ covered a seg ∧
        (tlb_fast_mode P = 0 → covered_first a seg = true) := by
  induction ops with
  | nil =>
    intro w _ hp hr
    obtain ⟨e1, c1, c2⟩ := flush_events_in_range a w hp hr
    refine ⟨flush_events w, ?_, c1, fun _ => c2⟩
    rw [tlb_end_vma_trace]
    simp [run, hp.1]
  | cons o rest ih =>
    intro w ho hp hr
    have ho1 := ho o (List.mem_cons_self _ _)
    have hrest : ∀ x ∈ rest, x.in_pass = true := fun x hx => ho x (List.mem_cons_of_mem _ hx)
    obtain ⟨s1, t1, hcase⟩ := pass_step P a o ho1 w hp hr
    rcases hcase with ⟨hr2, hnr⟩ | ⟨c1, c2⟩
    · obtain ⟨s2, t2, d1, d2⟩ := ih (exec P o w) hrest (pass_op_in_pass P o ho1 w hp) hr2
      refine ⟨s1 ++ s2, by rw [run_cons, t2, t1, List.append_assoc],
        covered_append_right a _ _ d1, fun hf => ?_⟩
      exact covered_first_append_right a _ _ (hnr hf) (d2 hf)
    · obtain ⟨s2, t2⟩ := tlb_end_vma_run_extends P vma rest (exec P o w)
      exact ⟨s1 ++ s2, by rw [run_cons, t2, t1, List.append_assoc],
        covered_append_left a _ _ c1, fun _ => covered_first_append_left a _ _ c1 c2⟩

theorem tlb_add_flush_in_range (P : Platform) (hs : P.sane) (a : Nat) (ha : a < P.TASK_SIZE)
    (w : World) (hf : w.tlb.fullmm = 0) : InRange a (tlb_add_flush P a w) := by
  obtain ⟨s1, s2, -, -⟩ := hs
  have hmod : (a + P.PAGE_SIZE) % 4294967296 = a + P.PAGE_SIZE := Nat.mod_eq_of_lt (by omega)
  unfold InRange tlb_add_flush tlb_add_flush_tlb
  simp only [hf, if_true, hmod]
  split_ifs with h1 h2 h2 <;> (try dsimp only at *) <;> omega

/-! ## The tracked interval over a run of reported entries -/

theorem tlb_add_flush_range (P : Platform) (hs : P.sane) (a : Nat) (ha : a < P.TASK_SIZE)
    (w : World) (hf : w.tlb.fullmm = 0) :
    ((tlb_add_flush P a w).tlb.range_start = a ∧ a ≤ w.tlb.range_start ∨
      (tlb_add_flush P a w).tlb.range_start = w.tlb.range_start ∧ w.tlb.range_start ≤ a) ∧
    ((tlb_add_flush P a w).tlb.range_end = a + P.PAGE_SIZE ∧
        w.tlb.range_end ≤ a + P.PAGE_SIZE ∨
      (tlb_add_flush P a w).tlb.range_end = w.tlb.range_end ∧
        a + P.PAGE_SIZE ≤ w.tlb.range_end) := by
  obtain ⟨s1, s2, -, -⟩ := hs
  have hmod : (a + P.PAGE_SIZE) % 4294967296 = a + P.PAGE_SIZE := Nat.mod_eq_of_lt (by omega)
  unfold tlb_add_flush tlb_add_flush_tlb
  simp only [hf, if_true, hmod]
  split_ifs with h1 h2 h2 <;> (try dsimp only at *) <;> omega

/-- Effect of a run of `tlb_remove_tlb_entry` calls with addresses below `TASK_SIZE` on a
session with `fullmm = 0`: nothing is recorded, the region is kept, the lower bound becomes
the least of the old bound and the addresses, the upper bound the greatest of the old bound
and the addresses plus `PAGE_SIZE`. -/
theorem entries_range (P : Platform) (hs : P.sane) (es : List (Nat × Nat)) :
    ∀ w : World, w.tlb.fullmm = 0 → (∀ e ∈ es, e.2 < P.TASK_SIZE) →
      (run P (entries es) w).trace = w.trace ∧
      (run P (entries es) w).tlb.fullmm = 0 ∧
      (run P (entries es) w).tlb.vma = w.tlb.vma ∧
      ((run P (entries es) w).tlb.range_start = w.tlb.range_start ∨
        ∃ e ∈ es, (run P (entries es) w).tlb.range_start = e.2) ∧
      (run P (entries es) w).tlb.range_start ≤ w.tlb.range_start ∧
      (∀ e ∈ es, (run P (entries es) w).tlb.range_start ≤ e.2) ∧
      ((run P (entries es) w).tlb.range_end = w.tlb.range_end ∨
        ∃ e ∈ es, (run P (entries es) w).tlb.range_end = e.2 + P.PAGE_SIZE) ∧
      w.tlb.range_end ≤ (run P (entries es) w).tlb.range_end ∧
      (∀ e ∈ es, e.2 + P.PAGE_SIZE ≤ (run P (entries es) w).tlb.range_end) := by
  induction es with
  | nil =>
    intro w hf _
    simp [entries, run, hf]
  | cons x rest ih =>
    intro w hf hlt
    have hx := hlt x (List.mem_cons_self _ _)
    obtain ⟨a1, a2⟩ := tlb_add_flush_range P hs x.2 hx w hf
    have hf1 : (tlb_add_flush P x.2 w).tlb.fullmm = 0 :=
      ((tlb_add_flush_same_store P x.2 w).2.2.2.2.2.2.2.1).trans hf
    obtain ⟨i1, i2, i3, i4, i5, i6, i7, i8, i9⟩ :=
      ih (tlb_add_flush P x.2 w) hf1 (fun e he => hlt e (List.mem_cons_of_mem _ he))
    have hrun : run P (entries (x :: rest)) w = run P (entries rest) (tlb_add_flush P x.2 w) :=
      rfl
    rw [hrun]
    refine ⟨i1, i2, i3.trans (tlb_add_flush_vma P x.2 w), ?_, ?_, ?_, ?_, ?_, ?_⟩
    · rcases i4 with h | ⟨e, he, h⟩
      · rcases a1 with ⟨b1, -⟩ | ⟨b1, -⟩
        · exact Or.inr ⟨x, List.mem_cons_self _ _, h.trans b1⟩
        · exact Or.inl (h.trans b1)
      · exact Or.inr ⟨e, List.mem_cons_of_mem _ he, h⟩
    · rcases a1 with ⟨b1, b2⟩ | ⟨b1, b2⟩ <;> omega
    · intro e he
      rcases List.mem_cons.mp he with rfl | he
      · rcases a1 with ⟨b1, b2⟩ | ⟨b1, b2⟩ <;> omega
      · exact i6 e he
    · rcases i7 with h | ⟨e, he, h⟩
      · rcases a2 with ⟨b1, -⟩ | ⟨b1, -⟩
        · exact Or.inr ⟨x, List.mem_cons_self _ _, h.trans b1⟩
        · exact Or.inl (h.trans b1)
      · exact Or.inr ⟨e, List.mem_cons_of_mem _ he, h⟩
    · rcases a2 with ⟨b1, b2⟩ | ⟨b1, b2⟩ <;> omega
    · intro e he
      rcases List.mem_cons.mp he with rfl | he
      · rcases a2 with ⟨b1, b2⟩ | ⟨b1, b2⟩ <;> omega
      · exact i9 e he

theorem tlb_start_vma_frame (P : Platform) (vma : vm_area_struct) (w : World)
    (hf : w.tlb.fullmm = 0) :
    (tlb_start_vma P vma w).tlb.fullmm = 0 ∧ (tlb_start_vma P vma w).tlb.vma = some vma ∧
    (tlb_start_vma P vma w).tlb.range_start = P.TASK_SIZE ∧
    (tlb_start_vma P vma w).tlb.range_end = 0 ∧
    (tlb_start_vma P vma w).trace =
      w.trace ++ [Event.flush_cache_range vma vma.vm_start vma.vm_end] := by
  unfold tlb_start_vma
  simp [hf, emit]

/-- The tracked interval after `tlb_start_vma` and a non-empty run of entries below
`TASK_SIZE`: the least address, and the greatest address plus `PAGE_SIZE`. -/
theorem region_entries_range (P : Platform) (hs : P.sane) (w : World) (hf : w.tlb.fullmm = 0)
    (vma : vm_area_struct) (es : List (Nat × Nat)) (hne : es ≠ [])
    (hlt : ∀ e ∈ es, e.2 < P.TASK_SIZE) :
    (∃ lo ∈ es, (run P (entries es) (tlb_start_vma P vma w)).tlb.range_start = lo.2 ∧
      ∀ e ∈ es, lo.2 ≤ e.2) ∧
    (∃ hi ∈ es,
      (run P (entries es) (tlb_start_vma P vma w)).tlb.range_end = hi.2 + P.PAGE_SIZE ∧
      ∀ e ∈ es, e.2 ≤ hi.2) := by
  obtain ⟨f1, -, f3, f4, -⟩ := tlb_start_vma_frame P vma w hf
  obtain ⟨-, -, -, i4, -, i6, i7, -, i9⟩ := entries_range P hs es _ f1 hlt
  obtain ⟨x, hx⟩ := List.exists_mem_of_ne_nil es hne
  have hxlt := hlt x hx
  have hx6 := i6 x hx
  have hx9 := i9 x hx
  obtain ⟨s1, -, -, -⟩ := hs
  constructor
  · rcases i4 with h | ⟨e, he, h⟩
    · rw [f3] at h
      omega
    · exact ⟨e, he, h, fun y hy => by rw [← h]; exact i6 y hy⟩
  · rcases i7 with h | ⟨e, he, h⟩
    · rw [f4] at h
      omega
    · refine ⟨e, he, h, fun y hy => ?_⟩
      have := i9 y hy
      omega

/-- The calls recorded by a whole region pass that reports a non-empty run of entries below
`TASK_SIZE`. -/
theorem region_pass_trace (P : Platform) (hs : P.sane) (w : World) (hf : w.tlb.fullmm = 0)
    (vma : vm_area_struct) (es : List (Nat × Nat)) (hne : es ≠ [])
    (hlt : ∀ e ∈ es, e.2 < P.TASK_SIZE) :
    ∃ lo ∈ es, ∃ hi ∈ es, (∀ e ∈ es, lo.2 ≤ e.2 ∧ e.2 ≤ hi.2) ∧
      (tlb_end_vma P vma (run P (entries es) (tlb_start_vma P vma w))).trace =
        w.trace ++ [Event.flush_cache_range vma vma.vm_start vma.vm_end,
          Event.flush_tlb_range (some vma) lo.2 (hi.2 + P.PAGE_SIZE)] := by
  obtain ⟨f1, f2, -, -, f5⟩ := tlb_start_vma_frame P vma w hf
  obtain ⟨i1, i2, i3, -⟩ := entries_range P hs es _ f1 hlt
  obtain ⟨⟨lo, hlo, r1, r2⟩, ⟨hi, hhi, r3, r4⟩⟩ := region_entries_range P hs w hf vma es hne hlt
  refine ⟨lo, hlo, hi, hhi, fun e he => ⟨r2 e he, r4 e he⟩, ?_⟩
  have hpos : 0 < (run P (entries es) (tlb_start_vma P vma w)).tlb.range_end := by
    obtain ⟨s1, -⟩ := hs
    omega
  have hfe : flush_events (run P (entries es) (tlb_start_vma P vma w)) =
      [Event.flush_tlb_range (some vma)
        (run P (entries es) (tlb_start_vma P vma w)).tlb.range_start
        (run P (entries es) (tlb_start_vma P vma w)).tlb.range_end] := by
    simp [flush_events, i2, i3, f2, hpos]
  rw [tlb_end_vma_trace, i1, f5, if_pos i2, hfe, r1, r3]
  simp

/-! ## Reports that do and do not fill the collector -/

/-- Reporting a page that leaves a free slot: nothing is recorded and the page is appended
to the buffered pages. -/
theorem tlb_remove_page_no_flush (P : Platform) (hs : P.sane) (hf : tlb_fast_mode P = 0)
    (page : Nat) (w : World) (hg : Good P w) (hn : w.tlb.nr + 1 < w.tlb.max) :
    Good P (tlb_remove_page P page w) ∧
    (tlb_remove_page P page w).trace = w.trace ∧
    (tlb_remove_page P page w).tlb.nr = w.tlb.nr + 1 ∧
    pending (tlb_remove_page P page w) = pending w ++ [page] ∧
    (tlb_remove_page P page w).oracle = w.oracle ∧
    (tlb_remove_page P page w).calls = w.calls ∧
    (tlb_remove_page P page w).tlb.max = w.tlb.max ∧
    (tlb_remove_page P page w).tlb.pages = w.tlb.pages ∧
    (tlb_remove_page P page w).tlb.fullmm = w.tlb.fullmm ∧
    (tlb_remove_page P page w).tlb.vma = w.tlb.vma ∧
    (tlb_remove_page P page w).tlb.mm = w.tlb.mm := by
  obtain ⟨r1, r2, r3, r4, r5, r6, r7, -, -, r10, r11, r12, r13⟩ :=
    remove_page_buffered_frame P page w hf
  have hmax : w.tlb.max < 4294967296 := by
    obtain ⟨-, -, s3, s4⟩ := hs
    obtain ⟨-, g2⟩ := hg
    simp only [MMU_GATHER_BUNDLE] at s3 g2
    omega
  have hmod : (w.tlb.nr + 1) % 4294967296 = w.tlb.nr + 1 := Nat.mod_eq_of_lt (by omega)
  rw [hmod] at r10 r12 r13
  have hnb : ¬ (w.tlb.nr + 1 > w.tlb.max) := by omega
  simp only [hnb, if_false, List.append_nil] at r12
  have hlt : (w.tlb.max + 4294967296 - (w.tlb.nr + 1)) % 4294967296 < 4294967296 :=
    Nat.mod_lt _ (by norm_num)
  have hz : ¬ (__tlb_remove_page P page w).2 = 0 := by
    rw [r13, to_int_eq_zero _ hlt]
    omega
  have he : tlb_remove_page P page w = (__tlb_remove_page P page w).1 := by
    simp [tlb_remove_page, hz]
  rw [he]
  refine ⟨⟨by rw [r10, r3]; exact hn, by rw [r3]; exact hg.2⟩, r12, r10,
    pending_snoc w _ page r10 r11, r1, r2, r3, r4, r5, r6, r7⟩

/-- Reporting the page that fills the collector: `tlb_flush_mmu` runs on the state holding
the new page. -/
theorem tlb_remove_page_flush (P : Platform) (hs : P.sane) (hf : tlb_fast_mode P = 0)
    (page : Nat) (w : World) (hg : Good P w) (hn : w.tlb.nr + 1 = w.tlb.max) :
    tlb_remove_page P page w = tlb_flush_mmu P (__tlb_remove_page P page w).1 ∧
    (__tlb_remove_page P page w).1.trace = w.trace ∧
    pending (__tlb_remove_page P page w).1 = pending w ++ [page] := by
  obtain ⟨-, -, -, -, -, -, -, -, -, r10, r11, r12, r13⟩ :=
    remove_page_buffered_frame P page w hf
  have hmax : w.tlb.max < 4294967296 := by
    obtain ⟨-, -, s3, s4⟩ := hs
    obtain ⟨-, g2⟩ := hg
    simp only [MMU_GATHER_BUNDLE] at s3 g2
    omega
  have hmod : (w.tlb.nr + 1) % 4294967296 = w.tlb.nr + 1 := Nat.mod_eq_of_lt (by omega)
  rw [hmod] at r10 r12 r13
  have hnb : ¬ (w.tlb.nr + 1 > w.tlb.max) := by omega
  simp only [hnb, if_false, List.append_nil] at r12
  have hlt : (w.tlb.max + 4294967296 - (w.tlb.nr + 1)) % 4294967296 < 4294967296 :=
    Nat.mod_lt _ (by norm_num)
  have hz : (__tlb_remove_page P page w).2 = 0 := by
    rw [r13, to_int_eq_zero _ hlt, hn]
    omega
  exact ⟨by simp [tlb_remove_page, hz], r12, pending_snoc w _ page r10 r11⟩

/-- A run of reports that does not fill the collector. -/
theorem remove_pages_no_flush (P : Platform) (hs : P.sane) (hf : tlb_fast_mode P = 0)
    (ps : List Nat) :
    ∀ w : World, Good P w → w.tlb.nr + ps.length < w.tlb.max →
      Good P (run P (ps.map Op.remove_page) w) ∧
      (run P (ps.map Op.remove_page) w).trace = w.trace ∧
      (run P (ps.map Op.remove_page) w).tlb.nr = w.tlb.nr + ps.length ∧
      pending (run P (ps.map Op.remove_page) w) = pending w ++ ps ∧
      (run P (ps.map Op.remove_page) w).oracle = w.oracle ∧
      (run P (ps.map Op.remove_page) w).calls = w.calls ∧
      (run P (ps.map Op.remove_page) w).tlb.max = w.tlb.max ∧
      (run P (ps.map Op.remove_page) w).tlb.pages = w.tlb.pages ∧
      (run P (ps.map Op.remove_page) w).tlb.fullmm = w.tlb.fullmm ∧
      (run P (ps.map Op.remove_page) w).tlb.vma = w.tlb.vma ∧
      (run P (ps.map Op.remove_page) w).tlb.mm = w.tlb.mm := by
  induction ps with
  | nil =>
    intro w hg _
    simp [run, hg]
  | cons p rest ih =>
    intro w hg hn
    simp only [List.length_cons] at hn
    obtain ⟨a0, a1, a2, a3, a4, a5, a6, a7, a8, a9, a10⟩ :=
      tlb_remove_page_no_flush P hs hf p w hg (by omega)
    obtain ⟨b0, b1, b2, b3, b4, b5, b6, b7, b8, b9, b10⟩ :=
      ih (tlb_remove_page P p w) a0 (by rw [a2, a6]; omega)
    have hrun : run P ((p :: rest).map Op.remove_page) w =
        run P (rest.map Op.remove_page) (tlb_remove_page P p w) := rfl
    rw [hrun]
    refine ⟨b0, b1.trans a1, ?_, ?_, b4.trans a4, b5.trans a5, b6.trans a6, b7.trans a7,
      b8.trans a8, b9.trans a9, b10.trans a10⟩
    · rw [b2, a2, List.length_cons]
      omega
    · rw [b3, a3]
      simp

theorem flush_events_mm (w : World) (h : w.tlb.fullmm ≠ 0 ∨ w.tlb.vma = none) :
    flush_events w = [Event.flush_tlb_mm w.tlb.mm] := by
  simp [flush_events, h]

/-- The state after `tlb_gather_mmu` when its allocation attempt fails. -/
theorem gather_alloc_fails (P : Platform) (mm fullmm : Nat) (w : World)
    (h : w.oracle w.calls = 0) :
    (tlb_gather_mmu P mm fullmm w).tlb.max = MMU_GATHER_BUNDLE ∧
    (tlb_gather_mmu P mm fullmm w).tlb.pages = .local_ ∧
    (tlb_gather_mmu P mm fullmm w).tlb.nr = 0 ∧
    (tlb_gather_mmu P mm fullmm w).tlb.vma = none ∧
    (tlb_gather_mmu P mm fullmm w).tlb.fullmm = fullmm ∧
    (tlb_gather_mmu P mm fullmm w).tlb.mm = mm ∧
    (tlb_gather_mmu P mm fullmm w).oracle = w.oracle ∧
    (tlb_gather_mmu P mm fullmm w).calls = w.calls + 1 ∧
    (tlb_gather_mmu P mm fullmm w).trace = w.trace ++ [Event.get_free_pages 0] := by
  unfold tlb_gather_mmu __tlb_alloc_page
  simp [h, emit]

/-- The calls recorded when a report fills the collector, and the state afterwards. -/
theorem tlb_remove_page_flush_trace (P : Platform) (hs : P.sane) (hf : tlb_fast_mode P = 0)
    (page : Nat) (w : World) (hg : Good P w) (hn : w.tlb.nr + 1 = w.tlb.max) :
    (tlb_remove_page P page w).trace =
      w.trace ++ flush_events w ++ Event.free_pages_and_swap_cache (pending w ++ [page]) ::
        (if w.tlb.pages = .local_ then [Event.get_free_pages (w.oracle w.calls)] else []) ∧
    Good P (tlb_remove_page P page w) ∧
    (tlb_remove_page P page w).tlb.nr = 0 ∧
    (tlb_remove_page P page w).tlb.fullmm = w.tlb.fullmm ∧
    (tlb_remove_page P page w).tlb.vma = w.tlb.vma ∧
    (tlb_remove_page P page w).tlb.mm = w.tlb.mm := by
  obtain ⟨e1, e2, e3⟩ := tlb_remove_page_flush P hs hf page w hg hn
  obtain ⟨r1, r2, r3, r4, r5, r6, r7, r8, r9, -⟩ := remove_page_buffered_frame P page w hf
  obtain ⟨f1, f2, f3, f4, -, -, f7⟩ :=
    tlb_flush_mmu_buffered_frame P (__tlb_remove_page P page w).1 hf
  have hfe : flush_events (__tlb_remove_page P page w).1 = flush_events w := by
    unfold flush_events
    rw [r5, r6, r7, r8, r9]
  rw [e1]
  refine ⟨?_, ?_, f1, f2.trans r5, f3.trans r6, f4.trans r7⟩
  · rw [tlb_flush_mmu_buffered_trace P _ hf, hfe, e2]
    unfold release_events
    rw [e3, r4, r1, r2]
  · apply good_of_nr_zero P hs _ f1
    rcases f7 with f7 | f7
    · rw [f7, r3]
      exact hg.2
    · exact Or.inr f7

/-- The calls recorded by `tlb_finish_mmu` when pages are buffered and no region is active or
`fullmm` is set. -/
theorem finish_buffered_mm_trace (P : Platform) (hf : tlb_fast_mode P = 0) (s e : Nat)
    (w : World) (h : w.tlb.fullmm ≠ 0 ∨ w.tlb.vma = none) :
    ∃ post, (tlb_finish_mmu P s e w).trace =
        w.trace ++ [Event.flush_tlb_mm w.tlb.mm, Event.free_pages_and_swap_cache (pending w)] ++
          post ∧
      ∀ x ∈ post, x.is_invalidate = false ∧ x.is_release = false := by
  refine ⟨(if w.tlb.pages = .local_ then [Event.get_free_pages (w.oracle w.calls)] else []) ++
    Event.check_pgt_cache ::
      (match (tlb_flush_mmu P w).tlb.pages with
        | .local_ => []
        | .page a => [Event.free_pages a]), ?_, ?_⟩
  · rw [finish_trace, tlb_flush_mmu_buffered_trace P w hf, flush_events_mm w h]
    unfold release_events
    simp
  · intro x hx
    rcases List.mem_append.mp hx with hx | hx
    · split_ifs at hx
      · rw [List.mem_singleton.mp hx]
        exact ⟨rfl, rfl⟩
      · simp at hx
    · cases hp : (tlb_flush_mmu P w).tlb.pages with
      | local_ =>
        rw [hp] at hx
        rw [List.mem_singleton.mp hx]
        exact ⟨rfl, rfl⟩
      | page a =>
        rw [hp] at hx
        simp only [List.mem_cons, List.mem_singleton, List.not_mem_nil, or_false] at hx
        rcases hx with rfl | rfl <;> exact ⟨rfl, rfl⟩

/-! ## Whole-address-space sessions -/

theorem tlb_flush_mmu_frame (P : Platform) (w : World) :
    (tlb_flush_mmu P w).tlb.fullmm = w.tlb.fullmm ∧ (tlb_flush_mmu P w).tlb.mm = w.tlb.mm := by
  by_cases hf : tlb_fast_mode P = 0
  · obtain ⟨-, f2, -, f4, -⟩ := tlb_flush_mmu_buffered_frame P w hf
    exact ⟨f2, f4⟩
  · rw [tlb_flush_mmu_fast_eq P w hf]
    exact ⟨(tlb_flush_same_store P w).2.2.2.2.2.2.2.1, (tlb_flush_same_store P w).2.2.2.2.2.2.2.2⟩

theorem tlb_remove_page_frame (P : Platform) (page : Nat) (w : World) :
    (tlb_remove_page P page w).tlb.fullmm = w.tlb.fullmm ∧
    (tlb_remove_page P page w).tlb.mm = w.tlb.mm := by
  by_cases hf : tlb_fast_mode P = 0
  · obtain ⟨-, -, -, -, r5, -, r7, -⟩ := remove_page_buffered_frame P page w hf
    unfold tlb_remove_page
    dsimp only
    split_ifs
    · obtain ⟨f1, f2⟩ := tlb_flush_mmu_frame P (__tlb_remove_page P page w).1
      exact ⟨f1.trans r5, f2.trans r7⟩
    · exact ⟨r5, r7⟩
  · rw [tlb_remove_page_fast P hf]
    exact ⟨rfl, rfl⟩

theorem exec_frame (P : Platform) (o : Op) (w : World) :
    (exec P o w).tlb.fullmm = w.tlb.fullmm ∧ (exec P o w).tlb.mm = w.tlb.mm := by
  cases o with
  | remove_page page => exact tlb_remove_page_frame P page w
  | remove_tlb_entry ptep addr =>
    exact ⟨(tlb_add_flush_same_store P addr w).2.2.2.2.2.2.2.1,
      (tlb_add_flush_same_store P addr w).2.2.2.2.2.2.2.2⟩
  | start_vma vma =>
    exact ⟨(tlb_start_vma_same_store P vma w).2.2.2.2.2.2.2.1,
      (tlb_start_vma_same_store P vma w).2.2.2.2.2.2.2.2⟩
  | end_vma vma =>
    exact ⟨(tlb_end_vma_same_store P vma w).2.2.2.2.2.2.2.1,
      (tlb_end_vma_same_store P vma w).2.2.2.2.2.2.2.2⟩
  | flush_mmu => exact tlb_flush_mmu_frame P w
  | pte_free pte addr =>
    obtain ⟨h1, -, -⟩ := pte_free_prelude P pte
      (((addr &&& P.PMD_MASK) + P.SZ_1M + 4294967296 - P.PAGE_SIZE) % 4294967296)
      (((addr &&& P.PMD_MASK) + P.SZ_1M) % 4294967296) w
    obtain ⟨f1, f2⟩ := tlb_remove_page_frame P pte (tlb_add_flush P
      (((addr &&& P.PMD_MASK) + P.SZ_1M) % 4294967296) (tlb_add_flush P
      (((addr &&& P.PMD_MASK) + P.SZ_1M + 4294967296 - P.PAGE_SIZE) % 4294967296)
      (emit (.pgtable_page_dtor pte) w)))
    exact ⟨f1.trans h1.2.2.2.2.2.2.2.1, f2.trans h1.2.2.2.2.2.2.2.2⟩

theorem run_frame (P : Platform) (ops : List Op) :
    ∀ w, (run P ops w).tlb.fullmm = w.tlb.fullmm ∧ (run P ops w).tlb.mm = w.tlb.mm := by
  induction ops with
  | nil => exact fun w => ⟨rfl, rfl⟩
  | cons o rest ih =>
    intro w
    obtain ⟨a1, a2⟩ := exec_frame P o w
    obtain ⟨b1, b2⟩ := ih (exec P o w)
    exact ⟨b1.trans a1, b2.trans a2⟩

/-- The calls of `tlb_flush_mmu` on a whole-address-space session: one `flush_tlb_mm`, then
no further invalidate. -/
theorem tlb_flush_mmu_fullmm_trace (P : Platform) (w : World) (h : w.tlb.fullmm ≠ 0) :
    ∃ post, (tlb_flush_mmu P w).trace = w.trace ++ Event.flush_tlb_mm w.tlb.mm :: post ∧
      ∀ x ∈ post, x.is_invalidate = false := by
  by_cases hf : tlb_fast_mode P = 0
  · refine ⟨release_events w, by rw [tlb_flush_mmu_buffered_trace P w hf,
      flush_events_mm w (Or.inl h)]; simp, ?_⟩
    unfold release_events
    split_ifs <;> simp [Event.is_invalidate]
  · exact ⟨[], by rw [tlb_flush_mmu_fast_eq P w hf, tlb_flush_trace,
      flush_events_mm w (Or.inl h)], by simp⟩

theorem tlb_remove_page_fullmm_trace (P : Platform) (page : Nat) (w : World)
    (h : w.tlb.fullmm ≠ 0) :
    ∃ seg, (tlb_remove_page P page w).trace = w.trace ++ seg ∧
      ∀ x ∈ seg, x.is_range_invalidate = false := by
  by_cases hf : tlb_fast_mode P = 0
  · obtain ⟨-, -, -, -, r5, -⟩ := remove_page_buffered_frame P page w hf
    have h1 : (__tlb_remove_page P page w).1.tlb.fullmm ≠ 0 := by rw [r5]; exact h
    refine ⟨_, by rw [tlb_remove_page_buffered_trace P hf, List.append_assoc], ?_⟩
    intro x hx
    rcases List.mem_append.mp hx with hx | hx
    · split_ifs at hx
      · rw [List.mem_singleton.mp hx]
        rfl
      · simp at hx
    · split_ifs at hx
      · rw [flush_events_mm _ (Or.inl h1)] at hx
        unfold release_events at hx
        split_ifs at hx <;>
          simp only [List.cons_append, List.nil_append, List.mem_cons, List.mem_singleton,
            List.not_mem_nil, or_false] at hx <;>
          rcases hx with rfl | rfl | rfl <;> rfl
      · simp at hx
  · exact ⟨_, by rw [tlb_remove_page_fast P hf, emit_trace], by simp [Event.is_range_invalidate]⟩

theorem exec_fullmm_trace (P : Platform) (o : Op) (w : World) (h : w.tlb.fullmm ≠ 0) :
    ∃ seg, (exec P o w).trace = w.trace ++ seg ∧
      ∀ x ∈ seg, x.is_range_invalidate = false := by
  cases o with
  | remove_page page => exact tlb_remove_page_fullmm_trace P page w h
  | remove_tlb_entry ptep addr =>
    exact ⟨[], by simp [exec, tlb_remove_tlb_entry, tlb_add_flush_trace], by simp⟩
  | start_vma vma => exact ⟨[], by simp [exec, tlb_start_vma, h], by simp⟩
  | end_vma vma => exact ⟨[], by simp [exec, tlb_end_vma, h], by simp⟩
  | flush_mmu =>
    obtain ⟨post, h1, h2⟩ := tlb_flush_mmu_fullmm_trace P w h
    refine ⟨_, h1, fun x hx => ?_⟩
    rcases List.mem_cons.mp hx with rfl | hx
    · rfl
    · have := h2 x hx
      cases x <;> simp [Event.is_invalidate] at this <;> rfl
  | pte_free pte addr =>
    obtain ⟨h1, h2, -⟩ := pte_free_prelude P pte
      (((addr &&& P.PMD_MASK) + P.SZ_1M + 4294967296 - P.PAGE_SIZE) % 4294967296)
      (((addr &&& P.PMD_MASK) + P.SZ_1M) % 4294967296) w
    obtain ⟨seg, t, hno⟩ := tlb_remove_page_fullmm_trace P pte (tlb_add_flush P
      (((addr &&& P.PMD_MASK) + P.SZ_1M) % 4294967296) (tlb_add_flush P
      (((addr &&& P.PMD_MASK) + P.SZ_1M + 4294967296 - P.PAGE_SIZE) % 4294967296)
      (emit (.pgtable_page_dtor pte) w))) (by rw [h1.2.2.2.2.2.2.2.1]; exact h)
    refine ⟨_, by rw [exec, __pte_free_tlb, t, h2, List.append_assoc], fun x hx => ?_⟩
    rcases List.mem_append.mp hx with hx | hx
    · rw [List.mem_singleton.mp hx]
      rfl
    · exact hno x hx

theorem run_fullmm_trace (P : Platform) (ops : List Op) :
    ∀ w : World, w.tlb.fullmm ≠ 0 →
      ∃ seg, (run P ops w).trace = w.trace ++ seg ∧
        ∀ x ∈ seg, x.is_range_invalidate = false := by
  induction ops with
  | nil => exact fun w _ => ⟨[], by simp [run], by simp⟩
  | cons o rest ih =>
    intro w h
    obtain ⟨s1, t1, n1⟩ := exec_fullmm_trace P o w h
    obtain ⟨s2, t2, n2⟩ := ih (exec P o w) (by rw [(exec_frame P o w).1]; exact h)
    refine ⟨s1 ++ s2, by rw [run_cons, t2, t1, List.append_assoc], fun x hx => ?_⟩
    rcases List.mem_append.mp hx with hx | hx
    · exact n1 x hx
    · exact n2 x hx

theorem not_range_of_not_invalidate (x : Event) (h : x.is_invalidate = false) :
    x.is_range_invalidate = false := by
  cases x <;> simp [Event.is_invalidate] at h <;> rfl

theorem finish_fullmm_trace (P : Platform) (s e : Nat) (w : World) (h : w.tlb.fullmm ≠ 0) :
    ∃ seg, (tlb_finish_mmu P s e w).trace = w.trace ++ seg ∧
      ∀ x ∈ seg, x.is_range_invalidate = false := by
  obtain ⟨post, h1, h2⟩ := tlb_flush_mmu_fullmm_trace P w h
  refine ⟨_, by rw [finish_trace, h1, List.append_assoc], fun x hx => ?_⟩
  rcases List.mem_append.mp hx with hx | hx
  · rcases List.mem_cons.mp hx with rfl | hx
    · rfl
    · exact not_range_of_not_invalidate x (h2 x hx)
  · cases hp : (tlb_flush_mmu P w).tlb.pages with
    | local_ =>
      rw [hp] at hx
      rw [List.mem_singleton.mp hx]
      rfl
    | page a =>
      rw [hp] at hx
      simp only [List.mem_cons, List.mem_singleton, List.not_mem_nil, or_false] at hx
      rcases hx with rfl | rfl <;> rfl

/-! ## The flush primitive -/

theorem tlb_flush_mm_branch (P : Platform) (w : World)
    (h : w.tlb.fullmm ≠ 0 ∨ w.tlb.vma = none) :
    tlb_flush P w = emit (.flush_tlb_mm w.tlb.mm) w := by
  simp [tlb_flush, h]

theorem tlb_flush_range_branch (P : Platform) (w : World)
    (h1 : w.tlb.fullmm = 0) (h2 : w.tlb.vma ≠ none) (h3 : 0 < w.tlb.range_end) :
    tlb_flush P w =
      { emit (.flush_tlb_range w.tlb.vma w.tlb.range_start w.tlb.range_end) w with
        tlb := { w.tlb with range_start := P.TASK_SIZE, range_end := 0 } } := by
  simp [tlb_flush, h1, h2, h3, emit]

theorem tlb_flush_noop_branch (P : Platform) (w : World)
    (h1 : w.tlb.fullmm = 0) (h2 : w.tlb.vma ≠ none) (h3 : w.tlb.range_end = 0) :
    tlb_flush P w = w := by
  simp [tlb_flush, h1, h2, h3]

/-- C6: `tlb_flush` selects its invalidate from the state. With `fullmm` set or no active
region it records exactly one `flush_tlb_mm(mm)`; otherwise, with a non-empty tracked
interval, exactly one `flush_tlb_range(vma, range_start, range_end)`; otherwise nothing. -/
theorem tlb_flush_invalidate_selection (P : Platform) (w : World) :
    ((w.tlb.fullmm ≠ 0 ∨ w.tlb.vma = none) →
      (tlb_flush P w).trace = w.trace ++ [Event.flush_tlb_mm w.tlb.mm]) ∧
    (w.tlb.fullmm = 0 → w.tlb.vma ≠ none → 0 < w.tlb.range_end →
      (tlb_flush P w).trace =
        w.trace ++ [Event.flush_tlb_range w.tlb.vma w.tlb.range_start w.tlb.range_end]) ∧
    (w.tlb.fullmm = 0 → w.tlb.vma ≠ none → w.tlb.range_end = 0 →
      (tlb_flush P w).trace = w.trace) := by
  refine ⟨fun h => ?_, fun h1 h2 h3 => ?_, fun h1 h2 h3 => ?_⟩
  · rw [tlb_flush_mm_branch P w h]; rfl
  · rw [tlb_flush_range_branch P w h1 h2 h3]; rfl
  · rw [tlb_flush_noop_branch P w h1 h2 h3]

theorem tlb_flush_invalidate_selection_witness :
    (tlb_flush armv7_smp (sample_world 1 none 0 0)).trace = [Event.flush_tlb_mm 0] ∧
    (tlb_flush armv7_smp (sample_world 0 (some ⟨4096, 12288⟩) 4096 8192)).trace =
      [Event.flush_tlb_range (some ⟨4096, 12288⟩) 4096 8192] ∧
    (tlb_flush armv7_smp (sample_world 0 (some ⟨4096, 12288⟩) 3204448256 0)).trace = [] :=
  ⟨(tlb_flush_invalidate_selection armv7_smp (sample_world 1 none 0 0)).1 (by decide),
   (tlb_flush_invalidate_selection armv7_smp
      (sample_world 0 (some ⟨4096, 12288⟩) 4096 8192)).2.1 (by decide) (by decide) (by decide),
   (tlb_flush_invalidate_selection armv7_smp
      (sample_world 0 (some ⟨4096, 12288⟩) 3204448256 0)).2.2 (by decide) (by decide)
      (by decide)⟩

theorem tlb_flush_mmu_range (P : Platform) (w : World) :
    (tlb_flush_mmu P w).tlb.range_start = (tlb_flush P w).tlb.range_start ∧
    (tlb_flush_mmu P w).tlb.range_end = (tlb_flush P w).tlb.range_end := by
  by_cases hf : tlb_fast_mode P = 0
  · obtain ⟨-, -, -, -, f5, f6, -⟩ := tlb_flush_mmu_buffered_frame P w hf
    exact ⟨f5, f6⟩
  · rw [tlb_flush_mmu_fast_eq P w hf]
    exact ⟨rfl, rfl⟩

theorem tlb_end_vma_eq_flush (P : Platform) (vma : vm_area_struct) (w : World)
    (h : w.tlb.fullmm = 0) : tlb_end_vma P vma w = tlb_flush P w := by
  simp [tlb_end_vma, h]

theorem tlb_end_vma_fullmm (P : Platform) (vma : vm_area_struct) (w : World)
    (h : w.tlb.fullmm ≠ 0) : tlb_end_vma P vma w = w := by
  simp [tlb_end_vma, h]

/-- C7 (as amended): `tlb_flush` resets the range tracker exactly on its range-invalidate
branch, and so do `tlb_flush_mmu` (under either policy) and `tlb_end_vma`, which call it.
With `fullmm = 0`, an active region and `range_end > 0`, the tracker is empty on return
(`range_start = TASK_SIZE`, `range_end = 0`). On the whole-space branch and on the no-op
branch `range_start` and `range_end` are left as they were (so `range_end = 0` still holds
after the no-op branch); `tlb_end_vma` on a session with `fullmm` set leaves them as they
were too. -/
theorem tlb_flush_range_reset (P : Platform) (w : World) (vma : vm_area_struct) :
    ((w.tlb.fullmm = 0 → w.tlb.vma ≠ none → 0 < w.tlb.range_end →
        (tlb_flush P w).tlb.range_start = P.TASK_SIZE ∧ (tlb_flush P w).tlb.range_end = 0) ∧
      (w.tlb.fullmm = 0 → w.tlb.vma ≠ none → w.tlb.range_end = 0 →
        (tlb_flush P w).tlb.range_start = w.tlb.range_start ∧
        (tlb_flush P w).tlb.range_end = 0) ∧
      ((w.tlb.fullmm ≠ 0 ∨ w.tlb.vma = none) →
        (tlb_flush P w).tlb.range_start = w.tlb.range_start ∧
        (tlb_flush P w).tlb.range_end = w.tlb.range_end)) ∧
    ((w.tlb.fullmm = 0 → w.tlb.vma ≠ none → 0 < w.tlb.range_end →
        (tlb_flush_mmu P w).tlb.range_start = P.TASK_SIZE ∧
        (tlb_flush_mmu P w).tlb.range_end = 0) ∧
      (w.tlb.fullmm = 0 → w.tlb.vma ≠ none → w.tlb.range_end = 0 →
        (tlb_flush_mmu P w).tlb.range_start = w.tlb.range_start ∧
        (tlb_flush_mmu P w).tlb.range_end = 0) ∧
      ((w.tlb.fullmm ≠ 0 ∨ w.tlb.vma = none) →
        (tlb_flush_mmu P w).tlb.range_start = w.tlb.range_start ∧
        (tlb_flush_mmu P w).tlb.range_end = w.tlb.range_end)) ∧
    ((w.tlb.fullmm = 0 → w.tlb.vma ≠ none → 0 < w.tlb.range_end →
        (tlb_end_vma P vma w).tlb.range_start = P.TASK_SIZE ∧
        (tlb_end_vma P vma w).tlb.range_end = 0) ∧
      (w.tlb.fullmm = 0 → w.tlb.vma ≠ none → w.tlb.range_end = 0 →
        (tlb_end_vma P vma w).tlb.range_start = w.tlb.range_start ∧
        (tlb_end_vma P vma w).tlb.range_end = 0) ∧
      ((w.tlb.fullmm ≠ 0 ∨ w.tlb.vma = none) →
        (tlb_end_vma P vma w).tlb.range_start = w.tlb.range_start ∧
        (tlb_end_vma P vma w).tlb.range_end = w.tlb.range_end)) := by
  have hflush :
      (w.tlb.fullmm = 0 → w.tlb.vma ≠ none → 0 < w.tlb.range_end →
        (tlb_flush P w).tlb.range_start = P.TASK_SIZE ∧ (tlb_flush P w).tlb.range_end = 0) ∧
      (w.tlb.fullmm = 0 → w.tlb.vma ≠ none → w.tlb.range_end = 0 →
        (tlb_flush P w).tlb.range_start = w.tlb.range_start ∧
        (tlb_flush P w).tlb.range_end = 0) ∧
      ((w.tlb.fullmm ≠ 0 ∨ w.tlb.vma = none) →
        (tlb_flush P w).tlb.range_start = w.tlb.range_start ∧
        (tlb_flush P w).tlb.range_end = w.tlb.range_end) := by
    refine ⟨fun h1 h2 h3 => ?_, fun h1 h2 h3 => ?_, fun h => ?_⟩
    · rw [tlb_flush_range_branch P w h1 h2 h3]; exact ⟨rfl, rfl⟩
    · rw [tlb_flush_noop_branch P w h1 h2 h3]; exact ⟨rfl, h3⟩
    · rw [tlb_flush_mm_branch P w h]; exact ⟨rfl, rfl⟩
  obtain ⟨a1, a2, a3⟩ := hflush
  obtain ⟨m1, m2⟩ := tlb_flush_mmu_range P w
  refine ⟨⟨a1, a2, a3⟩, ⟨fun h1 h2 h3 => ?_, fun h1 h2 h3 => ?_, fun h => ?_⟩,
    ⟨fun h1 h2 h3 => ?_, fun h1 h2 h3 => ?_, fun h => ?_⟩⟩
  · rw [m1, m2]; exact a1 h1 h2 h3
  · rw [m1, m2]; exact a2 h1 h2 h3
  · rw [m1, m2]; exact a3 h
  · rw [tlb_end_vma_eq_flush P vma w h1]; exact a1 h1 h2 h3
  · rw [tlb_end_vma_eq_flush P vma w h1]; exact a2 h1 h2 h3
  · by_cases hf : w.tlb.fullmm = 0
    · rw [tlb_end_vma_eq_flush P vma w hf]; exact a3 h
    · rw [tlb_end_vma_fullmm P vma w hf]; exact ⟨rfl, rfl⟩

theorem tlb_flush_range_reset_witness :
    ((tlb_flush armv7_smp (sample_world 0 (some ⟨4096, 12288⟩) 4096 8192)).tlb.range_start =
        3204448256 ∧
      (tlb_flush armv7_smp (sample_world 0 (some ⟨4096, 12288⟩) 4096 8192)).tlb.range_end =
        0) ∧
    ((tlb_flush armv7_smp (sample_world 0 (some ⟨4096, 12288⟩) 77 0)).tlb.range_start = 77 ∧
      (tlb_flush armv7_smp (sample_world 0 (some ⟨4096, 12288⟩) 77 0)).tlb.range_end = 0) ∧
    ((tlb_flush armv7_smp (sample_world 0 none 4096 8192)).tlb.range_start = 4096 ∧
      (tlb_flush armv7_smp (sample_world 0 none 4096 8192)).tlb.range_end = 8192) ∧
    ((tlb_flush_mmu armv7_smp
        (sample_world 0 (some ⟨4096, 12288⟩) 4096 8192)).tlb.range_start = 3204448256 ∧
      (tlb_flush_mmu armv7_smp
        (sample_world 0 (some ⟨4096, 12288⟩) 4096 8192)).tlb.range_end = 0) ∧
    ((tlb_flush_mmu arm_up (sample_world 0 none 4096 8192)).tlb.range_start = 4096 ∧
      (tlb_flush_mmu arm_up (sample_world 0 none 4096 8192)).tlb.range_end = 8192) ∧
    ((tlb_end_vma armv7_smp ⟨4096, 12288⟩
        (sample_world 0 (some ⟨4096, 12288⟩) 4096 8192)).tlb.range_start = 3204448256 ∧
      (tlb_end_vma armv7_smp ⟨4096, 12288⟩
        (sample_world 0 (some ⟨4096, 12288⟩) 4096 8192)).tlb.range_end = 0) ∧
    ((tlb_end_vma armv7_smp ⟨4096, 12288⟩
        (sample_world 1 (some ⟨4096, 12288⟩) 4096 8192)).tlb.range_start = 4096 ∧
      (tlb_end_vma armv7_smp ⟨4096, 12288⟩
        (sample_world 1 (some ⟨4096, 12288⟩) 4096 8192)).tlb.range_end = 8192) :=
  ⟨(tlb_flush_range_reset armv7_smp (sample_world 0 (some ⟨4096, 12288⟩) 4096 8192)
      ⟨4096, 12288⟩).1.1 (by decide) (by decide) (by decide),
   (tlb_flush_range_reset armv7_smp (sample_world 0 (some ⟨4096, 12288⟩) 77 0)
      ⟨4096, 12288⟩).1.2.1 (by decide) (by decide) (by decide),
   (tlb_flush_range_reset armv7_smp (sample_world 0 none 4096 8192)
      ⟨4096, 12288⟩).1.2.2 (by decide),
   (tlb_flush_range_reset armv7_smp (sample_world 0 (some ⟨4096, 12288⟩) 4096 8192)
      ⟨4096, 12288⟩).2.1.1 (by decide) (by decide) (by decide),
   (tlb_flush_range_reset arm_up (sample_world 0 none 4096 8192)
      ⟨4096, 12288⟩).2.1.2.2 (by decide),
   (tlb_flush_range_reset armv7_smp (sample_world 0 (some ⟨4096, 12288⟩) 4096 8192)
      ⟨4096, 12288⟩).2.2.1 (by decide) (by decide) (by decide),
   (tlb_flush_range_reset armv7_smp (sample_world 1 (some ⟨4096, 12288⟩) 4096 8192)
      ⟨4096, 12288⟩).2.2.2.2 (by decide)⟩

/-- C7 (counterexample): on a session opened with `fullmm = 0` on a zero-filled structure,
after `tlb_remove_tlb_entry(0x1000)` outside any region the explicit `tlb_flush_mmu` takes
the whole-space branch and returns with `range_end = 0x2000` and `range_start = 0`, not with
the empty tracker `(TASK_SIZE, 0)`. -/
theorem tlb_flush_keeps_range_on_mm_branch :
    (tlb_flush_mmu armv7_smp (tlb_remove_tlb_entry armv7_smp 0 4096
      (tlb_gather_mmu armv7_smp 1 0 (boot zero_gather (fun _ _ => 0) (fun _ => 0))))).trace =
      [Event.get_free_pages 0, Event.flush_tlb_mm 1, Event.free_pages_and_swap_cache [],
       Event.get_free_pages 0] ∧
    (tlb_flush_mmu armv7_smp (tlb_remove_tlb_entry armv7_smp 0 4096
      (tlb_gather_mmu armv7_smp 1 0
        (boot zero_gather (fun _ _ => 0) (fun _ => 0))))).tlb.range_end = 8192 ∧
    (tlb_flush_mmu armv7_smp (tlb_remove_tlb_entry armv7_smp 0 4096
      (tlb_gather_mmu armv7_smp 1 0
        (boot zero_gather (fun _ _ => 0) (fun _ => 0))))).tlb.range_start = 0 ∧
    armv7_smp.TASK_SIZE ≠ 0 := by
  decide

/-! ## Page conservation and capacity -/

theorem session_step (P : Platform) (hs : P.sane) (hf : tlb_fast_mode P = 0) (t : mmu_gather)
    (heap : Nat → Nat → Nat) (oracle : Nat → Nat) (mm fullmm : Nat) (ops : List Op) :
    Good P (run P ops (tlb_gather_mmu P mm fullmm (boot t heap oracle))) ∧
    released (run P ops (tlb_gather_mmu P mm fullmm (boot t heap oracle))).trace ++
      pending (run P ops (tlb_gather_mmu P mm fullmm (boot t heap oracle))) = reported ops ∧
    Event.vm_bug ∉ (run P ops (tlb_gather_mmu P mm fullmm (boot t heap oracle))).trace := by
  obtain ⟨g1, -, -, -, -, -, -, g8⟩ := gather_frame P mm fullmm (boot t heap oracle)
  obtain ⟨s1, s2, s3⟩ := run_step P hs hf ops _ (gather_good P hs mm fullmm (boot t heap oracle))
  refine ⟨s1, ?_, ?_⟩
  · rw [s2, pending_nil _ g1, g8]
    simp [boot, released]
  · intro hb
    have := s3 hb
    rw [g8] at this
    simp [boot] at this

/-- C3: page conservation under the Buffered policy. For a session opened with
`tlb_gather_mmu` on any prior structure contents and with any allocator behaviour, any
sequence of session calls followed by `tlb_finish_mmu` hands to the allocator exactly the
reported pages, in report order (so equally many, each one once, and nothing else). -/
theorem page_conservation (P : Platform) (hs : P.sane) (hf : tlb_fast_mode P = 0)
    (t : mmu_gather) (heap : Nat → Nat → Nat) (oracle : Nat → Nat) (mm fullmm : Nat)
    (ops : List Op) (s e : Nat) :
    released (tlb_finish_mmu P s e
      (run P ops (tlb_gather_mmu P mm fullmm (boot t heap oracle)))).trace = reported ops := by
  obtain ⟨s1, s2, -⟩ := session_step P hs hf t heap oracle mm fullmm ops
  obtain ⟨-, f2, -⟩ := tlb_flush_mmu_step P hs hf _ s1.2
  have hnr := (tlb_flush_mmu_buffered_frame P
    (run P ops (tlb_gather_mmu P mm fullmm (boot t heap oracle))) hf).1
  rw [pending_nil _ hnr] at f2
  rw [finish_trace, released_append]
  have hrest : released (Event.check_pgt_cache ::
      (match (tlb_flush_mmu P
          (run P ops (tlb_gather_mmu P mm fullmm (boot t heap oracle)))).tlb.pages with
        | .local_ => []
        | .page a => [Event.free_pages a])) = [] := by
    cases (tlb_flush_mmu P
      (run P ops (tlb_gather_mmu P mm fullmm (boot t heap oracle)))).tlb.pages <;> rfl
  rw [hrest]
  simp only [List.append_nil] at f2 ⊢
  rw [f2, s2]

theorem page_conservation_witness :
    armv7_smp.sane ∧ tlb_fast_mode armv7_smp = 0 ∧
    released (tlb_finish_mmu armv7_smp 0 0
      (run armv7_smp [.remove_page 11, .start_vma ⟨4096, 12288⟩, .remove_tlb_entry 0 4096,
          .remove_page 12, .flush_mmu, .remove_page 13, .end_vma ⟨4096, 12288⟩]
        (tlb_gather_mmu armv7_smp 1 0 (boot zero_gather (fun _ _ => 0) (fun _ => 0))))).trace =
      [11, 12, 13] :=
  ⟨by decide, by decide,
   page_conservation armv7_smp (by decide) (by decide) zero_gather (fun _ _ => 0) (fun _ => 0)
     1 0 [.remove_page 11, .start_vma ⟨4096, 12288⟩, .remove_tlb_entry 0 4096,
          .remove_page 12, .flush_mmu, .remove_page 13, .end_vma ⟨4096, 12288⟩] 0 0⟩

/-- C4: capacity invariant under the Buffered policy. In every state reached from
`tlb_gather_mmu` by session calls, whatever the allocator answers, `nr <= max`, `max` is 8 or
`PAGE_SIZE / sizeof(struct page *)`, the condition of `VM_BUG_ON(nr > max)` has never been
true, and after a further `tlb_remove_page` returns, `nr < max` (again without tripping the
assertion). -/
theorem capacity_invariant (P : Platform) (hs : P.sane) (hf : tlb_fast_mode P = 0)
    (t : mmu_gather) (heap : Nat → Nat → Nat) (oracle : Nat → Nat) (mm fullmm : Nat)
    (ops : List Op) :
    (run P ops (tlb_gather_mmu P mm fullmm (boot t heap oracle))).tlb.nr ≤
      (run P ops (tlb_gather_mmu P mm fullmm (boot t heap oracle))).tlb.max ∧
    ((run P ops (tlb_gather_mmu P mm fullmm (boot t heap oracle))).tlb.max = 8 ∨
      (run P ops (tlb_gather_mmu P mm fullmm (boot t heap oracle))).tlb.max =
        P.PAGE_SIZE / P.PTR_SIZE) ∧
    Event.vm_bug ∉ (run P ops (tlb_gather_mmu P mm fullmm (boot t heap oracle))).trace ∧
    ∀ page : Nat,
      (tlb_remove_page P page
        (run P ops (tlb_gather_mmu P mm fullmm (boot t heap oracle)))).tlb.nr <
      (tlb_remove_page P page
        (run P ops (tlb_gather_mmu P mm fullmm (boot t heap oracle)))).tlb.max ∧
      Event.vm_bug ∉ (tlb_remove_page P page
        (run P ops (tlb_gather_mmu P mm fullmm (boot t heap oracle)))).trace := by
  obtain ⟨s1, -, s3⟩ := session_step P hs hf t heap oracle mm fullmm ops
  refine ⟨Nat.le_of_lt s1.1, s1.2, s3, fun page => ?_⟩
  obtain ⟨r1, -, r3⟩ := tlb_remove_page_step P hs hf page _ s1
  exact ⟨r1.1, fun hb => s3 (r3 hb)⟩

theorem capacity_invariant_witness :
    armv7_smp.sane ∧ tlb_fast_mode armv7_smp = 0 ∧
    (run armv7_smp [.remove_page 11, .pte_free 12 4096, .flush_mmu, .remove_page 13]
      (tlb_gather_mmu armv7_smp 1 0 (boot zero_gather (fun _ _ => 0) (fun _ => 0)))).tlb.nr ≤
    (run armv7_smp [.remove_page 11, .pte_free 12 4096, .flush_mmu, .remove_page 13]
      (tlb_gather_mmu armv7_smp 1 0 (boot zero_gather (fun _ _ => 0) (fun _ => 0)))).tlb.max :=
  ⟨by decide, by decide,
   (capacity_invariant armv7_smp (by decide) (by decide) zero_gather (fun _ _ => 0)
     (fun _ => 0) 1 0 [.remove_page 11, .pte_free 12 4096, .flush_mmu, .remove_page 13]).1⟩

/-! ## Ordering of invalidate and release -/

/-- C1: invalidate-before-release under the Buffered policy. One `tlb_flush_mmu` call
records at most one invalidate, then the release of the buffered pages, then no further
invalidate or release. Hence, after any sequence of session operations, the segment of the
trace recorded by any one further operation (and by `tlb_finish_mmu`) has no invalidate
after a release. -/
theorem invalidate_before_release (P : Platform) (hf : tlb_fast_mode P = 0) :
    (∀ w : World, ∃ inv post,
      (tlb_flush_mmu P w).trace =
        w.trace ++ inv ++ Event.free_pages_and_swap_cache (pending w) :: post ∧
      inv.length ≤ 1 ∧ (∀ x ∈ inv, x.is_invalidate = true) ∧
      (∀ x ∈ post, x.is_invalidate = false ∧ x.is_release = false)) ∧
    (∀ (ops : List Op) (o : Op) (w : World),
      (exec P o (run P ops w)).trace =
        (run P ops w).trace ++ new_events (run P ops w) (exec P o (run P ops w)) ∧
      release_last (new_events (run P ops w) (exec P o (run P ops w)))) ∧
    (∀ (ops : List Op) (s e : Nat) (w : World),
      (tlb_finish_mmu P s e (run P ops w)).trace =
        (run P ops w).trace ++ new_events (run P ops w) (tlb_finish_mmu P s e (run P ops w)) ∧
      release_last (new_events (run P ops w) (tlb_finish_mmu P s e (run P ops w)))) := by
  refine ⟨fun w => ?_, fun ops o w => ?_, fun ops s e w => ?_⟩
  · refine ⟨flush_events w,
      if w.tlb.pages = .local_ then [Event.get_free_pages (w.oracle w.calls)] else [],
      by rw [tlb_flush_mmu_buffered_trace P w hf]; rfl, ?_, ?_, ?_⟩
    · unfold flush_events
      split_ifs <;> simp
    · unfold flush_events
      split_ifs <;> simp [Event.is_invalidate]
    · split_ifs <;> simp [Event.is_invalidate, Event.is_release]
  · obtain ⟨seg, h1, h2⟩ := exec_buffered_segment P hf o (run P ops w)
    rw [new_events_append _ _ seg h1]
    exact ⟨h1, release_last_of_b seg h2⟩
  · obtain ⟨seg, h1, h2⟩ := finish_buffered_segment P hf s e (run P ops w)
    rw [new_events_append _ _ seg h1]
    exact ⟨h1, release_last_of_b seg h2⟩

theorem invalidate_before_release_witness :
    tlb_fast_mode armv7_smp = 0 ∧
    (tlb_finish_mmu armv7_smp 0 0 (run armv7_smp [.remove_page 11, .remove_page 12]
      (sample_world 0 none 0 0))).trace =
      (run armv7_smp [.remove_page 11, .remove_page 12] (sample_world 0 none 0 0)).trace ++
        new_events (run armv7_smp [.remove_page 11, .remove_page 12] (sample_world 0 none 0 0))
          (tlb_finish_mmu armv7_smp 0 0 (run armv7_smp [.remove_page 11, .remove_page 12]
            (sample_world 0 none 0 0))) ∧
    release_last
      (new_events (run armv7_smp [.remove_page 11, .remove_page 12] (sample_world 0 none 0 0))
        (tlb_finish_mmu armv7_smp 0 0 (run armv7_smp [.remove_page 11, .remove_page 12]
          (sample_world 0 none 0 0)))) :=
  ⟨by decide,
   (invalidate_before_release armv7_smp (by decide)).2.2 [.remove_page 11, .remove_page 12] 0 0
     (sample_world 0 none 0 0)⟩

/-! ## Region passes -/

/-- C2 (as amended): in a session with `fullmm = 0`, take a region pass
`tlb_start_vma(vma); pre; tlb_remove_tlb_entry(a); post; tlb_end_vma(vma)` whose calls are
`tlb_remove_tlb_entry`, `tlb_remove_page` and `tlb_flush_mmu`, with `a < TASK_SIZE`. The calls
recorded after the report of `a` up to the return of `tlb_end_vma` contain a
`flush_tlb_range` whose interval contains `a`. Under the Buffered policy, moreover, every
release recorded after the report of `a` comes after such a range invalidate. -/
theorem region_pass_covered (P : Platform) (hs : P.sane) (w : World) (hfull : w.tlb.fullmm = 0)
    (vma : vm_area_struct) (pre post : List Op) (ptep a : Nat)
    (hpre : ∀ o ∈ pre, o.in_pass = true) (hpost : ∀ o ∈ post, o.in_pass = true)
    (ha : a < P.TASK_SIZE) :
    after_pass P vma pre ptep a post w =
      tlb_end_vma P vma (run P (pre ++ Op.remove_tlb_entry ptep a :: post)
        (tlb_start_vma P vma w)) ∧
    (after_pass P vma pre ptep a post w).trace =
      (after_report P vma pre ptep a w).trace ++
        new_events (after_report P vma pre ptep a w) (after_pass P vma pre ptep a post w) ∧
    covered a
      (new_events (after_report P vma pre ptep a w) (after_pass P vma pre ptep a post w)) ∧
    (tlb_fast_mode P = 0 → ∀ l1 e l2,
      new_events (after_report P vma pre ptep a w) (after_pass P vma pre ptep a post w) =
        l1 ++ e :: l2 →
      e.is_release = true → covered a l1) := by
  have h0 : InPass (tlb_start_vma P vma w) := by
    unfold InPass tlb_start_vma
    simp [hfull, emit]
  have h1 : InPass (run P pre (tlb_start_vma P vma w)) := pass_ops_in_pass P pre _ hpre h0
  have h2 : after_report P vma pre ptep a w =
      tlb_add_flush P a (run P pre (tlb_start_vma P vma w)) := by
    unfold after_report
    rw [run_append]
    rfl
  have h3 : InPass (after_report P vma pre ptep a w) := by
    rw [h2]
    exact ⟨((tlb_add_flush_same_store P a _).2.2.2.2.2.2.2.1).trans h1.1,
      by rw [tlb_add_flush_vma]; exact h1.2⟩
  have h4 : InRange a (after_report P vma pre ptep a w) := by
    rw [h2]
    exact tlb_add_flush_in_range P hs a ha _ h1.1
  obtain ⟨seg, t, c1, c2⟩ := pass_covers P a vma post _ hpost h3 h4
  have hn : new_events (after_report P vma pre ptep a w) (after_pass P vma pre ptep a post w) =
      seg := new_events_append _ _ seg t
  rw [hn]
  refine ⟨?_, t, c1, fun hf => covered_of_covered_first a seg (c2 hf)⟩
  unfold after_pass after_report
  rw [← run_append]
  simp

theorem region_pass_covered_witness :
    armv7_smp.sane ∧ (sample_world 0 none 0 0).tlb.fullmm = 0 ∧
    (∀ o ∈ [Op.remove_page 7], o.in_pass = true) ∧
    (∀ o ∈ [Op.remove_page 8, Op.flush_mmu], o.in_pass = true) ∧
    4096 < armv7_smp.TASK_SIZE ∧
    covered 4096
      (new_events
        (after_report armv7_smp ⟨4096, 12288⟩ [Op.remove_page 7] 0 4096
          (sample_world 0 none 0 0))
        (after_pass armv7_smp ⟨4096, 12288⟩ [Op.remove_page 7] 0 4096
          [Op.remove_page 8, Op.flush_mmu] (sample_world 0 none 0 0))) :=
  ⟨by decide, by decide, by decide, by decide, by decide,
   (region_pass_covered armv7_smp (by decide) (sample_world 0 none 0 0) (by decide)
     ⟨4096, 12288⟩ [Op.remove_page 7] [Op.remove_page 8, Op.flush_mmu] 0 4096 (by decide)
     (by decide) (by decide)).2.2.1⟩

/-- C2 (counterexample): on a uniprocessor pre-v7 build (`tlb_fast_mode` is 1), in the pass
`tlb_start_vma; tlb_remove_tlb_entry(0x1000); tlb_remove_page(5); tlb_end_vma` page 5 is
released by `free_page_and_swap_cache` before the `flush_tlb_range` over `[0x1000, 0x2000)`
is recorded: no range invalidate covering `0x1000` precedes the release. -/
theorem fast_mode_release_precedes_cover :
    tlb_fast_mode arm_up = 1 ∧
    (tlb_gather_mmu arm_up 1 0 (boot zero_gather (fun _ _ => 0) (fun _ => 0))).tlb.fullmm = 0 ∧
    (after_pass arm_up ⟨4096, 12288⟩ [] 0 4096 [Op.remove_page 5]
      (tlb_gather_mmu arm_up 1 0 (boot zero_gather (fun _ _ => 0) (fun _ => 0)))).trace =
      [Event.get_free_pages 0, Event.flush_cache_range ⟨4096, 12288⟩ 4096 12288,
       Event.free_page_and_swap_cache 5,
       Event.flush_tlb_range (some ⟨4096, 12288⟩) 4096 8192] ∧
    new_events
      (after_report arm_up ⟨4096, 12288⟩ [] 0 4096
        (tlb_gather_mmu arm_up 1 0 (boot zero_gather (fun _ _ => 0) (fun _ => 0))))
      (after_pass arm_up ⟨4096, 12288⟩ [] 0 4096 [Op.remove_page 5]
        (tlb_gather_mmu arm_up 1 0 (boot zero_gather (fun _ _ => 0) (fun _ => 0)))) =
      [] ++ Event.free_page_and_swap_cache 5 ::
        [Event.flush_tlb_range (some ⟨4096, 12288⟩) 4096 8192] ∧
    (Event.free_page_and_swap_cache 5).is_release = true ∧
    ¬ covered 4096 [] :=
  ⟨by decide, by decide, by decide, by decide, by decide, by simp [covered]⟩

/-- C5 (as amended): in a session with `fullmm = 0`, after `tlb_start_vma` followed by a
non-empty sequence of `tlb_remove_tlb_entry` calls whose addresses are all below `TASK_SIZE`,
with no intervening flush, `range_start` is the least reported address exactly as reported
(no rounding is applied) and `range_end` is the greatest reported address plus
`PAGE_SIZE`. -/
theorem tracked_interval_exact (P : Platform) (hs : P.sane) (w : World)
    (hf : w.tlb.fullmm = 0) (vma : vm_area_struct) (es : List (Nat × Nat)) (hne : es ≠ [])
    (hlt : ∀ e ∈ es, e.2 < P.TASK_SIZE) :
    (∃ lo ∈ es, (run P (entries es) (tlb_start_vma P vma w)).tlb.range_start = lo.2 ∧
      ∀ e ∈ es, lo.2 ≤ e.2) ∧
    (∃ hi ∈ es,
      (run P (entries es) (tlb_start_vma P vma w)).tlb.range_end = hi.2 + P.PAGE_SIZE ∧
      ∀ e ∈ es, e.2 ≤ hi.2) :=
  region_entries_range P hs w hf vma es hne hlt

theorem tracked_interval_exact_witness :
    armv7_smp.sane ∧ (sample_world 0 none 0 0).tlb.fullmm = 0 ∧
    [((0 : Nat), (8192 : Nat)), (0, 4660), (0, 20480)] ≠ [] ∧
    (∀ e ∈ [((0 : Nat), (8192 : Nat)), (0, 4660), (0, 20480)], e.2 < armv7_smp.TASK_SIZE) ∧
    ((∃ lo ∈ [((0 : Nat), (8192 : Nat)), (0, 4660), (0, 20480)],
      (run armv7_smp (entries [(0, 8192), (0, 4660), (0, 20480)])
        (tlb_start_vma armv7_smp ⟨4096, 32768⟩ (sample_world 0 none 0 0))).tlb.range_start =
        lo.2 ∧
      ∀ e ∈ [((0 : Nat), (8192 : Nat)), (0, 4660), (0, 20480)], lo.2 ≤ e.2) ∧
    (∃ hi ∈ [((0 : Nat), (8192 : Nat)), (0, 4660), (0, 20480)],
      (run armv7_smp (entries [(0, 8192), (0, 4660), (0, 20480)])
        (tlb_start_vma armv7_smp ⟨4096, 32768⟩ (sample_world 0 none 0 0))).tlb.range_end =
        hi.2 + armv7_smp.PAGE_SIZE ∧
      ∀ e ∈ [((0 : Nat), (8192 : Nat)), (0, 4660), (0, 20480)], e.2 ≤ hi.2)) :=
  ⟨by decide, by decide, by decide, by decide,
   tracked_interval_exact armv7_smp (by decide) (sample_world 0 none 0 0) (by decide)
     ⟨4096, 32768⟩ [(0, 8192), (0, 4660), (0, 20480)] (by decide) (by decide)⟩

/-- C5 (counterexample): with 4 KiB pages, after `tlb_start_vma` and
`tlb_remove_tlb_entry(0x1234)` the tracked `range_start` is `0x1234`, not `0x1234` rounded
down to the page boundary `0x1000`. And after reporting only an address at or above
`TASK_SIZE` (`0xBF001000`), `range_start` is still `TASK_SIZE`, not that address. -/
theorem range_start_not_rounded :
    armv7_smp.sane ∧ (sample_world 0 none 0 0).tlb.fullmm = 0 ∧
    (run armv7_smp (entries [(0, 4660)])
      (tlb_start_vma armv7_smp ⟨4096, 12288⟩ (sample_world 0 none 0 0))).tlb.range_start =
      4660 ∧
    4660 / armv7_smp.PAGE_SIZE * armv7_smp.PAGE_SIZE = 4096 ∧
    (run armv7_smp (entries [(0, 4660)])
      (tlb_start_vma armv7_smp ⟨4096, 12288⟩ (sample_world 0 none 0 0))).tlb.range_end =
      4660 + armv7_smp.PAGE_SIZE ∧
    (run armv7_smp (entries [(0, 3204452352)])
      (tlb_start_vma armv7_smp ⟨4096, 12288⟩ (sample_world 0 none 0 0))).tlb.range_start =
      armv7_smp.TASK_SIZE ∧
    armv7_smp.TASK_SIZE ≠ 3204452352 := by
  decide

/-- C10: in a session with `fullmm = 0`, a region pass that reports a non-empty sequence of
addresses below `TASK_SIZE` records, after the `flush_cache_range` of `tlb_start_vma`,
exactly one call: `flush_tlb_range(vma, least address, greatest address + PAGE_SIZE)`; so no
`flush_tlb_mm` and no release. With `PAGE_SIZE = 0x1000` and the addresses `0x1000`,
`0x2000` the interval is `[0x1000, 0x3000)`. A pass that reports no entry records no
invalidate. -/
theorem region_pass_one_range_invalidate (P : Platform) (hs : P.sane) (w : World)
    (hf : w.tlb.fullmm = 0) (vma : vm_area_struct) :
    (∀ es : List (Nat × Nat), es ≠ [] → (∀ e ∈ es, e.2 < P.TASK_SIZE) →
      ∃ lo ∈ es, ∃ hi ∈ es, (∀ e ∈ es, lo.2 ≤ e.2 ∧ e.2 ≤ hi.2) ∧
        (tlb_end_vma P vma (run P (entries es) (tlb_start_vma P vma w))).trace =
          w.trace ++ [Event.flush_cache_range vma vma.vm_start vma.vm_end,
            Event.flush_tlb_range (some vma) lo.2 (hi.2 + P.PAGE_SIZE)]) ∧
    (P.PAGE_SIZE = 4096 → 8192 < P.TASK_SIZE → ∀ p1 p2 : Nat,
      (tlb_end_vma P vma
        (run P (entries [(p1, 4096), (p2, 8192)]) (tlb_start_vma P vma w))).trace =
        w.trace ++ [Event.flush_cache_range vma vma.vm_start vma.vm_end,
          Event.flush_tlb_range (some vma) 4096 12288]) ∧
    (tlb_end_vma P vma (run P (entries []) (tlb_start_vma P vma w))).trace =
      w.trace ++ [Event.flush_cache_range vma vma.vm_start vma.vm_end] := by
  refine ⟨fun es hne hlt => region_pass_trace P hs w hf vma es hne hlt, ?_, ?_⟩
  · intro hps hts p1 p2
    obtain ⟨lo, hlo, hi, hhi, hb, ht⟩ := region_pass_trace P hs w hf vma
      [(p1, 4096), (p2, 8192)] (by simp) (by
        intro e he
        simp only [List.mem_cons, List.mem_singleton, List.not_mem_nil, or_false] at he
        rcases he with rfl | rfl <;> simp <;> omega)
    have h1 := (hb (p1, 4096) (by simp)).1
    have h2 := (hb (p2, 8192) (by simp)).2
    have hlo2 : lo.2 = 4096 := by
      simp only [List.mem_cons, List.mem_singleton, List.not_mem_nil, or_false] at hlo
      rcases hlo with rfl | rfl
      · rfl
      · simp at h1
    have hhi2 : hi.2 = 8192 := by
      simp only [List.mem_cons, List.mem_singleton, List.not_mem_nil, or_false] at hhi
      rcases hhi with rfl | rfl
      · simp at h2
      · rfl
    rw [ht, hlo2, hhi2, hps]
  · obtain ⟨f1, f2, -, f4, f5⟩ := tlb_start_vma_frame P vma w hf
    have hrun : run P (entries []) (tlb_start_vma P vma w) = tlb_start_vma P vma w := rfl
    rw [hrun, tlb_end_vma_trace, f5, if_pos f1]
    simp [flush_events, f1, f2, f4]

theorem region_pass_one_range_invalidate_witness :
    armv7_smp.sane ∧ (sample_world 0 none 0 0).tlb.fullmm = 0 ∧
    armv7_smp.PAGE_SIZE = 4096 ∧ 8192 < armv7_smp.TASK_SIZE ∧
    (tlb_end_vma armv7_smp ⟨4096, 12288⟩
      (run armv7_smp (entries [(0, 4096), (0, 8192)])
        (tlb_start_vma armv7_smp ⟨4096, 12288⟩ (sample_world 0 none 0 0)))).trace =
      (sample_world 0 none 0 0).trace ++ [Event.flush_cache_range ⟨4096, 12288⟩ 4096 12288,
        Event.flush_tlb_range (some ⟨4096, 12288⟩) 4096 12288] :=
  ⟨by decide, by decide, by decide, by decide,
   (region_pass_one_range_invalidate armv7_smp (by decide) (sample_world 0 none 0 0)
     (by decide) ⟨4096, 12288⟩).2.1 (by decide) (by decide) 0 0⟩

/-! ## Scenarios -/

/-- C9: automatic flush at inline capacity. Buffered session with `fullmm = 0`, no region,
allocation failing at open (`max = 8`). Up to 7 reported pages record no call. The 8th
report records one `flush_tlb_mm`, the release of exactly the 8 pages and one allocation
attempt. Whatever that attempt returns, up to 7 further reports (in particular the 9th and
10th) record nothing, and `tlb_finish_mmu` then records one `flush_tlb_mm` followed by the
release of exactly the pages reported after the 8th, and no other invalidate or release. -/
theorem auto_flush_at_inline_capacity (P : Platform) (hs : P.sane) (hf : tlb_fast_mode P = 0)
    (t : mmu_gather) (heap : Nat → Nat → Nat) (oracle : Nat → Nat) (mm : Nat)
    (hfail : oracle 0 = 0) :
    (∀ ps : List Nat, ps.length ≤ 7 →
      (run P (ps.map Op.remove_page) (tlb_gather_mmu P mm 0 (boot t heap oracle))).trace =
        [Event.get_free_pages 0]) ∧
    (∀ (ps : List Nat) (p8 : Nat), ps.length = 7 →
      (run P ((ps ++ [p8]).map Op.remove_page)
        (tlb_gather_mmu P mm 0 (boot t heap oracle))).trace =
        [Event.get_free_pages 0, Event.flush_tlb_mm mm,
         Event.free_pages_and_swap_cache (ps ++ [p8]), Event.get_free_pages (oracle 1)]) ∧
    (∀ (ps : List Nat) (p8 : Nat) (qs : List Nat) (s e : Nat), ps.length = 7 → qs.length ≤ 7 →
      (run P ((ps ++ p8 :: qs).map Op.remove_page)
        (tlb_gather_mmu P mm 0 (boot t heap oracle))).trace =
        [Event.get_free_pages 0, Event.flush_tlb_mm mm,
         Event.free_pages_and_swap_cache (ps ++ [p8]), Event.get_free_pages (oracle 1)] ∧
      ∃ post, (tlb_finish_mmu P s e (run P ((ps ++ p8 :: qs).map Op.remove_page)
          (tlb_gather_mmu P mm 0 (boot t heap oracle)))).trace =
          [Event.get_free_pages 0, Event.flush_tlb_mm mm,
           Event.free_pages_and_swap_cache (ps ++ [p8]), Event.get_free_pages (oracle 1)] ++
          [Event.flush_tlb_mm mm, Event.free_pages_and_swap_cache qs] ++ post ∧
        ∀ x ∈ post, x.is_invalidate = false ∧ x.is_release = false) := by
  obtain ⟨g1, g2, g3, g4, g5, g6, g7, g8, g9⟩ :=
    gather_alloc_fails P mm 0 (boot t heap oracle) hfail
  have hg0 := gather_good P hs mm 0 (boot t heap oracle)
  have hp0 : pending (tlb_gather_mmu P mm 0 (boot t heap oracle)) = [] := pending_nil _ g3
  have h7 : ∀ ps : List Nat, ps.length ≤ 7 →
      (tlb_gather_mmu P mm 0 (boot t heap oracle)).tlb.nr + ps.length <
        (tlb_gather_mmu P mm 0 (boot t heap oracle)).tlb.max := by
    intro ps hps
    rw [g1, g3]
    simp only [MMU_GATHER_BUNDLE]
    omega
  have h8 : ∀ (ps : List Nat) (p8 : Nat), ps.length = 7 →
      (run P ((ps ++ [p8]).map Op.remove_page)
        (tlb_gather_mmu P mm 0 (boot t heap oracle))).trace =
        [Event.get_free_pages 0, Event.flush_tlb_mm mm,
         Event.free_pages_and_swap_cache (ps ++ [p8]), Event.get_free_pages (oracle 1)] ∧
      Good P (run P ((ps ++ [p8]).map Op.remove_page)
        (tlb_gather_mmu P mm 0 (boot t heap oracle))) ∧
      (run P ((ps ++ [p8]).map Op.remove_page)
        (tlb_gather_mmu P mm 0 (boot t heap oracle))).tlb.nr = 0 ∧
      (run P ((ps ++ [p8]).map Op.remove_page)
        (tlb_gather_mmu P mm 0 (boot t heap oracle))).tlb.vma = none ∧
      (run P ((ps ++ [p8]).map Op.remove_page)
        (tlb_gather_mmu P mm 0 (boot t heap oracle))).tlb.mm = mm := by
    intro ps p8 hps
    obtain ⟨a0, a1, a2, a3, a4, a5, a6, a7, a8, a9, a10⟩ :=
      remove_pages_no_flush P hs hf ps _ hg0 (h7 ps (by omega))
    have hfill : (run P (ps.map Op.remove_page)
        (tlb_gather_mmu P mm 0 (boot t heap oracle))).tlb.nr + 1 =
        (run P (ps.map Op.remove_page)
          (tlb_gather_mmu P mm 0 (boot t heap oracle))).tlb.max := by
      rw [a2, a6, g1, g3, hps]
      rfl
    obtain ⟨b1, b2, b3, b4, b5, b6⟩ := tlb_remove_page_flush_trace P hs hf p8 _ a0 hfill
    have hrun : run P ((ps ++ [p8]).map Op.remove_page)
        (tlb_gather_mmu P mm 0 (boot t heap oracle)) =
        tlb_remove_page P p8 (run P (ps.map Op.remove_page)
          (tlb_gather_mmu P mm 0 (boot t heap oracle))) := by
      rw [List.map_append, run_append]
      rfl
    rw [hrun]
    refine ⟨?_, b2, b3, b5.trans (a9.trans g4), b6.trans (a10.trans g6)⟩
    rw [b1, flush_events_mm _ (Or.inr (a9.trans g4)), a1, g9, a3, hp0, a7, g2, a4, a5, g7, g8,
      a10, g6]
    simp [boot]
  refine ⟨fun ps hps => ?_, fun ps p8 hps => (h8 ps p8 hps).1, fun ps p8 qs s e hps hqs => ?_⟩
  · obtain ⟨-, a1, -⟩ := remove_pages_no_flush P hs hf ps _ hg0 (h7 ps hps)
    rw [a1, g9]
    rfl
  · obtain ⟨c1, c2, c3, c4, c5⟩ := h8 ps p8 hps
    have hq : (run P ((ps ++ [p8]).map Op.remove_page)
        (tlb_gather_mmu P mm 0 (boot t heap oracle))).tlb.nr + qs.length <
        (run P ((ps ++ [p8]).map Op.remove_page)
          (tlb_gather_mmu P mm 0 (boot t heap oracle))).tlb.max := by
      obtain ⟨-, -, s3, -⟩ := hs
      obtain ⟨-, m⟩ := c2
      simp only [MMU_GATHER_BUNDLE] at s3 m
      rw [c3]
      omega
    obtain ⟨d0, d1, d2, d3, d4, d5, d6, d7, d8, d9, d10⟩ :=
      remove_pages_no_flush P hs hf qs _ c2 hq
    have hrun : run P ((ps ++ p8 :: qs).map Op.remove_page)
        (tlb_gather_mmu P mm 0 (boot t heap oracle)) =
        run P (qs.map Op.remove_page) (run P ((ps ++ [p8]).map Op.remove_page)
          (tlb_gather_mmu P mm 0 (boot t heap oracle))) := by
      rw [← run_append, ← List.map_append]
      simp
    rw [hrun]
    refine ⟨d1.trans c1, ?_⟩
    obtain ⟨post, hpost, hno⟩ := finish_buffered_mm_trace P hf s e
      (run P (qs.map Op.remove_page) (run P ((ps ++ [p8]).map Op.remove_page)
        (tlb_gather_mmu P mm 0 (boot t heap oracle)))) (Or.inr (d9.trans c4))
    refine ⟨post, ?_, hno⟩
    rw [hpost, d1, c1, d10, c5, d3, pending_nil _ c3]
    simp

theorem auto_flush_at_inline_capacity_witness :
    armv7_smp.sane ∧ tlb_fast_mode armv7_smp = 0 ∧ (fun _ : Nat => 0) 0 = 0 ∧
    [1, 2, 3, 4, 5, 6, 7].length = 7 ∧
    (run armv7_smp (([1, 2, 3, 4, 5, 6, 7] ++ [8]).map Op.remove_page)
      (tlb_gather_mmu armv7_smp 1 0 (boot zero_gather (fun _ _ => 0) (fun _ => 0)))).trace =
      [Event.get_free_pages 0, Event.flush_tlb_mm 1,
       Event.free_pages_and_swap_cache ([1, 2, 3, 4, 5, 6, 7] ++ [8]),
       Event.get_free_pages ((fun _ : Nat => 0) 1)] :=
  ⟨by decide, by decide, rfl, rfl,
   (auto_flush_at_inline_capacity armv7_smp (by decide) (by decide) zero_gather (fun _ _ => 0)
     (fun _ => 0) 1 rfl).2.1 [1, 2, 3, 4, 5, 6, 7] 8 rfl⟩

/-- C8 (as amended): for a session opened with `fullmm != 0`, under either policy, no trace
of session operations (followed or not by `tlb_finish_mmu`) contains a `flush_tlb_range`,
`fullmm` stays set, and every `tlb_flush_mmu` call records exactly one `flush_tlb_mm(mm)` and
no other invalidate. Under the Buffered policy, reporting 3 pages and then calling
`tlb_finish_mmu` records, after the allocation attempt of the open, one `flush_tlb_mm`
followed by the release of exactly those 3 pages, and no other invalidate or release. -/
theorem full_teardown_never_range_invalidates (P : Platform) (hs : P.sane) (t : mmu_gather)
    (heap : Nat → Nat → Nat) (oracle : Nat → Nat) (mm fullmm : Nat) (hfull : fullmm ≠ 0) :
    (∀ (ops : List Op) (s e : Nat),
      (∀ x ∈ (run P ops (tlb_gather_mmu P mm fullmm (boot t heap oracle))).trace,
        x.is_range_invalidate = false) ∧
      (∀ x ∈ (tlb_finish_mmu P s e
          (run P ops (tlb_gather_mmu P mm fullmm (boot t heap oracle)))).trace,
        x.is_range_invalidate = false)) ∧
    (∀ ops : List Op,
      (run P ops (tlb_gather_mmu P mm fullmm (boot t heap oracle))).tlb.fullmm = fullmm ∧
      (run P ops (tlb_gather_mmu P mm fullmm (boot t heap oracle))).tlb.mm = mm) ∧
    (∀ w : World, w.tlb.fullmm ≠ 0 →
      ∃ post, (tlb_flush_mmu P w).trace = w.trace ++ Event.flush_tlb_mm w.tlb.mm :: post ∧
        ∀ x ∈ post, x.is_invalidate = false) ∧
    (tlb_fast_mode P = 0 → ∀ p1 p2 p3 s e : Nat,
      ∃ post, (tlb_finish_mmu P s e
          (run P [Op.remove_page p1, Op.remove_page p2, Op.remove_page p3]
            (tlb_gather_mmu P mm fullmm (boot t heap oracle)))).trace =
          [Event.get_free_pages (oracle 0), Event.flush_tlb_mm mm,
           Event.free_pages_and_swap_cache [p1, p2, p3]] ++ post ∧
        ∀ x ∈ post, x.is_invalidate = false ∧ x.is_release = false) := by
  obtain ⟨g1, g2, -, g4, -, -, -, g8⟩ := gather_frame P mm fullmm (boot t heap oracle)
  have hg0 := gather_good P hs mm fullmm (boot t heap oracle)
  have hne : (tlb_gather_mmu P mm fullmm (boot t heap oracle)).tlb.fullmm ≠ 0 := by
    rw [g2]
    exact hfull
  have hframe : ∀ ops : List Op,
      (run P ops (tlb_gather_mmu P mm fullmm (boot t heap oracle))).tlb.fullmm = fullmm ∧
      (run P ops (tlb_gather_mmu P mm fullmm (boot t heap oracle))).tlb.mm = mm := by
    intro ops
    obtain ⟨r1, r2⟩ := run_frame P ops (tlb_gather_mmu P mm fullmm (boot t heap oracle))
    exact ⟨r1.trans g2, r2.trans g4⟩
  have hrun : ∀ ops : List Op,
      ∀ x ∈ (run P ops (tlb_gather_mmu P mm fullmm (boot t heap oracle))).trace,
        x.is_range_invalidate = false := by
    intro ops x hx
    obtain ⟨seg, t1, n1⟩ := run_fullmm_trace P ops _ hne
    rw [t1, g8] at hx
    simp only [boot, List.nil_append, List.cons_append, List.mem_cons] at hx
    rcases hx with rfl | hx
    · rfl
    · exact n1 x hx
  refine ⟨fun ops s e => ⟨hrun ops, fun x hx => ?_⟩, hframe,
    fun w hw => tlb_flush_mmu_fullmm_trace P w hw, fun hf p1 p2 p3 s e => ?_⟩
  · obtain ⟨seg, t1, n1⟩ := finish_fullmm_trace P s e
      (run P ops (tlb_gather_mmu P mm fullmm (boot t heap oracle)))
      (by rw [(hframe ops).1]; exact hfull)
    rw [t1] at hx
    rcases List.mem_append.mp hx with hx | hx
    · exact hrun ops x hx
    · exact n1 x hx
  · have h3 : (tlb_gather_mmu P mm fullmm (boot t heap oracle)).tlb.nr +
        [p1, p2, p3].length < (tlb_gather_mmu P mm fullmm (boot t heap oracle)).tlb.max := by
      obtain ⟨-, -, s3, -⟩ := hs
      obtain ⟨-, m⟩ := hg0
      simp only [MMU_GATHER_BUNDLE] at s3 m
      rw [g1]
      simp only [List.length_cons, List.length_nil]
      omega
    obtain ⟨-, d1, -, d3, -, -, -, -, d8, -, d10⟩ :=
      remove_pages_no_flush P hs hf [p1, p2, p3] _ hg0 h3
    have hmap : [Op.remove_page p1, Op.remove_page p2, Op.remove_page p3] =
        [p1, p2, p3].map Op.remove_page := rfl
    rw [hmap]
    obtain ⟨post, hpost, hno⟩ := finish_buffered_mm_trace P hf s e
      (run P ([p1, p2, p3].map Op.remove_page) (tlb_gather_mmu P mm fullmm (boot t heap oracle)))
      (Or.inl (by rw [d8, g2]; exact hfull))
    refine ⟨post, ?_, hno⟩
    rw [hpost, d1, g8, d10, g4, d3, pending_nil _ g1]
    simp [boot]

theorem full_teardown_never_range_invalidates_witness :
    armv7_smp.sane ∧ (1 : Nat) ≠ 0 ∧ tlb_fast_mode armv7_smp = 0 ∧
    ∃ post, (tlb_finish_mmu armv7_smp 0 0
        (run armv7_smp [Op.remove_page 11, Op.remove_page 12, Op.remove_page 13]
          (tlb_gather_mmu armv7_smp 5 1 (boot zero_gather (fun _ _ => 0) (fun _ => 0))))).trace =
        [Event.get_free_pages ((fun _ : Nat => 0) 0), Event.flush_tlb_mm 5,
         Event.free_pages_and_swap_cache [11, 12, 13]] ++ post ∧
      ∀ x ∈ post, x.is_invalidate = false ∧ x.is_release = false :=
  ⟨by decide, by decide, by decide,
   (full_teardown_never_range_invalidates armv7_smp (by decide) zero_gather (fun _ _ => 0)
     (fun _ => 0) 5 1 (by decide)).2.2.2 (by decide) 11 12 13 0 0⟩

/-- C8 (counterexample): on a uniprocessor pre-v7 build (`tlb_fast_mode` is 1), a session
opened with `fullmm = 1` that reports 3 pages and is then closed releases each page at its
report, before the single `flush_tlb_mm` recorded by `tlb_finish_mmu`, which itself releases
nothing. -/
theorem fast_mode_releases_before_invalidate :
    tlb_fast_mode arm_up = 1 ∧
    (tlb_finish_mmu arm_up 0 0
      (run arm_up [Op.remove_page 11, Op.remove_page 12, Op.remove_page 13]
        (tlb_gather_mmu arm_up 5 1 (boot zero_gather (fun _ _ => 0) (fun _ => 0))))).trace =
      [Event.get_free_pages 0, Event.free_page_and_swap_cache 11,
       Event.free_page_and_swap_cache 12, Event.free_page_and_swap_cache 13,
       Event.flush_tlb_mm 5, Event.check_pgt_cache] := by
  decide

/-! ## Whole-address-space sessions leave range and region alone -/

/-- C19: on a session with `fullmm != 0`, `tlb_remove_tlb_entry`, `tlb_add_flush`,
`tlb_start_vma` and `tlb_end_vma` return the state they were given: every field of the
structure, the memory behind `tlb->pages` and the trace are unchanged, so no
`flush_cache_range`, no invalidate and no release is recorded. -/
theorem fullmm_skips_tracking (P : Platform) (w : World) (hfull : w.tlb.fullmm ≠ 0)
    (ptep addr : Nat) (vma : vm_area_struct) :
    tlb_remove_tlb_entry P ptep addr w = w ∧ tlb_add_flush P addr w = w ∧
    tlb_start_vma P vma w = w ∧ tlb_end_vma P vma w = w := by
  refine ⟨?_, ?_, ?_, ?_⟩
  · simp [tlb_remove_tlb_entry, tlb_add_flush, tlb_add_flush_tlb, hfull]
  · simp [tlb_add_flush, tlb_add_flush_tlb, hfull]
  · simp [tlb_start_vma, hfull]
  · simp [tlb_end_vma, hfull]

theorem fullmm_skips_tracking_witness :
    (sample_world 1 none 5 9).tlb.fullmm ≠ 0 ∧
    (tlb_start_vma armv7_smp ⟨4096, 12288⟩ (sample_world 1 none 5 9)).trace = [] ∧
    (tlb_start_vma armv7_smp ⟨4096, 12288⟩ (sample_world 1 none 5 9)).tlb.vma = none ∧
    (tlb_remove_tlb_entry armv7_smp 0 4096 (sample_world 1 none 5 9)).tlb.range_start = 5 ∧
    (tlb_remove_tlb_entry armv7_smp 0 4096 (sample_world 1 none 5 9)).tlb.range_end = 9 :=
  ⟨by decide,
   congrArg World.trace (fullmm_skips_tracking armv7_smp (sample_world 1 none 5 9) (by decide)
     0 4096 ⟨4096, 12288⟩).2.2.1,
   congrArg (fun x => x.tlb.vma) (fullmm_skips_tracking armv7_smp (sample_world 1 none 5 9)
     (by decide) 0 4096 ⟨4096, 12288⟩).2.2.1,
   congrArg (fun x => x.tlb.range_start) (fullmm_skips_tracking armv7_smp
     (sample_world 1 none 5 9) (by decide) 0 4096 ⟨4096, 12288⟩).1,
   congrArg (fun x => x.tlb.range_end) (fullmm_skips_tracking armv7_smp
     (sample_world 1 none 5 9) (by decide) 0 4096 ⟨4096, 12288⟩).1⟩

/-! ## Widening of the tracked interval -/

theorem tlb_add_flush_tlb_eq (P : Platform) (a : Nat) (t : mmu_gather) :
    tlb_add_flush_tlb P a t =
      { t with
        range_start := if t.fullmm = 0 ∧ a < t.range_start then a else t.range_start,
        range_end := if t.fullmm = 0 ∧ (a + P.PAGE_SIZE) % 4294967296 > t.range_end then
          (a + P.PAGE_SIZE) % 4294967296 else t.range_end } := by
  obtain ⟨mm, fullmm, vma, rs, re, nr, max, pages, loc⟩ := t
  unfold tlb_add_flush_tlb
  dsimp only
  by_cases hf : fullmm = 0
  · subst hf
    simp only [true_and, if_true]
    split_ifs <;> rfl
  · simp [hf]

theorem tlb_add_flush_idem (P : Platform) (a : Nat) (w : World) :
    tlb_add_flush P a (tlb_add_flush P a w) = tlb_add_flush P a w := by
  unfold tlb_add_flush
  simp only [tlb_add_flush_tlb_eq]
  congr 2
  · split_ifs <;> rfl
  · split_ifs <;> rfl

theorem tlb_add_flush_comm (P : Platform) (a b : Nat) (w : World) :
    tlb_add_flush P b (tlb_add_flush P a w) = tlb_add_flush P a (tlb_add_flush P b w) := by
  unfold tlb_add_flush
  simp only [tlb_add_flush_tlb_eq]
  congr 2
  · split_ifs <;> first | rfl | omega
  · split_ifs <;> first | rfl | omega

/-- C20: monotone, order-independent widening. For every state and every address,
`tlb_add_flush` does not raise `range_start`, does not lower `range_end` and changes no other
field of the structure, nor the memory, the allocator state or the trace. Reporting an
address twice gives the same state as reporting it once, and reporting `a` then `b` gives
the same state as `b` then `a`. -/
theorem tlb_add_flush_widening (P : Platform) (w : World) (a b : Nat) :
    ((tlb_add_flush P a w).tlb.range_start ≤ w.tlb.range_start ∧
      w.tlb.range_end ≤ (tlb_add_flush P a w).tlb.range_end) ∧
    ((tlb_add_flush P a w).tlb.mm = w.tlb.mm ∧
      (tlb_add_flush P a w).tlb.fullmm = w.tlb.fullmm ∧
      (tlb_add_flush P a w).tlb.vma = w.tlb.vma ∧
      (tlb_add_flush P a w).tlb.nr = w.tlb.nr ∧
      (tlb_add_flush P a w).tlb.max = w.tlb.max ∧
      (tlb_add_flush P a w).tlb.pages = w.tlb.pages ∧
      (tlb_add_flush P a w).tlb.local_ = w.tlb.local_ ∧
      (tlb_add_flush P a w).heap = w.heap ∧
      (tlb_add_flush P a w).oracle = w.oracle ∧
      (tlb_add_flush P a w).calls = w.calls ∧
      (tlb_add_flush P a w).trace = w.trace) ∧
    tlb_add_flush P a (tlb_add_flush P a w) = tlb_add_flush P a w ∧
    tlb_add_flush P b (tlb_add_flush P a w) = tlb_add_flush P a (tlb_add_flush P b w) := by
  obtain ⟨s1, s2, s3, s4, s5, s6, s7, s8, s9⟩ := tlb_add_flush_same_store P a w
  exact ⟨tlb_add_flush_range_mono P a w,
    ⟨s9, s8, tlb_add_flush_vma P a w, s4, s5, s6, s7, s1, s2, s3, rfl⟩,
    tlb_add_flush_idem P a w, tlb_add_flush_comm P a b w⟩

/-! ## The Immediate policy -/

theorem flush_events_invalidate_only (w : World) :
    ∀ x ∈ flush_events w, x.is_invalidate = true ∧ x.is_release = false := by
  unfold flush_events
  split_ifs <;> simp [Event.is_invalidate, Event.is_release]

/-- C16: when `tlb_fast_mode` is 1, `__tlb_remove_page` records exactly one call,
`free_page_and_swap_cache(page)`, leaves the whole structure, the memory and the allocator
state unchanged and returns 1, so `tlb_remove_page` does the same and never calls
`tlb_flush_mmu`. Under this policy `tlb_flush_mmu` is `tlb_flush`: it records invalidates
only, no release, and leaves the collector as it was. -/
theorem fast_mode_bypasses_collector (P : Platform) (hf : tlb_fast_mode P = 1) (w : World)
    (page : Nat) :
    (P.CONFIG_SMP = false ∧ P.CONFIG_CPU_32v7 = false) ∧
    ((__tlb_remove_page P page w).1.trace =
        w.trace ++ [Event.free_page_and_swap_cache page] ∧
      (__tlb_remove_page P page w).1.tlb = w.tlb ∧
      (__tlb_remove_page P page w).1.heap = w.heap ∧
      (__tlb_remove_page P page w).1.oracle = w.oracle ∧
      (__tlb_remove_page P page w).1.calls = w.calls ∧
      (__tlb_remove_page P page w).2 = 1) ∧
    tlb_remove_page P page w = (__tlb_remove_page P page w).1 ∧
    (tlb_flush_mmu P w = tlb_flush P w ∧
      (tlb_flush_mmu P w).trace = w.trace ++ flush_events w ∧
      (∀ x ∈ flush_events w, x.is_invalidate = true ∧ x.is_release = false) ∧
      (tlb_flush_mmu P w).tlb.nr = w.tlb.nr ∧ pending (tlb_flush_mmu P w) = pending w) := by
  have hne : tlb_fast_mode P ≠ 0 := by omega
  have hr : __tlb_remove_page P page w = (emit (.free_page_and_swap_cache page) w, 1) := by
    simp [__tlb_remove_page, hne]
  have hfl := tlb_flush_mmu_fast_eq P w hne
  refine ⟨?_, ?_, ?_, hfl, ?_, flush_events_invalidate_only w, ?_, ?_⟩
  · unfold tlb_fast_mode at hf
    cases h1 : P.CONFIG_SMP <;> cases h2 : P.CONFIG_CPU_32v7 <;> simp [h1, h2] at hf ⊢
  · rw [hr]
    exact ⟨rfl, rfl, rfl, rfl, rfl, rfl⟩
  · rw [tlb_remove_page_fast P hne, hr]
  · rw [hfl, tlb_flush_trace]
  · rw [hfl]
    exact (tlb_flush_same_store P w).2.2.2.1
  · rw [hfl]
    exact pending_same_store w _ (tlb_flush_same_store P w)

theorem fast_mode_bypasses_collector_witness :
    tlb_fast_mode arm_up = 1 ∧
    (__tlb_remove_page arm_up 7 (sample_world 0 none 0 0)).1.trace =
      (sample_world 0 none 0 0).trace ++ [Event.free_page_and_swap_cache 7] ∧
    (__tlb_remove_page arm_up 7 (sample_world 0 none 0 0)).2 = 1 :=
  ⟨by decide,
   (fast_mode_bypasses_collector arm_up (by decide) (sample_world 0 none 0 0) 7).2.1.1,
   (fast_mode_bypasses_collector arm_up (by decide) (sample_world 0 none 0 0) 7).2.1.2.2.2.2.2⟩

/-! ## Opening a session -/

theorem gather_alloc_succeeds (P : Platform) (mm fullmm : Nat) (w : World)
    (h : w.oracle w.calls ≠ 0) :
    (tlb_gather_mmu P mm fullmm w).tlb.max = P.PTRS_PER_PAGE ∧
    (tlb_gather_mmu P mm fullmm w).tlb.pages = .page (w.oracle w.calls) := by
  unfold tlb_gather_mmu __tlb_alloc_page
  simp [h, emit]

theorem gather_calls (P : Platform) (mm fullmm : Nat) (w : World) :
    (tlb_gather_mmu P mm fullmm w).calls = w.calls + 1 ∧
    (tlb_gather_mmu P mm fullmm w).oracle = w.oracle ∧
    (tlb_gather_mmu P mm fullmm w).heap = w.heap := by
  unfold tlb_gather_mmu __tlb_alloc_page
  dsimp only
  split_ifs <;> simp [emit]

/-- C13: `tlb_gather_mmu` always returns a session, whatever the allocator answers. On
return `nr = 0`, exactly one `__get_free_pages` call has been made, `mm` and `fullmm` are the
arguments; if the allocation failed the active store is the inline array with `max = 8`, if
it succeeded the active store is the allocated page with
`max = PAGE_SIZE / sizeof(struct page *)`. -/
theorem gather_initialises_collector (P : Platform) (mm fullmm : Nat) (w : World) :
    (tlb_gather_mmu P mm fullmm w).tlb.nr = 0 ∧
    pending (tlb_gather_mmu P mm fullmm w) = [] ∧
    (tlb_gather_mmu P mm fullmm w).calls = w.calls + 1 ∧
    (tlb_gather_mmu P mm fullmm w).trace =
      w.trace ++ [Event.get_free_pages (w.oracle w.calls)] ∧
    (w.oracle w.calls = 0 →
      (tlb_gather_mmu P mm fullmm w).tlb.pages = .local_ ∧
      (tlb_gather_mmu P mm fullmm w).tlb.max = 8) ∧
    (w.oracle w.calls ≠ 0 →
      (tlb_gather_mmu P mm fullmm w).tlb.pages = .page (w.oracle w.calls) ∧
      (tlb_gather_mmu P mm fullmm w).tlb.max = P.PAGE_SIZE / P.PTR_SIZE) ∧
    (tlb_gather_mmu P mm fullmm w).tlb.mm = mm ∧
    (tlb_gather_mmu P mm fullmm w).tlb.fullmm = fullmm := by
  obtain ⟨g1, g2, -, g4, -, -, -, g8⟩ := gather_frame P mm fullmm w
  refine ⟨g1, pending_nil _ g1, (gather_calls P mm fullmm w).1, g8, fun h => ?_, fun h => ?_,
    g4, g2⟩
  · obtain ⟨a1, a2, -⟩ := gather_alloc_fails P mm fullmm w h
    exact ⟨a2, a1⟩
  · obtain ⟨a1, a2⟩ := gather_alloc_succeeds P mm fullmm w h
    exact ⟨a2, a1⟩

theorem gather_initialises_collector_witness :
    ((tlb_gather_mmu armv7_smp 5 0 (boot zero_gather (fun _ _ => 0) (fun _ => 0))).tlb.pages =
        .local_ ∧
      (tlb_gather_mmu armv7_smp 5 0 (boot zero_gather (fun _ _ => 0) (fun _ => 0))).tlb.max =
        8) ∧
    ((tlb_gather_mmu armv7_smp 5 0
        (boot zero_gather (fun _ _ => 0) (fun _ => 20480))).tlb.pages = .page 20480 ∧
      (tlb_gather_mmu armv7_smp 5 0
        (boot zero_gather (fun _ _ => 0) (fun _ => 20480))).tlb.max = 4096 / 4) :=
  ⟨(gather_initialises_collector armv7_smp 5 0
      (boot zero_gather (fun _ _ => 0) (fun _ => 0))).2.2.2.2.1 rfl,
   (gather_initialises_collector armv7_smp 5 0
      (boot zero_gather (fun _ _ => 0) (fun _ => 20480))).2.2.2.2.2.1 (by decide)⟩

/-- C12 (as amended): for every prior content of the structure and every `mm` and `fullmm`,
after `tlb_gather_mmu` no region is active (`vma = NULL`) and `range_start` and `range_end`
still hold their prior values. The tracker is set to empty (`range_start = TASK_SIZE`,
`range_end = 0`) by `tlb_start_vma` on a session with `fullmm = 0`; until then `tlb_flush`
does not read it and records `flush_tlb_mm`. -/
theorem gather_leaves_range (P : Platform) (mm fullmm : Nat) (w : World) :
    ((tlb_gather_mmu P mm fullmm w).tlb.vma = none ∧
      (tlb_gather_mmu P mm fullmm w).tlb.range_start = w.tlb.range_start ∧
      (tlb_gather_mmu P mm fullmm w).tlb.range_end = w.tlb.range_end) ∧
    (tlb_flush P (tlb_gather_mmu P mm fullmm w)).trace =
      (tlb_gather_mmu P mm fullmm w).trace ++ [Event.flush_tlb_mm mm] ∧
    (fullmm = 0 → ∀ vma : vm_area_struct,
      (tlb_start_vma P vma (tlb_gather_mmu P mm fullmm w)).tlb.vma = some vma ∧
      (tlb_start_vma P vma (tlb_gather_mmu P mm fullmm w)).tlb.range_start = P.TASK_SIZE ∧
      (tlb_start_vma P vma (tlb_gather_mmu P mm fullmm w)).tlb.range_end = 0) := by
  obtain ⟨-, g2, g3, g4, g5, g6, -, -⟩ := gather_frame P mm fullmm w
  refine ⟨⟨g3, g5, g6⟩, ?_, fun h vma => ?_⟩
  · rw [tlb_flush_trace, flush_events_mm _ (Or.inr g3), g4]
  · obtain ⟨-, f2, f3, f4, -⟩ := tlb_start_vma_frame P vma _ (g2.trans h)
    exact ⟨f2, f3, f4⟩

theorem gather_leaves_range_witness :
    (tlb_start_vma armv7_smp ⟨4096, 12288⟩
      (tlb_gather_mmu armv7_smp 5 0 (sample_world 1 (some ⟨0, 4096⟩) 5 9))).tlb.vma =
      some ⟨4096, 12288⟩ ∧
    (tlb_start_vma armv7_smp ⟨4096, 12288⟩
      (tlb_gather_mmu armv7_smp 5 0 (sample_world 1 (some ⟨0, 4096⟩) 5 9))).tlb.range_start =
      armv7_smp.TASK_SIZE ∧
    (tlb_start_vma armv7_smp ⟨4096, 12288⟩
      (tlb_gather_mmu armv7_smp 5 0 (sample_world 1 (some ⟨0, 4096⟩) 5 9))).tlb.range_end = 0 :=
  (gather_leaves_range armv7_smp 5 0 (sample_world 1 (some ⟨0, 4096⟩) 5 9)).2.2 rfl
    ⟨4096, 12288⟩

/-- C12 (counterexample): `tlb_gather_mmu` on a structure whose previous use left
`range_start = 0x1000` and `range_end = 0x2000` returns with these values, and on a
zero-filled structure it returns with `range_start = 0`; neither is the empty tracker
(`TASK_SIZE`, 0). -/
theorem gather_keeps_stale_range :
    (tlb_gather_mmu armv7_smp 5 0
      (sample_world 1 (some ⟨0, 4096⟩) 4096 8192)).tlb.range_start = 4096 ∧
    (tlb_gather_mmu armv7_smp 5 0
      (sample_world 1 (some ⟨0, 4096⟩) 4096 8192)).tlb.range_end = 8192 ∧
    (tlb_gather_mmu armv7_smp 5 0
      (boot zero_gather (fun _ _ => 0) (fun _ => 0))).tlb.range_start = 0 ∧
    armv7_smp.TASK_SIZE ≠ 4096 ∧ armv7_smp.TASK_SIZE ≠ 0 ∧
    (tlb_gather_mmu armv7_smp 5 0 (sample_world 1 (some ⟨0, 4096⟩) 4096 8192)).tlb.vma =
      none := by
  decide

/-! ## Reporting a page when pages are buffered -/

theorem pages_write_store (w : World) (i page : Nat) :
    (∀ b j, (pages_write w i page).heap b j =
      if w.tlb.pages = .page b ∧ j = i then page else w.heap b j) ∧
    (∀ j, (pages_write w i page).tlb.local_ j =
      if w.tlb.pages = .local_ ∧ j = i then page else w.tlb.local_ j) := by
  unfold pages_write
  cases hp : w.tlb.pages with
  | local_ => simp [hp]
  | page a =>
    refine ⟨fun b j => ?_, fun j => by simp [hp]⟩
    simp only [hp, PagesPtr.page.injEq]
    by_cases hb : b = a
    · subst hb
      simp
    · have hb2 : ¬ a = b := fun h => hb h.symm
      simp [hb, hb2]

theorem remove_page_buffered_store (P : Platform) (page : Nat) (w : World)
    (h : tlb_fast_mode P = 0) :
    (__tlb_remove_page P page w).1.heap = (pages_write w w.tlb.nr page).heap ∧
    (__tlb_remove_page P page w).1.tlb.local_ = (pages_write w w.tlb.nr page).tlb.local_ := by
  unfold __tlb_remove_page
  simp only [h, ne_eq, not_true_eq_false, if_false]
  split_ifs <;> exact ⟨rfl, rfl⟩

theorem to_int_of_lt (u : Nat) (h : u < 2147483648) : to_int u = (u : Int) := by
  simp [to_int, h]

/-- C15: reporting a page under the Buffered policy, in a state with `nr < max` (`max` being
an `unsigned int`). `__tlb_remove_page` writes the page into slot `nr` of the active store,
sets `nr` to `nr + 1`, changes no other slot, no other field and records no call; it returns
`max - (nr + 1)` converted to `int`, which is that number itself whenever `max` fits an
`int`, and is 0 exactly when the store is now full. `tlb_remove_page` calls `tlb_flush_mmu`
exactly when the result is 0; then, on return, the call releasing the buffered pages with the
reported page last has been recorded and `nr = 0`. Otherwise it records nothing. -/
theorem buffered_report (P : Platform) (hf : tlb_fast_mode P = 0) (w : World) (page : Nat)
    (hn : w.tlb.nr < w.tlb.max) (hwf : w.tlb.max < 4294967296) :
    (pages_read (__tlb_remove_page P page w).1 w.tlb.nr = page ∧
      (∀ b j, (__tlb_remove_page P page w).1.heap b j =
        if w.tlb.pages = .page b ∧ j = w.tlb.nr then page else w.heap b j) ∧
      (∀ j, (__tlb_remove_page P page w).1.tlb.local_ j =
        if w.tlb.pages = .local_ ∧ j = w.tlb.nr then page else w.tlb.local_ j)) ∧
    (__tlb_remove_page P page w).1.tlb.nr = w.tlb.nr + 1 ∧
    ((__tlb_remove_page P page w).1.tlb.mm = w.tlb.mm ∧
      (__tlb_remove_page P page w).1.tlb.fullmm = w.tlb.fullmm ∧
      (__tlb_remove_page P page w).1.tlb.vma = w.tlb.vma ∧
      (__tlb_remove_page P page w).1.tlb.range_start = w.tlb.range_start ∧
      (__tlb_remove_page P page w).1.tlb.range_end = w.tlb.range_end ∧
      (__tlb_remove_page P page w).1.tlb.max = w.tlb.max ∧
      (__tlb_remove_page P page w).1.tlb.pages = w.tlb.pages ∧
      (__tlb_remove_page P page w).1.oracle = w.oracle ∧
      (__tlb_remove_page P page w).1.calls = w.calls ∧
      (__tlb_remove_page P page w).1.trace = w.trace) ∧
    ((__tlb_remove_page P page w).2 = to_int (w.tlb.max - (w.tlb.nr + 1)) ∧
      (w.tlb.max < 2147483648 →
        (__tlb_remove_page P page w).2 = ((w.tlb.max - (w.tlb.nr + 1) : Nat) : Int)) ∧
      ((__tlb_remove_page P page w).2 = 0 ↔ w.tlb.nr + 1 = w.tlb.max)) ∧
    ((__tlb_remove_page P page w).2 = 0 →
      tlb_remove_page P page w = tlb_flush_mmu P (__tlb_remove_page P page w).1 ∧
      (tlb_remove_page P page w).trace =
        w.trace ++ flush_events w ++ Event.free_pages_and_swap_cache (pending w ++ [page]) ::
          (if w.tlb.pages = .local_ then [Event.get_free_pages (w.oracle w.calls)] else []) ∧
      (tlb_remove_page P page w).tlb.nr = 0) ∧
    ((__tlb_remove_page P page w).2 ≠ 0 →
      tlb_remove_page P page w = (__tlb_remove_page P page w).1 ∧
      (tlb_remove_page P page w).trace = w.trace) := by
  obtain ⟨r1, r2, r3, r4, r5, r6, r7, r8, r9, r10, r11, r12, r13⟩ :=
    remove_page_buffered_frame P page w hf
  obtain ⟨t1, t2⟩ := remove_page_buffered_store P page w hf
  obtain ⟨u1, u2⟩ := pages_write_store w w.tlb.nr page
  have hmod : (w.tlb.nr + 1) % 4294967296 = w.tlb.nr + 1 := Nat.mod_eq_of_lt (by omega)
  rw [hmod] at r10 r12 r13
  have hnb : ¬ (w.tlb.nr + 1 > w.tlb.max) := by omega
  simp only [hnb, if_false, List.append_nil] at r12
  have hsub : (w.tlb.max + 4294967296 - (w.tlb.nr + 1)) % 4294967296 =
      w.tlb.max - (w.tlb.nr + 1) := by omega
  rw [hsub] at r13
  have hz : (__tlb_remove_page P page w).2 = 0 ↔ w.tlb.nr + 1 = w.tlb.max := by
    rw [r13, to_int_eq_zero _ (by omega)]
    omega
  have hp := pending_snoc w _ page r10 r11
  refine ⟨⟨by rw [r11]; simp, fun b j => by rw [t1]; exact u1 b j,
      fun j => by rw [t2]; exact u2 j⟩, r10,
    ⟨r7, r5, r6, r8, r9, r3, r4, r1, r2, r12⟩,
    ⟨r13, fun h31 => by rw [r13, to_int_of_lt _ (by omega)], hz⟩, fun h0 => ?_, fun h0 => ?_⟩
  · have he : tlb_remove_page P page w = tlb_flush_mmu P (__tlb_remove_page P page w).1 := by
      simp [tlb_remove_page, h0]
    have hfe : flush_events (__tlb_remove_page P page w).1 = flush_events w := by
      unfold flush_events
      rw [r5, r6, r7, r8, r9]
    refine ⟨he, ?_, ?_⟩
    · rw [he, tlb_flush_mmu_buffered_trace P _ hf, hfe, r12]
      unfold release_events
      rw [hp, r4, r1, r2]
    · rw [he]
      exact (tlb_flush_mmu_buffered_frame P _ hf).1
  · have he : tlb_remove_page P page w = (__tlb_remove_page P page w).1 := by
      simp [tlb_remove_page, h0]
    exact ⟨he, by rw [he, r12]⟩

theorem buffered_report_witness :
    tlb_fast_mode armv7_smp = 0 ∧
    (sample_world 0 none 0 0).tlb.nr < (sample_world 0 none 0 0).tlb.max ∧
    (sample_world 0 none 0 0).tlb.max < 4294967296 ∧
    (__tlb_remove_page armv7_smp 7 (sample_world 0 none 0 0)).1.tlb.nr =
      (sample_world 0 none 0 0).tlb.nr + 1 ∧
    (__tlb_remove_page armv7_smp 7 (sample_world 0 none 0 0)).2 =
      (((sample_world 0 none 0 0).tlb.max - ((sample_world 0 none 0 0).tlb.nr + 1) : Nat) :
        Int) :=
  ⟨by decide, by decide, by decide,
   (buffered_report armv7_smp (by decide) (sample_world 0 none 0 0) 7 (by decide)
     (by decide)).2.1,
   (buffered_report armv7_smp (by decide) (sample_world 0 none 0 0) 7 (by decide)
     (by decide)).2.2.2.1.2.1 (by decide)⟩

/-! ## Freeing a page-table level -/

theorem pte_free_extend_frame (P : Platform) (pte addr : Nat) (w : World) :
    same_store w (pte_free_extend P pte addr w) ∧
    (pte_free_extend P pte addr w).trace = w.trace ++ [Event.pgtable_page_dtor pte] ∧
    (pte_free_extend P pte addr w).tlb.vma = w.tlb.vma :=
  pte_free_prelude P pte
    (((addr &&& P.PMD_MASK) + P.SZ_1M + 4294967296 - P.PAGE_SIZE) % 4294967296)
    (((addr &&& P.PMD_MASK) + P.SZ_1M) % 4294967296) w

theorem tlb_add_flush_contains (P : Platform) (a : Nat) (w : World) (hf : w.tlb.fullmm = 0) :
    (tlb_add_flush P a w).tlb.range_start ≤ a ∧
    (a + P.PAGE_SIZE) % 4294967296 ≤ (tlb_add_flush P a w).tlb.range_end := by
  unfold tlb_add_flush tlb_add_flush_tlb
  simp only [hf, if_true]
  split_ifs with h1 h2 h2 <;> (try dsimp only at *) <;> omega

/-- C11 (as amended): in a session with `fullmm = 0`, `__pte_free_tlb(tlb, pte, addr)` first
calls `pgtable_page_dtor` and extends the range, and only then hands `pte` to
`tlb_remove_page`; the extension leaves the collector untouched. When `PAGE_SIZE <= SZ_1M`
and `(addr & PMD_MASK) + SZ_1M + PAGE_SIZE` does not wrap, the extended interval contains the
two pages around the middle of the level's span,
`[(addr & PMD_MASK) + SZ_1M - PAGE_SIZE, (addr & PMD_MASK) + SZ_1M + PAGE_SIZE)`. -/
theorem pte_free_covers_boundary_pages (P : Platform) (w : World) (hfull : w.tlb.fullmm = 0)
    (pte addr : Nat) (h1 : P.PAGE_SIZE ≤ P.SZ_1M)
    (h2 : (addr &&& P.PMD_MASK) + P.SZ_1M + P.PAGE_SIZE < 4294967296) :
    __pte_free_tlb P pte addr w = tlb_remove_page P pte (pte_free_extend P pte addr w) ∧
    ((pte_free_extend P pte addr w).trace = w.trace ++ [Event.pgtable_page_dtor pte] ∧
      (pte_free_extend P pte addr w).tlb.nr = w.tlb.nr ∧
      pending (pte_free_extend P pte addr w) = pending w) ∧
    (pte_free_extend P pte addr w).tlb.range_start ≤
      (addr &&& P.PMD_MASK) + P.SZ_1M - P.PAGE_SIZE ∧
    (addr &&& P.PMD_MASK) + P.SZ_1M + P.PAGE_SIZE ≤
      (pte_free_extend P pte addr w).tlb.range_end := by
  obtain ⟨f1, f2, -⟩ := pte_free_extend_frame P pte addr w
  refine ⟨rfl, ⟨f2, f1.2.2.2.1, pending_same_store w _ f1⟩, ?_, ?_⟩
  · have hw1 : (emit (.pgtable_page_dtor pte) w).tlb.fullmm = 0 := hfull
    obtain ⟨c1, -⟩ := tlb_add_flush_contains P
      (((addr &&& P.PMD_MASK) + P.SZ_1M + 4294967296 - P.PAGE_SIZE) % 4294967296) _ hw1
    obtain ⟨m1, -⟩ := tlb_add_flush_range_mono P (((addr &&& P.PMD_MASK) + P.SZ_1M) % 4294967296)
      (tlb_add_flush P
        (((addr &&& P.PMD_MASK) + P.SZ_1M + 4294967296 - P.PAGE_SIZE) % 4294967296)
        (emit (.pgtable_page_dtor pte) w))
    have hx : ((addr &&& P.PMD_MASK) + P.SZ_1M + 4294967296 - P.PAGE_SIZE) % 4294967296 =
        (addr &&& P.PMD_MASK) + P.SZ_1M - P.PAGE_SIZE := by omega
    exact Nat.le_trans m1 (Nat.le_trans c1 (Nat.le_of_eq hx))
  · have hw2 : (tlb_add_flush P
        (((addr &&& P.PMD_MASK) + P.SZ_1M + 4294967296 - P.PAGE_SIZE) % 4294967296)
        (emit (.pgtable_page_dtor pte) w)).tlb.fullmm = 0 :=
      ((tlb_add_flush_same_store P _ _).2.2.2.2.2.2.2.1).trans hfull
    obtain ⟨-, c2⟩ := tlb_add_flush_contains P (((addr &&& P.PMD_MASK) + P.SZ_1M) % 4294967296)
      _ hw2
    have hy : (((addr &&& P.PMD_MASK) + P.SZ_1M) % 4294967296 + P.PAGE_SIZE) % 4294967296 =
        (addr &&& P.PMD_MASK) + P.SZ_1M + P.PAGE_SIZE := by omega
    exact Nat.le_trans (Nat.le_of_eq hy.symm) c2

theorem pte_free_covers_boundary_pages_witness :
    (sample_world 0 (some ⟨0, 8388608⟩) 3204448256 0).tlb.fullmm = 0 ∧
    armv7_smp.PAGE_SIZE ≤ armv7_smp.SZ_1M ∧
    (4194304 &&& armv7_smp.PMD_MASK) + armv7_smp.SZ_1M + armv7_smp.PAGE_SIZE < 4294967296 ∧
    (pte_free_extend armv7_smp 9 4194304
      (sample_world 0 (some ⟨0, 8388608⟩) 3204448256 0)).tlb.range_start ≤
      (4194304 &&& armv7_smp.PMD_MASK) + armv7_smp.SZ_1M - armv7_smp.PAGE_SIZE ∧
    (4194304 &&& armv7_smp.PMD_MASK) + armv7_smp.SZ_1M + armv7_smp.PAGE_SIZE ≤
      (pte_free_extend armv7_smp 9 4194304
        (sample_world 0 (some ⟨0, 8388608⟩) 3204448256 0)).tlb.range_end :=
  ⟨by decide, by decide, by decide,
   (pte_free_covers_boundary_pages armv7_smp (sample_world 0 (some ⟨0, 8388608⟩) 3204448256 0)
     (by decide) 9 4194304 (by decide) (by decide)).2.2⟩

/-- C11 (counterexample): with 4 KiB pages and 2 MiB page-table levels
(`PMD_MASK = 0xFFE00000`), inside a region pass with an empty tracker,
`__pte_free_tlb(tlb, pte, 0x400000)` extends the range to `[0x4FF000, 0x501000)`. The span
of the freed level is `[0x400000, 0x600000)`: its first address lies below `range_start` and
its end lies above `range_end`. -/
theorem pte_free_range_misses_span :
    (tlb_start_vma armv7_smp ⟨0, 8388608⟩ (sample_world 0 none 0 0)).tlb.fullmm = 0 ∧
    (pte_free_extend armv7_smp 9 4194304
      (tlb_start_vma armv7_smp ⟨0, 8388608⟩ (sample_world 0 none 0 0))).tlb.range_start =
      5238784 ∧
    (pte_free_extend armv7_smp 9 4194304
      (tlb_start_vma armv7_smp ⟨0, 8388608⟩ (sample_world 0 none 0 0))).tlb.range_end =
      5246976 ∧
    4194304 &&& armv7_smp.PMD_MASK = 4194304 ∧ armv7_smp.PMD_SIZE = 2097152 ∧
    (4194304 &&& armv7_smp.PMD_MASK) < 5238784 ∧
    5246976 < (4194304 &&& armv7_smp.PMD_MASK) + armv7_smp.PMD_SIZE ∧
    __pte_free_tlb armv7_smp 9 4194304
        (tlb_start_vma armv7_smp ⟨0, 8388608⟩ (sample_world 0 none 0 0)) =
      tlb_remove_page armv7_smp 9 (pte_free_extend armv7_smp 9 4194304
        (tlb_start_vma armv7_smp ⟨0, 8388608⟩ (sample_world 0 none 0 0))) :=
  ⟨by decide, by decide, by decide, by decide, by decide, by decide, by decide, rfl⟩

/-! ## Well-formedness of the tracked interval -/

theorem range_ok_of_eq (w w2 : World) (h1 : w2.tlb.range_start = w.tlb.range_start)
    (h2 : w2.tlb.range_end = w.tlb.range_end) (h : RangeOk w) : RangeOk w2 := by
  unfold RangeOk at *
  rw [h1, h2]
  exact h

theorem tlb_flush_range_ok (P : Platform) (w : World) (h : RangeOk w) :
    RangeOk (tlb_flush P w) := by
  unfold tlb_flush
  split_ifs
  · exact h
  · intro h0
    exact absurd h0 (Nat.lt_irrefl 0)
  · exact h

theorem tlb_flush_mmu_range_ok (P : Platform) (w : World) (h : RangeOk w) :
    RangeOk (tlb_flush_mmu P w) := by
  obtain ⟨h1, h2⟩ := tlb_flush_mmu_range P w
  exact range_ok_of_eq _ _ h1 h2 (tlb_flush_range_ok P w h)

theorem tlb_remove_page_range_ok (P : Platform) (page : Nat) (w : World) (h : RangeOk w) :
    RangeOk (tlb_remove_page P page w) := by
  by_cases hf : tlb_fast_mode P = 0
  · obtain ⟨-, -, -, -, -, -, -, r8, r9, -⟩ := remove_page_buffered_frame P page w hf
    have h1 : RangeOk (__tlb_remove_page P page w).1 := range_ok_of_eq _ _ r8 r9 h
    unfold tlb_remove_page
    dsimp only
    split_ifs
    · exact tlb_flush_mmu_range_ok P _ h1
    · exact h1
  · rw [tlb_remove_page_fast P hf]
    exact h

/-- Adding an address whose page does not wrap keeps the tracked interval well formed. -/
theorem tlb_add_flush_range_ok (P : Platform) (a : Nat) (w : World)
    (ha : a + P.PAGE_SIZE ≤ 4294967296) (h : RangeOk w) : RangeOk (tlb_add_flush P a w) := by
  unfold RangeOk at *
  unfold tlb_add_flush tlb_add_flush_tlb
  dsimp only
  split_ifs with h1 h2 h3 h3 <;> (try dsimp only at *) <;> omega

theorem exec_range_ok (P : Platform) (o : Op) (ho : o.no_wrap P = true) (w : World)
    (h : RangeOk w) : RangeOk (exec P o w) := by
  cases o with
  | remove_page page => exact tlb_remove_page_range_ok P page w h
  | remove_tlb_entry ptep addr =>
    simp only [Op.no_wrap, decide_eq_true_eq] at ho
    exact tlb_add_flush_range_ok P addr w ho h
  | start_vma vma =>
    unfold exec tlb_start_vma
    split_ifs
    · intro h0
      exact absurd h0 (Nat.lt_irrefl 0)
    · exact h
  | end_vma vma =>
    unfold exec tlb_end_vma
    split_ifs
    · exact tlb_flush_range_ok P w h
    · exact h
  | flush_mmu => exact tlb_flush_mmu_range_ok P w h
  | pte_free pte addr =>
    simp only [Op.no_wrap, decide_eq_true_eq] at ho
    obtain ⟨o1, o2⟩ := ho
    have hw1 : RangeOk (emit (.pgtable_page_dtor pte) w) := h
    have hw2 := tlb_add_flush_range_ok P
      (((addr &&& P.PMD_MASK) + P.SZ_1M + 4294967296 - P.PAGE_SIZE) % 4294967296) _
      (by omega) hw1
    have hw3 := tlb_add_flush_range_ok P (((addr &&& P.PMD_MASK) + P.SZ_1M) % 4294967296) _
      (by omega) hw2
    exact tlb_remove_page_range_ok P pte _ hw3

theorem run_range_ok (P : Platform) (ops : List Op) :
    ∀ w, (∀ o ∈ ops, o.no_wrap P = true) → RangeOk w → RangeOk (run P ops w) := by
  induction ops with
  | nil => exact fun w _ h => h
  | cons o rest ih =>
    intro w ho h
    exact ih _ (fun x hx => ho x (List.mem_cons_of_mem _ hx))
      (exec_range_ok P o (ho o (List.mem_cons_self _ _)) w h)

/-- C17 (as amended): in a session with `fullmm = 0`, in every state reached after
`tlb_start_vma` by any sequence of session calls whose address arguments do not wrap
(`addr + PAGE_SIZE <= 2^32` for `tlb_remove_tlb_entry`; `PAGE_SIZE <= (addr & PMD_MASK) +
SZ_1M` and `(addr & PMD_MASK) + SZ_1M + PAGE_SIZE <= 2^32` for `__pte_free_tlb`), a non-empty
tracked interval (`range_end > 0`) has `range_start <= range_end`. -/
theorem range_well_formed (P : Platform) (w : World) (hfull : w.tlb.fullmm = 0)
    (vma : vm_area_struct) (ops : List Op) (hops : ∀ o ∈ ops, o.no_wrap P = true) :
    0 < (run P ops (tlb_start_vma P vma w)).tlb.range_end →
      (run P ops (tlb_start_vma P vma w)).tlb.range_start ≤
        (run P ops (tlb_start_vma P vma w)).tlb.range_end := by
  have h0 : RangeOk (tlb_start_vma P vma w) := by
    obtain ⟨-, -, -, f4, -⟩ := tlb_start_vma_frame P vma w hfull
    intro h
    rw [f4] at h
    exact absurd h (Nat.lt_irrefl 0)
  exact run_range_ok P ops _ hops h0

theorem range_well_formed_witness :
    (sample_world 0 none 0 0).tlb.fullmm = 0 ∧
    (∀ o ∈ [Op.remove_tlb_entry 0 8192, Op.pte_free 9 4194304, Op.flush_mmu,
        Op.remove_tlb_entry 0 4660], o.no_wrap armv7_smp = true) ∧
    (0 < (run armv7_smp [Op.remove_tlb_entry 0 8192, Op.pte_free 9 4194304, Op.flush_mmu,
        Op.remove_tlb_entry 0 4660]
        (tlb_start_vma armv7_smp ⟨0, 8388608⟩ (sample_world 0 none 0 0))).tlb.range_end →
      (run armv7_smp [Op.remove_tlb_entry 0 8192, Op.pte_free 9 4194304, Op.flush_mmu,
        Op.remove_tlb_entry 0 4660]
        (tlb_start_vma armv7_smp ⟨0, 8388608⟩ (sample_world 0 none 0 0))).tlb.range_start ≤
      (run armv7_smp [Op.remove_tlb_entry 0 8192, Op.pte_free 9 4194304, Op.flush_mmu,
        Op.remove_tlb_entry 0 4660]
        (tlb_start_vma armv7_smp ⟨0, 8388608⟩ (sample_world 0 none 0 0))).tlb.range_end) :=
  ⟨by decide, by decide,
   range_well_formed armv7_smp (sample_world 0 none 0 0) (by decide) ⟨0, 8388608⟩
     [Op.remove_tlb_entry 0 8192, Op.pte_free 9 4194304, Op.flush_mmu,
      Op.remove_tlb_entry 0 4660] (by decide)⟩

/-- C17 (counterexample): with 4 KiB pages, right after `tlb_start_vma` the call
`tlb_remove_tlb_entry(0xFFFFFFFF)` leaves `range_start = TASK_SIZE` (the address is not below
it) and sets `range_end` to `0xFFFFFFFF + 0x1000` modulo `2^32`, that is `0xFFF`: the interval
is non-empty and `range_start > range_end`. -/
theorem range_wraps_below_start :
    (sample_world 0 none 0 0).tlb.fullmm = 0 ∧
    (run armv7_smp [Op.remove_tlb_entry 0 4294967295]
      (tlb_start_vma armv7_smp ⟨0, 8388608⟩ (sample_world 0 none 0 0))).tlb.range_start =
      3204448256 ∧
    (run armv7_smp [Op.remove_tlb_entry 0 4294967295]
      (tlb_start_vma armv7_smp ⟨0, 8388608⟩ (sample_world 0 none 0 0))).tlb.range_end = 4095 ∧
    0 < (run armv7_smp [Op.remove_tlb_entry 0 4294967295]
      (tlb_start_vma armv7_smp ⟨0, 8388608⟩ (sample_world 0 none 0 0))).tlb.range_end ∧
    ¬ (run armv7_smp [Op.remove_tlb_entry 0 4294967295]
        (tlb_start_vma armv7_smp ⟨0, 8388608⟩ (sample_world 0 none 0 0))).tlb.range_start ≤
      (run armv7_smp [Op.remove_tlb_entry 0 4294967295]
        (tlb_start_vma armv7_smp ⟨0, 8388608⟩ (sample_world 0 none 0 0))).tlb.range_end := by
  decide

/-! ## Closing a session -/

theorem finish_same_store (P : Platform) (s e : Nat) (w : World) :
    same_store (tlb_flush_mmu P w) (tlb_finish_mmu P s e w) ∧
    (tlb_finish_mmu P s e w).tlb.vma = (tlb_flush_mmu P w).tlb.vma := by
  unfold tlb_finish_mmu
  dsimp only
  rw [emit_tlb]
  cases (tlb_flush_mmu P w).tlb.pages <;> simp [same_store, emit]

theorem released_finish_tail (p : PagesPtr) :
    released (Event.check_pgt_cache ::
      (match p with
        | .local_ => []
        | .page a => [Event.free_pages a])) = [] := by
  cases p <;> rfl

/-- The pages released by a whole buffered session are the reported pages, and the closed
session holds no buffered page. -/
theorem session_finish_released (P : Platform) (hs : P.sane) (hf : tlb_fast_mode P = 0)
    (t : mmu_gather) (heap : Nat → Nat → Nat) (oracle : Nat → Nat) (mm fullmm : Nat)
    (ops : List Op) (s e : Nat) :
    released (tlb_finish_mmu P s e
      (run P ops (tlb_gather_mmu P mm fullmm (boot t heap oracle)))).trace = reported ops ∧
    (tlb_finish_mmu P s e
      (run P ops (tlb_gather_mmu P mm fullmm (boot t heap oracle)))).tlb.nr = 0 := by
  obtain ⟨s1, s2, -⟩ := session_step P hs hf t heap oracle mm fullmm ops
  obtain ⟨-, f2, -⟩ := tlb_flush_mmu_step P hs hf _ s1.2
  have hnr := (tlb_flush_mmu_buffered_frame P
    (run P ops (tlb_gather_mmu P mm fullmm (boot t heap oracle))) hf).1
  rw [pending_nil _ hnr] at f2
  refine ⟨?_, ((finish_same_store P s e _).1.2.2.2.1).trans hnr⟩
  rw [finish_trace, released_append, released_finish_tail]
  simp only [List.append_nil] at f2 ⊢
  rw [f2, s2]

/-- C18: double close under the Buffered policy. After a whole session closed by
`tlb_finish_mmu`, `nr = 0`; a second `tlb_finish_mmu` records, after the calls of `tlb_flush`,
`free_pages_and_swap_cache` with an empty page list, and no other release. The pages released
over the session and both closes together are the reported pages, each once, in order. -/
theorem double_close_releases_nothing (P : Platform) (hs : P.sane) (hf : tlb_fast_mode P = 0)
    (t : mmu_gather) (heap : Nat → Nat → Nat) (oracle : Nat → Nat) (mm fullmm : Nat)
    (ops : List Op) (s1 e1 s2 e2 : Nat) :
    (tlb_finish_mmu P s1 e1
      (run P ops (tlb_gather_mmu P mm fullmm (boot t heap oracle)))).tlb.nr = 0 ∧
    (∃ post, (tlb_finish_mmu P s2 e2 (tlb_finish_mmu P s1 e1
          (run P ops (tlb_gather_mmu P mm fullmm (boot t heap oracle))))).trace =
        (tlb_finish_mmu P s1 e1
          (run P ops (tlb_gather_mmu P mm fullmm (boot t heap oracle)))).trace ++
        flush_events (tlb_finish_mmu P s1 e1
          (run P ops (tlb_gather_mmu P mm fullmm (boot t heap oracle)))) ++
        Event.free_pages_and_swap_cache [] :: post ∧
      ∀ x ∈ post, x.is_release = false) ∧
    released (tlb_finish_mmu P s1 e1
      (run P ops (tlb_gather_mmu P mm fullmm (boot t heap oracle)))).trace = reported ops ∧
    released (tlb_finish_mmu P s2 e2 (tlb_finish_mmu P s1 e1
      (run P ops (tlb_gather_mmu P mm fullmm (boot t heap oracle))))).trace = reported ops := by
  obtain ⟨c1, c2⟩ := session_finish_released P hs hf t heap oracle mm fullmm ops s1 e1
  have hp := pending_nil _ c2
  have ht : (tlb_finish_mmu P s2 e2 (tlb_finish_mmu P s1 e1
        (run P ops (tlb_gather_mmu P mm fullmm (boot t heap oracle))))).trace =
      (tlb_finish_mmu P s1 e1
        (run P ops (tlb_gather_mmu P mm fullmm (boot t heap oracle)))).trace ++
      flush_events (tlb_finish_mmu P s1 e1
        (run P ops (tlb_gather_mmu P mm fullmm (boot t heap oracle)))) ++
      release_events (tlb_finish_mmu P s1 e1
        (run P ops (tlb_gather_mmu P mm fullmm (boot t heap oracle)))) ++
      Event.check_pgt_cache ::
        (match (tlb_flush_mmu P (tlb_finish_mmu P s1 e1
            (run P ops (tlb_gather_mmu P mm fullmm (boot t heap oracle))))).tlb.pages with
          | .local_ => []
          | .page a => [Event.free_pages a]) := by
    rw [finish_trace, tlb_flush_mmu_buffered_trace P _ hf]
  refine ⟨c2, ?_, c1, ?_⟩
  · refine ⟨(if (tlb_finish_mmu P s1 e1
          (run P ops (tlb_gather_mmu P mm fullmm (boot t heap oracle)))).tlb.pages = .local_
        then [Event.get_free_pages ((tlb_finish_mmu P s1 e1
          (run P ops (tlb_gather_mmu P mm fullmm (boot t heap oracle)))).oracle
            (tlb_finish_mmu P s1 e1
          (run P ops (tlb_gather_mmu P mm fullmm (boot t heap oracle)))).calls)] else []) ++
        Event.check_pgt_cache ::
        (match (tlb_flush_mmu P (tlb_finish_mmu P s1 e1
            (run P ops (tlb_gather_mmu P mm fullmm (boot t heap oracle))))).tlb.pages with
          | .local_ => []
          | .page a => [Event.free_pages a]), ?_, ?_⟩
    · rw [ht]
      unfold release_events
      rw [hp]
      simp
    · intro x hx
      rcases List.mem_append.mp hx with hx | hx
      · split_ifs at hx
        · rw [List.mem_singleton.mp hx]
          rfl
        · simp at hx
      · cases hq : (tlb_flush_mmu P (tlb_finish_mmu P s1 e1
            (run P ops (tlb_gather_mmu P mm fullmm (boot t heap oracle))))).tlb.pages with
        | local_ =>
          rw [hq] at hx
          rw [List.mem_singleton.mp hx]
          rfl
        | page a =>
          rw [hq] at hx
          simp only [List.mem_cons, List.mem_singleton, List.not_mem_nil, or_false] at hx
          rcases hx with rfl | rfl <;> rfl
  · rw [ht, released_append, released_append, released_append, released_flush_events,
      released_release_events, released_finish_tail, hp, c1]
    simp

theorem double_close_releases_nothing_witness :
    armv7_smp.sane ∧ tlb_fast_mode armv7_smp = 0 ∧
    released (tlb_finish_mmu armv7_smp 0 0 (tlb_finish_mmu armv7_smp 0 0
      (run armv7_smp [Op.remove_page 11, Op.remove_page 12]
        (tlb_gather_mmu armv7_smp 5 0
          (boot zero_gather (fun _ _ => 0) (fun _ => 20480)))))).trace =
      reported [Op.remove_page 11, Op.remove_page 12] :=
  ⟨by decide, by decide,
   (double_close_releases_nothing armv7_smp (by decide) (by decide) zero_gather (fun _ _ => 0)
     (fun _ => 20480) 5 0 [Op.remove_page 11, Op.remove_page 12] 0 0 0 0).2.2.2⟩

/-! ## The overflow buffer over a session -/

theorem alloc_results_append (l1 l2 : List Event) :
    alloc_results (l1 ++ l2) = alloc_results l1 ++ alloc_results l2 := by
  induction l1 with
  | nil => rfl
  | cons e rest ih => cases e <;> simp [alloc_results, ih]

theorem freed_append (l1 l2 : List Event) : freed (l1 ++ l2) = freed l1 ++ freed l2 := by
  induction l1 with
  | nil => rfl
  | cons e rest ih => cases e <;> simp [freed, ih]

theorem flush_events_no_alloc (w : World) :
    alloc_results (flush_events w) = [] ∧ freed (flush_events w) = [] := by
  unfold flush_events
  split_ifs <;> exact ⟨rfl, rfl⟩

theorem held_of_pages_eq (w w2 : World) (h : w2.tlb.pages = w.tlb.pages) : held w2 = held w := by
  unfold held
  rw [h]

/-- Calls other than `__get_free_pages` and `free_pages` that leave `tlb->pages` alone keep
`AllocInv`. -/
theorem alloc_inv_of_ext (w w2 : World) (seg : List Event) (h : AllocInv w)
    (ht : w2.trace = w.trace ++ seg) (ha : alloc_results seg = []) (hfr : freed seg = [])
    (hp : w2.tlb.pages = w.tlb.pages) : AllocInv w2 := by
  obtain ⟨h1, h2, n, h3⟩ := h
  refine ⟨by rw [ht, freed_append, h1, hfr]; rfl, fun a hq => h2 a (hp ▸ hq), n, ?_⟩
  rw [ht, alloc_results_append, ha, h3, held_of_pages_eq w w2 hp]
  simp

theorem replicate_zero_snoc (n : Nat) : List.replicate n 0 ++ [0] = List.replicate (n + 1) 0 := by
  rw [List.replicate_succ']

/-- An allocation attempt made while the inline store is active keeps `AllocInv`. -/
theorem alloc_inv_alloc (P : Platform) (w : World) (h : AllocInv w)
    (hl : w.tlb.pages = .local_) : AllocInv (__tlb_alloc_page P w) := by
  obtain ⟨h1, -, n, h3⟩ := h
  have hh : held w = [] := by simp [held, hl]
  rw [hh, List.append_nil] at h3
  unfold __tlb_alloc_page
  dsimp only
  by_cases hr : w.oracle w.calls = 0
  · simp only [hr, ne_eq, not_true_eq_false, if_false]
    refine ⟨?_, ?_, n + 1, ?_⟩
    · simp [emit, freed_append, h1, freed]
    · intro a hq
      simp [emit, hl] at hq
    · simp only [emit, alloc_results_append, h3, alloc_results, held, hl, List.append_nil]
      exact replicate_zero_snoc n
  · simp only [hr, ne_eq, not_false_eq_true, if_true]
    refine ⟨?_, ?_, n, ?_⟩
    · simp [emit, freed_append, h1, freed]
    · intro a hq
      simp only [PagesPtr.page.injEq] at hq
      rw [← hq]
      exact hr
    · simp only [emit, alloc_results_append, h3, alloc_results, held]

theorem tlb_flush_mmu_alloc_inv (P : Platform) (hf : tlb_fast_mode P = 0) (w : World)
    (h : AllocInv w) : AllocInv (tlb_flush_mmu P w) := by
  have hs := tlb_flush_same_store P w
  have h3 : AllocInv
      { emit (Event.free_pages_and_swap_cache (pending (tlb_flush P w))) (tlb_flush P w) with
        tlb := { (emit (Event.free_pages_and_swap_cache (pending (tlb_flush P w)))
                  (tlb_flush P w)).tlb with nr := 0 } } := by
    refine alloc_inv_of_ext w _ (flush_events w ++
      [Event.free_pages_and_swap_cache (pending (tlb_flush P w))]) h ?_ ?_ ?_ ?_
    · simp [emit, tlb_flush_trace]
    · rw [alloc_results_append, (flush_events_no_alloc w).1]
      rfl
    · rw [freed_append, (flush_events_no_alloc w).2]
      rfl
    · exact hs.2.2.2.2.2.1
  unfold tlb_flush_mmu
  simp only [hf, if_true]
  split_ifs with hl
  · exact alloc_inv_alloc P _ h3 hl
  · exact h3

theorem tlb_remove_page_alloc_inv (P : Platform) (hf : tlb_fast_mode P = 0) (page : Nat)
    (w : World) (h : AllocInv w) : AllocInv (tlb_remove_page P page w) := by
  obtain ⟨-, -, -, r4, -, -, -, -, -, -, -, r12, -⟩ := remove_page_buffered_frame P page w hf
  have h1 : AllocInv (__tlb_remove_page P page w).1 := by
    refine alloc_inv_of_ext w _ _ h r12 ?_ ?_ r4
    · split_ifs <;> rfl
    · split_ifs <;> rfl
  unfold tlb_remove_page
  dsimp only
  split_ifs
  · exact tlb_flush_mmu_alloc_inv P hf _ h1
  · exact h1

theorem exec_alloc_inv (P : Platform) (hf : tlb_fast_mode P = 0) (o : Op) (w : World)
    (h : AllocInv w) : AllocInv (exec P o w) := by
  cases o with
  | remove_page page => exact tlb_remove_page_alloc_inv P hf page w h
  | remove_tlb_entry ptep addr =>
    exact alloc_inv_of_ext w _ [] h (by simp [exec, tlb_remove_tlb_entry, tlb_add_flush_trace])
      rfl rfl (tlb_add_flush_same_store P addr w).2.2.2.2.2.1
  | start_vma vma =>
    refine alloc_inv_of_ext w _ _ h (tlb_start_vma_trace P vma w) ?_ ?_
      (tlb_start_vma_same_store P vma w).2.2.2.2.2.1
    · split_ifs <;> rfl
    · split_ifs <;> rfl
  | end_vma vma =>
    refine alloc_inv_of_ext w _ _ h (tlb_end_vma_trace P vma w) ?_ ?_
      (tlb_end_vma_same_store P vma w).2.2.2.2.2.1
    · split_ifs
      · exact (flush_events_no_alloc w).1
      · rfl
    · split_ifs
      · exact (flush_events_no_alloc w).2
      · rfl
  | flush_mmu => exact tlb_flush_mmu_alloc_inv P hf w h
  | pte_free pte addr =>
    obtain ⟨f1, f2, -⟩ := pte_free_extend_frame P pte addr w
    have h1 : AllocInv (pte_free_extend P pte addr w) :=
      alloc_inv_of_ext w _ _ h f2 rfl rfl f1.2.2.2.2.2.1
    exact tlb_remove_page_alloc_inv P hf pte _ h1

theorem run_alloc_inv (P : Platform) (hf : tlb_fast_mode P = 0) (ops : List Op) :
    ∀ w, AllocInv w → AllocInv (run P ops w) := by
  induction ops with
  | nil => exact fun w h => h
  | cons o rest ih => exact fun w h => ih _ (exec_alloc_inv P hf o w h)

theorem gather_alloc_inv (P : Platform) (mm fullmm : Nat) (t : mmu_gather)
    (heap : Nat → Nat → Nat) (oracle : Nat → Nat) :
    AllocInv (tlb_gather_mmu P mm fullmm (boot t heap oracle)) := by
  unfold tlb_gather_mmu
  apply alloc_inv_alloc
  · refine ⟨rfl, ?_, 0, rfl⟩
    intro a hq
    simp at hq
  · rfl

theorem finish_tail_eq (p : PagesPtr) :
    (match p with
      | .local_ => []
      | .page a => [Event.free_pages a]) =
    (match p with
      | .local_ => []
      | .page a => [a]).map Event.free_pages := by
  cases p <;> rfl

theorem finish_trace_held (P : Platform) (s e : Nat) (w : World) :
    (tlb_finish_mmu P s e w).trace =
      (tlb_flush_mmu P w).trace ++
        Event.check_pgt_cache :: (held (tlb_flush_mmu P w)).map Event.free_pages := by
  rw [finish_trace, finish_tail_eq]
  rfl

theorem freed_map_free_pages (l : List Nat) : freed (l.map Event.free_pages) = l := by
  induction l with
  | nil => rfl
  | cons a rest ih => simp [freed, ih]

theorem alloc_results_map_free_pages (l : List Nat) :
    alloc_results (l.map Event.free_pages) = [] := by
  induction l with
  | nil => rfl
  | cons a rest ih => simp [alloc_results, ih]

theorem filter_nonzero_replicate (n : Nat) (l : List Nat) :
    (List.replicate n 0 ++ l).filter (fun r => decide (r ≠ 0)) =
      l.filter (fun r => decide (r ≠ 0)) := by
  induction n with
  | zero => simp
  | succ k ih =>
    rw [List.replicate_succ, List.cons_append, List.filter_cons]
    simp

theorem held_facts (w : World) (h : ∀ a, w.tlb.pages = .page a → a ≠ 0) :
    (held w).length ≤ 1 ∧ (∀ a ∈ held w, a ≠ 0) ∧
    (held w).filter (fun r => decide (r ≠ 0)) = held w := by
  unfold held
  cases hp : w.tlb.pages with
  | local_ => simp
  | page a =>
    have := h a hp
    simp [this]

/-- C14: closing a Buffered session. `tlb_finish_mmu` records the calls of a full
`tlb_flush_mmu` (invalidate, release of every buffered page, possibly one allocation
attempt), then `check_pgt_cache`, then `free_pages` on the overflow buffer exactly when one is
held, and leaves `nr = 0`. In every state reached from `tlb_gather_mmu`, whatever the
allocator answers, nothing has been freed yet and every allocation attempt so far has failed
except the last one when a buffer is held: attempts are made only while the inline store is
active and at most one buffer is held. Over the whole session the buffers freed are exactly
the buffers successfully allocated, at most one. -/
theorem close_frees_overflow_once (P : Platform) (hf : tlb_fast_mode P = 0) (t : mmu_gather)
    (heap : Nat → Nat → Nat) (oracle : Nat → Nat) (mm fullmm : Nat) (ops : List Op)
    (s e : Nat) :
    ((tlb_finish_mmu P s e
        (run P ops (tlb_gather_mmu P mm fullmm (boot t heap oracle)))).trace =
      (run P ops (tlb_gather_mmu P mm fullmm (boot t heap oracle))).trace ++
        flush_events (run P ops (tlb_gather_mmu P mm fullmm (boot t heap oracle))) ++
        Event.free_pages_and_swap_cache
          (pending (run P ops (tlb_gather_mmu P mm fullmm (boot t heap oracle)))) ::
        (if (run P ops (tlb_gather_mmu P mm fullmm (boot t heap oracle))).tlb.pages = .local_
          then [Event.get_free_pages
            ((run P ops (tlb_gather_mmu P mm fullmm (boot t heap oracle))).oracle
              (run P ops (tlb_gather_mmu P mm fullmm (boot t heap oracle))).calls)]
          else []) ++
        Event.check_pgt_cache ::
          (held (tlb_flush_mmu P
            (run P ops (tlb_gather_mmu P mm fullmm (boot t heap oracle))))).map
            Event.free_pages ∧
      (tlb_finish_mmu P s e
        (run P ops (tlb_gather_mmu P mm fullmm (boot t heap oracle)))).tlb.nr = 0) ∧
    (freed (run P ops (tlb_gather_mmu P mm fullmm (boot t heap oracle))).trace = [] ∧
      (held (run P ops (tlb_gather_mmu P mm fullmm (boot t heap oracle)))).length ≤ 1 ∧
      (∀ a ∈ held (run P ops (tlb_gather_mmu P mm fullmm (boot t heap oracle))), a ≠ 0) ∧
      ∃ n, alloc_results (run P ops (tlb_gather_mmu P mm fullmm (boot t heap oracle))).trace =
        List.replicate n 0 ++
          held (run P ops (tlb_gather_mmu P mm fullmm (boot t heap oracle)))) ∧
    (freed (tlb_finish_mmu P s e
        (run P ops (tlb_gather_mmu P mm fullmm (boot t heap oracle)))).trace =
      allocated (tlb_finish_mmu P s e
        (run P ops (tlb_gather_mmu P mm fullmm (boot t heap oracle)))).trace ∧
      (freed (tlb_finish_mmu P s e
        (run P ops (tlb_gather_mmu P mm fullmm (boot t heap oracle)))).trace).length ≤ 1) := by
  have hinv := run_alloc_inv P hf ops _ (gather_alloc_inv P mm fullmm t heap oracle)
  have hinv2 := tlb_flush_mmu_alloc_inv P hf _ hinv
  obtain ⟨i1, i2, n, i3⟩ := hinv
  obtain ⟨j1, j2, m, j3⟩ := hinv2
  obtain ⟨k1, k2, -⟩ := held_facts _ i2
  obtain ⟨l1, -, l3⟩ := held_facts _ j2
  have hnr := (tlb_flush_mmu_buffered_frame P
    (run P ops (tlb_gather_mmu P mm fullmm (boot t heap oracle))) hf).1
  have hfreed : freed (tlb_finish_mmu P s e
      (run P ops (tlb_gather_mmu P mm fullmm (boot t heap oracle)))).trace =
      held (tlb_flush_mmu P (run P ops (tlb_gather_mmu P mm fullmm (boot t heap oracle)))) := by
    rw [finish_trace_held, freed_append, j1]
    simp [freed, freed_map_free_pages]
  refine ⟨⟨?_, ((finish_same_store P s e _).1.2.2.2.1).trans hnr⟩, ⟨i1, k1, k2, n, i3⟩, ?_, ?_⟩
  · rw [finish_trace_held, tlb_flush_mmu_buffered_trace P _ hf]
    unfold release_events
    simp
  · rw [hfreed]
    unfold allocated
    rw [finish_trace_held, alloc_results_append, j3]
    simp only [alloc_results, alloc_results_map_free_pages, List.append_nil]
    rw [filter_nonzero_replicate, l3]
  · rw [hfreed]
    exact l1

theorem close_frees_overflow_once_witness :
    tlb_fast_mode armv7_smp = 0 ∧
    freed (tlb_finish_mmu armv7_smp 0 0
      (run armv7_smp [Op.remove_page 11, Op.flush_mmu, Op.remove_page 12]
        (tlb_gather_mmu armv7_smp 5 0
          (boot zero_gather (fun _ _ => 0) (fun k => if k = 1 then 20480 else 0))))).trace =
    allocated (tlb_finish_mmu armv7_smp 0 0
      (run armv7_smp [Op.remove_page 11, Op.flush_mmu, Op.remove_page 12]
        (tlb_gather_mmu armv7_smp 5 0
          (boot zero_gather (fun _ _ => 0) (fun k => if k = 1 then 20480 else 0))))).trace :=
  ⟨by decide,
   (close_frees_overflow_once armv7_smp (by decide) zero_gather (fun _ _ => 0)
     (fun k => if k = 1 then 20480 else 0) 5 0
     [Op.remove_page 11, Op.flush_mmu, Op.remove_page 12] 0 0).2.2.1⟩

end ArmTlb
